import Mathlib

/-!
Verification of the Platformer repository's world generation, navigation and
kinematics code against its specification.

Embedding conventions:
* tile grids are lists of rows, each row a list of characters, exactly the
  `grid` value built by `world/loader.py` (`'.'` empty, `'#'` solid, `'P'` spawn,
  `'^'` spikes, `'C'` crumble, `'M'` moving platform);
* Python ints are `ℤ`; Python floats are exact rationals `ℚ`.  Wherever a
  float computation feeds an integer decision that theorems below depend on,
  the embedding uses an integer form of that decision and records (in a
  comment or a `_spec` theorem) why it agrees with IEEE-754 double semantics
  at the values the repository can actually produce there;
* Python's `random.Random` is modeled by an abstract draw stream: each
  primitive draw is an arbitrary natural number and every bounded operation
  maps a draw onto its full output range, so every concrete Mersenne-Twister
  run is one instance of such a stream, and facts proved for all streams hold
  in particular for the concrete generator;
* reads or writes outside the grid raise in Python; the embedding makes them
  inert (reads default to `'.'`, writes are dropped).  All sites exercised by
  the theorems below stay in bounds at the dimensions used.
-/

namespace Platformer

/-- A tile grid: list of rows, each row a list of cell characters. -/
abbrev Grid := List (List Char)

/-- `_is_solid` from world/loader.py. -/
def isSolidCh (c : Char) : Bool := c = '#' || c = 'C' || c = 'M'

/-- `_is_empty` from world/loader.py. -/
def isEmptyCh (c : Char) : Bool := c = '.' || c = 'P' || c = '^'

/-- Read a cell; out-of-range reads return `'.'` (all verified read sites are in bounds). -/
def getCellD (g : Grid) (y x : ℤ) : Char :=
  if 0 ≤ y ∧ 0 ≤ x then ((g[y.toNat]?).bind (fun row => row[x.toNat]?)).getD '.' else '.'

/-- Write a cell; out-of-range writes are dropped (matching the explicit bound
guards at every Python write site exercised below). -/
def setCell (g : Grid) (y x : ℤ) (c : Char) : Grid :=
  if 0 ≤ y ∧ 0 ≤ x then
    match g[y.toNat]? with
    | some row => g.set y.toNat (row.set x.toNat c)
    | none => g
  else g

/-- Python `range(a, b)` over integers. -/
def rangeZ (a b : ℤ) : List ℤ := (List.range (b - a).toNat).map (fun i : ℕ => a + (i : ℤ))

/-- Python `range(a, b, s)` for a positive step `s`. -/
def rangeZstep (a b s : ℤ) : List ℤ :=
  (List.range (((b - a) + s - 1) / s).toNat).map (fun i : ℕ => a + s * (i : ℤ))

/-- Python `int(q)` on a float value: truncation toward zero. -/
def pyint (q : ℚ) : ℤ := if q < 0 then ⌈q⌉ else ⌊q⌋

/-- Python `round(q)` at the loader's call sites.  Python rounds halves to
even; every argument `round` receives in world/loader.py is far from a
half-integer (2.0204…, 4.0408…, 2.6939… — see the `_spec` theorems below),
where Python's rounding and Mathlib's `round` agree. -/
def pyround (q : ℚ) : ℤ := round q

/-! ### Movement envelope (core/settings.py constants, world/loader.py derivations)

The loader derives five integer envelope parameters from the kinematic
constants `GRAVITY = 2600`, `JUMP_SPEED = 820`, `MOVE_SPEED = 380`,
`TILE_SIZE = 48`.  Each parameter is defined below by its integer value so
that the generator stays kernel-computable, and a `_spec` theorem proves the
value against the source formula evaluated in exact rational arithmetic.
The float evaluations agree: every intermediate here is an IEEE double within
relative error 2⁻⁵² of the rational value, and each rounding/truncation site
sits at distance ≥ 0.006 from the nearest integer or half-integer boundary. -/

def TILE_SIZE : ℚ := 48
def GRAVITY : ℚ := 2600
def JUMP_SPEED : ℚ := 820
def MOVE_SPEED : ℚ := 380

/-- `_single_jump_height_px`: `(JUMP_SPEED * JUMP_SPEED) / (2.0 * GRAVITY)` = 129.307…. -/
def singleJumpHeightPx : ℚ := (JUMP_SPEED * JUMP_SPEED) / (2 * GRAVITY)

/-- `_time_to_apex`: `JUMP_SPEED / GRAVITY`. -/
def timeToApex : ℚ := JUMP_SPEED / GRAVITY

/-- `min_gap_tiles = max(1, int(round((0.75 * h1) / TILE_SIZE)))` = round(2.0204…) = 2. -/
def minGapTiles : ℤ := 2

theorem minGapTiles_spec :
    minGapTiles = max 1 (pyround ((0.75 * singleJumpHeightPx) / TILE_SIZE)) := by
  norm_num [minGapTiles, pyround, singleJumpHeightPx, JUMP_SPEED, GRAVITY, TILE_SIZE, round_eq]

/-- `max_gap_tiles = max(min_gap_tiles, int(round((1.50 * h1) / TILE_SIZE)))` = round(4.0408…) = 4. -/
def maxGapTiles : ℤ := 4

theorem maxGapTiles_spec :
    maxGapTiles = max minGapTiles (pyround ((1.50 * singleJumpHeightPx) / TILE_SIZE)) := by
  norm_num [maxGapTiles, minGapTiles, pyround, singleJumpHeightPx, JUMP_SPEED, GRAVITY,
    TILE_SIZE, round_eq]

/-- `approx_single_h_tiles = max(1, int(round(h1 / TILE_SIZE)))` = round(2.6939…) = 3. -/
def approxSingleHTiles : ℤ := 3

theorem approxSingleHTiles_spec :
    approxSingleHTiles = max 1 (pyround (singleJumpHeightPx / TILE_SIZE)) := by
  norm_num [approxSingleHTiles, pyround, singleJumpHeightPx, JUMP_SPEED, GRAVITY, TILE_SIZE,
    round_eq]

/-- `max_dx_single = max(3, int((MOVE_SPEED * single_air) / TILE_SIZE))` with
`single_air = 2·t_apex`; the truncated value is int(4.9935…) = 4. -/
def maxDxSingle : ℤ := 4

theorem maxDxSingle_spec :
    maxDxSingle = max 3 (pyint ((MOVE_SPEED * (2 * timeToApex)) / TILE_SIZE)) := by
  norm_num [maxDxSingle, pyint, timeToApex, MOVE_SPEED, JUMP_SPEED, GRAVITY, TILE_SIZE]

/-- `max_dx_double = max(max_dx_single + 2, int((MOVE_SPEED * double_air) / TILE_SIZE))` with
`double_air = 4·t_apex`; the truncated value is int(9.9871…) = 9. -/
def maxDxDouble : ℤ := 9

theorem maxDxDouble_spec :
    maxDxDouble = max (maxDxSingle + 2) (pyint ((MOVE_SPEED * (4 * timeToApex)) / TILE_SIZE)) := by
  norm_num [maxDxDouble, maxDxSingle, pyint, timeToApex, MOVE_SPEED, JUMP_SPEED, GRAVITY,
    TILE_SIZE]

/-! ### Reachability validator (`_reachable_validator`, world/loader.py lines 79–135) -/

/-- `int(0.70 * min_gap_tiles)` as evaluated on doubles, for `m ≥ 0`.  The
double nearest 0.70 is 0.70·(1−δ) with δ ≈ 6.3·10⁻¹⁷ < 2⁻⁵³, so the product
rounds back to 7m/10 exactly when that is an integer and otherwise stays in
the same unit interval; truncation therefore yields `⌊7m/10⌋` throughout the
parameter range. -/
def bandLo (m : ℤ) : ℤ := 7 * m / 10

/-- `int(1.20 * max_gap_tiles)` as evaluated on doubles, for `m ≥ 0` (same
argument as `bandLo`, with δ ≈ 3.7·10⁻¹⁷). -/
def bandHi (m : ℤ) : ℤ := 6 * m / 5

theorem bandLo_spec : bandLo minGapTiles = pyint ((0.70 : ℚ) * minGapTiles) := by
  norm_num [bandLo, minGapTiles, pyint]

theorem bandHi_spec : bandHi maxGapTiles = pyint ((1.20 : ℚ) * maxGapTiles) := by
  norm_num [bandHi, maxGapTiles, pyint]

/-- `_top_surface_cells`: all `(x, y-1)` with `grid[y][x]` solid and `grid[y-1][x]` empty,
scanned rows outer (from 1), columns inner. -/
def topSurfaceCells (g : Grid) : List (ℤ × ℤ) :=
  let rows : ℤ := g.length
  let cols : ℤ := (g.headD []).length
  (rangeZ 1 rows).flatMap fun y =>
    (rangeZ 0 cols).filterMap fun x =>
      if isSolidCh (getCellD g y x) && isEmptyCh (getCellD g (y - 1) x) then
        some (x, y - 1)
      else none

/-- `tops_by_y[y]` as a list of x coordinates in insertion order. -/
def topsRow (tops : List (ℤ × ℤ)) (y : ℤ) : List ℤ :=
  (tops.filter (fun c => c.2 == y)).map Prod.fst

/-- The start-cell scan of `_reachable_validator`: the first top strictly closer
(in Manhattan distance to the spawn) than every earlier one, seeded with 10^9. -/
def startCell (tops : List (ℤ × ℤ)) (sx sy : ℤ) : Option (ℤ × ℤ) :=
  (tops.foldl
    (fun (acc : Option (ℤ × ℤ) × ℤ) c =>
      let d := |c.1 - sx| + |c.2 - sy|
      if d < acc.2 then (some c, d) else acc)
    (none, 10 ^ 9)).1

/-- The acceptance test applied to one candidate `(bx, by)` inside the
`neighbors` generator of `_reachable_validator`: the row window
`max(1, ay-(max_gap+2)) ≤ by < min(rows-1, ay+6)`, then the vertical band
(`int(0.70*min_gap) ≤ dy ≤ int(1.20*max_gap)` when the candidate is higher,
`|dy| ≤ 5` otherwise), then the horizontal bound chosen by whether `dy`
exceeds the approximate single-jump height. -/
def edgeOk (rows minGap maxGap dxS dxD approxH ax ay bx by_ : ℤ) : Bool :=
  decide (max 1 (ay - (maxGap + 2)) ≤ by_ ∧ by_ < min (rows - 1) (ay + 6)) &&
  (let dy := ay - by_
   let maxDx := if dy > approxH then dxD else dxS
   (if dy > 0 then decide (bandLo minGap ≤ dy ∧ dy ≤ bandHi maxGap)
    else decide (|dy| ≤ 5)) &&
   decide (|bx - ax| ≤ maxDx))

/-- The candidate list produced by one call of the `neighbors` generator, in
generation order (row window outer, per-row top list inner). -/
def neighborsList (tops : List (ℤ × ℤ)) (rows minGap maxGap dxS dxD approxH ax ay : ℤ) :
    List (ℤ × ℤ) :=
  (rangeZ (max 1 (ay - (maxGap + 2))) (min (rows - 1) (ay + 6))).flatMap fun by_ =>
    (topsRow tops by_).filterMap fun bx =>
      if edgeOk rows minGap maxGap dxS dxD approxH ax ay bx by_ then some (bx, by_) else none

/-- Every candidate the generator yields is itself a top surface cell, so
testing membership in the not-yet-visited subset of the tops (as `vloopF`
below does) is the same test as Python's `nb not in visited`. -/
theorem neighborsList_subset_tops (tops : List (ℤ × ℤ))
    (rows minGap maxGap dxS dxD approxH ax ay : ℤ) :
    ∀ c ∈ neighborsList tops rows minGap maxGap dxS dxD approxH ax ay, c ∈ tops := by
  intro c hc
  simp only [neighborsList, List.mem_flatMap, List.mem_filterMap] at hc
  obtain ⟨y, _, x, hx, hacc⟩ := hc
  split at hacc
  · cases hacc
    simp only [topsRow, List.mem_map, List.mem_filter] at hx
    obtain ⟨⟨cx, cy⟩, ⟨hmem, hy⟩, rfl⟩ := hx
    simpa [show cy = y from by simpa using hy] using hmem
  · cases hacc

/-- One sweep of the inner `for nb in neighbors(...)` loop: enqueue each
candidate that is still fresh (not yet visited) and remove it from the fresh
set.  The fresh set is the complement of Python's `visited`. -/
def enqueueAll (cands : List (ℤ × ℤ)) (fresh : Finset (ℤ × ℤ)) (q : List (ℤ × ℤ)) :
    Finset (ℤ × ℤ) × List (ℤ × ℤ) :=
  cands.foldl
    (fun st nb => if nb ∈ st.1 then (st.1.erase nb, st.2 ++ [nb]) else st)
    (fresh, q)

theorem enqueueAll_measure (cands : List (ℤ × ℤ)) :
    ∀ fresh q, (enqueueAll cands fresh q).1.card + (enqueueAll cands fresh q).2.length
      = fresh.card + q.length := by
  induction cands with
  | nil => intro fresh q; rfl
  | cons c cs ih =>
      intro fresh q
      by_cases h : c ∈ fresh
      · have hcard : (fresh.erase c).card + 1 = fresh.card := Finset.card_erase_add_one h
        simp only [enqueueAll, List.foldl_cons, h, if_pos]
        have hrec := ih (fresh.erase c) (q ++ [c])
        simp only [enqueueAll] at hrec
        rw [hrec]
        simp only [List.length_append, List.length_cons, List.length_nil]
        omega
      · simp only [enqueueAll, List.foldl_cons, h, if_neg, ite_false]
        have hrec := ih fresh q
        simp only [enqueueAll] at hrec
        rw [hrec]

/-- Fuel-indexed version of the validator's BFS loop.  The loop pops a cell,
returns `true` as soon as a popped cell's row is at or above the goal row,
otherwise enqueues the fresh generator candidates and continues; an empty
queue yields `false`.  Fuel only discharges termination: `vloopF_fuel` shows
any fuel at least `fresh.card + q.length` gives the same answer, so the run
below with that exact fuel is the Python loop. -/
def vloopF (gy : ℤ) (nbf : ℤ → ℤ → List (ℤ × ℤ)) :
    ℕ → Finset (ℤ × ℤ) → List (ℤ × ℤ) → Bool
  | 0, _, _ => false
  | _ + 1, _, [] => false
  | fuel + 1, fresh, c :: qs =>
      if c.2 ≤ gy then true
      else
        let st := enqueueAll (nbf c.1 c.2) fresh qs
        vloopF gy nbf fuel st.1 st.2

theorem vloopF_fuel (gy : ℤ) (nbf : ℤ → ℤ → List (ℤ × ℤ)) :
    ∀ fuel fresh q, fresh.card + q.length ≤ fuel →
      vloopF gy nbf (fuel + 1) fresh q = vloopF gy nbf fuel fresh q := by
  intro fuel
  induction fuel with
  | zero =>
      intro fresh q h
      have h0 : q.length = 0 := by omega
      rw [List.length_eq_zero] at h0
      subst h0
      rfl
  | succ n ih =>
      intro fresh q h
      match q with
      | [] => rfl
      | c :: qs =>
          simp only [vloopF]
          split
          · rfl
          · apply ih
            have := enqueueAll_measure (nbf c.1 c.2) fresh qs
            simp only [List.length_cons] at h
            omega

/-- The BFS loop run with exactly enough fuel. -/
def vloopRun (gy : ℤ) (nbf : ℤ → ℤ → List (ℤ × ℤ))
    (fresh : Finset (ℤ × ℤ)) (q : List (ℤ × ℤ)) : Bool :=
  vloopF gy nbf (fresh.card + q.length) fresh q

theorem vloopRun_nil (gy : ℤ) (nbf : ℤ → ℤ → List (ℤ × ℤ)) (fresh : Finset (ℤ × ℤ)) :
    vloopRun gy nbf fresh [] = false := by
  rw [vloopRun]
  cases h : fresh.card + ([] : List (ℤ × ℤ)).length
  · rfl
  · rfl

/-- The loop's defining recurrence: exactly the body of the Python `while q:`. -/
theorem vloopRun_cons (gy : ℤ) (nbf : ℤ → ℤ → List (ℤ × ℤ))
    (fresh : Finset (ℤ × ℤ)) (c : ℤ × ℤ) (qs : List (ℤ × ℤ)) :
    vloopRun gy nbf fresh (c :: qs)
      = if c.2 ≤ gy then true
        else vloopRun gy nbf (enqueueAll (nbf c.1 c.2) fresh qs).1
               (enqueueAll (nbf c.1 c.2) fresh qs).2 := by
  have hm := enqueueAll_measure (nbf c.1 c.2) fresh qs
  simp only [vloopRun, List.length_cons, ← Nat.add_assoc]
  rw [show vloopF gy nbf (fresh.card + qs.length + 1) fresh (c :: qs)
        = if c.2 ≤ gy then true
          else vloopF gy nbf (fresh.card + qs.length) (enqueueAll (nbf c.1 c.2) fresh qs).1
                 (enqueueAll (nbf c.1 c.2) fresh qs).2 from rfl]
  by_cases hgy : c.2 ≤ gy
  · rw [if_pos hgy, if_pos hgy]
  · rw [if_neg hgy, if_neg hgy, hm]

/-- `_reachable_validator` from world/loader.py.  Returns whether the BFS over
top-surface cells, started at the top nearest the spawn, reaches a cell whose
row is at or above `goal_y_max`. -/
def reachableValidator (g : Grid) (sx sy gy minGap maxGap dxS dxD approxH : ℤ) : Bool :=
  let rows : ℤ := g.length
  let tops := topSurfaceCells g
  if tops.isEmpty then false
  else
    match startCell tops sx sy with
    | none => false
    | some s =>
        vloopRun gy (fun ax ay => neighborsList tops rows minGap maxGap dxS dxD approxH ax ay)
          (tops.toFinset.erase s) [s]

/-! ### The fallback grid (world/loader.py lines 334–342) -/

/-- A `rows × cols` grid of `'.'`. -/
def blankGrid (cols rows : ℤ) : Grid :=
  List.replicate rows.toNat (List.replicate cols.toNat '.')

/-- `_place_platform`: clamp the horizontal extent into the interior, write
`ch` along row `y`, and return the placed `(x0, x1)` (end exclusive). -/
def placePlatform (g : Grid) (x0 y len_ : ℤ) (ch : Char) : Grid × ℤ × ℤ :=
  let cols : ℤ := (g.headD []).length
  let a := max 1 (min (cols - 2) x0)
  let b := max (a + 2) (min (cols - 1) (x0 + len_))
  (((rangeZ a b).foldl (fun gg x => setCell gg y x ch) g), a, b)

/-- The fallback grid emitted after all generation attempts fail: flat two-row
ground, a spawn at `(4, rows-5)`, and length-6 platforms at row `rows-8` every
8 columns starting at column 5. -/
def fallbackGrid (cols rows : ℤ) : Grid :=
  let g0 := blankGrid cols rows
  let g1 := (rangeZ (rows - 2) rows).foldl
    (fun gg y => (rangeZ 0 cols).foldl (fun g2 x => setCell g2 y x '#') gg) g0
  let g2 := setCell g1 (rows - 5) 4 'P'
  (rangeZstep 5 (cols - 5) 8).foldl (fun gg i => (placePlatform gg i (rows - 8) 6 '#').1) g2

/-! ### Abstract randomness (`random.Random` instances in world/loader.py)

A `random.Random` instance is modeled as a stream of raw natural-number draws
plus a cursor.  Each primitive operation consumes one draw and maps it onto
its exact output range, so any output sequence the Mersenne Twister can
produce is realized by some stream, and properties proved for every stream
hold for the concrete generator. -/

structure Rng where
  s : ℕ → ℕ
  i : ℕ

/-- Consume one raw draw. -/
def Rng.next (r : Rng) : ℕ × Rng := (r.s r.i, ⟨r.s, r.i + 1⟩)

/-- `rng.randint(lo, hi)`: one draw mapped into `[lo, hi]`.  Python raises when
`hi < lo`; the embedding is total (the `max 1` keeps the modulus positive) and
every call site exercised by the theorems below has `lo ≤ hi`, where the
result always lies in `[lo, hi]` and covers it. -/
def Rng.randint (r : Rng) (lo hi : ℤ) : ℤ × Rng :=
  let p := r.next
  (lo + (p.1 : ℤ) % max 1 (hi - lo + 1), p.2)

/-- `rng.random()`: one draw reduced to the 53-bit numerator of the returned
dyadic `k/2^53` (CPython's `random()` returns exactly these values). -/
def Rng.randF (r : Rng) : ℕ × Rng :=
  let p := r.next
  (p.1 % 2 ^ 53, p.2)

/-- `rng.random() < c` for a float literal `c`: the literal's IEEE-754 double
value is stored scaled by `2^57` (an integer for every literal used below), so
the comparison `k/2^53 < c` is exactly `16·k < c·2^57`. -/
def randFLt (v t : ℕ) : Bool := decide (16 * v < t)

/-- 2^57 · (the double nearest 0.05) = 2^57 · 7205759403792794/2^57. -/
def T005 : ℕ := 7205759403792794
/-- 2^57 · (the double nearest 0.06) = 2^57 · 8646911284551352/2^57. -/
def T006 : ℕ := 8646911284551352
/-- 2^57 · (the double nearest 0.08) = 2^57 · 5764607523034235/2^56. -/
def T008 : ℕ := 11529215046068470
/-- 2^57 · (the double nearest 0.10) = 2^57 · 3602879701896397/2^55. -/
def T010 : ℕ := 14411518807585588
/-- 2^57 · (the double nearest 0.16) = 2^57 · 5764607523034235/2^55. -/
def T016 : ℕ := 23058430092136940
/-- 2^57 · (the double nearest 0.35) = 2^57 · 6305039478318694/2^54. -/
def T035 : ℕ := 50440315826549552
/-- 2^57 · (the double nearest 0.90) = 2^57 · 8106479329266893/2^53. -/
def T090 : ℕ := 129703669268270288

/-! ### The generator (`load_demo_level`, world/loader.py lines 138–342) -/

/-- One biome tuple of the loader with its float-derived integer bounds
pre-evaluated (each fold hand-checked against double semantics):
`(name, room_range, extra_range, spike_density, wall_density, intensity)`
with the wall-column count bounds `int(6·wd)`, `int(14·wd + 2)`, the main
platform cap `int(12·intensity)` and the extra-platform cap `int(10·intensity)`. -/
structure Biome where
  roomLo : ℤ
  roomHi : ℤ
  extraLo : ℤ
  extraHi : ℤ
  spikeT : ℕ
  colLo : ℤ
  colHi : ℤ
  platMax : ℤ
  extraLen : ℤ

/-- ruins (0.06, 0.55, 1.0): columns (int 3.3, int 9.7) = (3,9); caps 12, 10.
cavern (0.08, 0.35, 1.2): columns (int 2.1, int 6.9) = (2,6); caps int(14.4)=14, int(12.0)=12.
tower (0.05, 0.75, 0.9): columns (int 4.5, int 12.5) = (4,12); caps int(10.8)=10, int(9.0)=9.
chaos (0.10, 0.60, 1.4): columns (int 3.6, int 10.4) = (3,10); caps int(16.8)=16, int(14.0)=14.
(The doubles 12·1.2, 10·1.4 and 10·0.9 round to exactly 14.0, 14.0 and 9.0.) -/
def biomes : List Biome :=
  [⟨4, 6, 25, 40, T006, 3, 9, 12, 10⟩,
   ⟨3, 5, 35, 55, T008, 2, 6, 14, 12⟩,
   ⟨5, 8, 20, 35, T005, 4, 12, 10, 9⟩,
   ⟨6, 9, 45, 75, T010, 3, 10, 16, 14⟩]

/-- `_place_rect_solid`: write `ch` over `[x0, x0+w) × [y0, y0+h)` (per-cell
bound guards are `setCell`'s). -/
def placeRectSolid (g : Grid) (x0 y0 w h : ℤ) (ch : Char) : Grid :=
  (rangeZ y0 (y0 + h)).foldl
    (fun gg y => (rangeZ x0 (x0 + w)).foldl (fun g2 x => setCell g2 y x ch) gg) g

/-- `_carve_rect_empty`. -/
def carveRectEmpty (g : Grid) (x0 y0 w h : ℤ) : Grid :=
  (rangeZ y0 (y0 + h)).foldl
    (fun gg y => (rangeZ x0 (x0 + w)).foldl (fun g2 x => setCell g2 y x '.') gg) g

/-- A generated room record `(x0, y0, w, h)`. -/
abbrev Room := ℤ × ℤ × ℤ × ℤ

/-- One iteration of the room loop: draw `w, h, x0, y0`, stamp the room shell,
carve its interior, record it, and place its internal platform. -/
def roomStep (cols rows : ℤ) (st : Grid × List Room × Rng) : Grid × List Room × Rng :=
  let dw := st.2.2.randint 14 22
  let dh := dw.2.randint 8 12
  let dx := dh.2.randint 2 (cols - dw.1 - 2)
  let dy := dx.2.randint 2 (rows - dh.1 - 4)
  let g1 := placeRectSolid st.1 dx.1 dy.1 dw.1 dh.1 '#'
  let g2 := carveRectEmpty g1 (dx.1 + 1) (dy.1 + 1) (dw.1 - 2) (dh.1 - 2)
  let dpl := dy.2.randint (max 6 (dw.1 - 10)) (dw.1 - 2)
  let dpx := dpl.2.randint 1 (max 1 (dw.1 - dpl.1 - 1))
  let g3 := (placePlatform g2 (dx.1 + dpx.1) (dy.1 + dh.1 - 2) dpl.1 '#').1
  (g3, st.2.1 ++ [(dx.1, dy.1, dw.1, dh.1)], dpx.2)

/-- The door step for one consecutive room pair (world/loader.py lines 192–214):
with no vertical overlap band (`lo > hi`) the connection is skipped and no draw
is consumed; otherwise a door row is drawn from the band and the three rows
`door_y - 1, door_y, door_y + 1` are carved to `'.'` across the span between
the rooms, under the explicit bound guards.  `doorCarveCell` is the write for
one column of the span: under the bound guard, carve the three cells `door_y`,
`door_y - 1`, `door_y + 1` (in that order) empty. -/
def doorCarveCell (cols rows dy : ℤ) (gg : Grid) (x : ℤ) : Grid :=
  if 1 ≤ x ∧ x ≤ cols - 2 ∧ 1 ≤ dy ∧ dy ≤ rows - 3 then
    setCell (setCell (setCell gg dy x '.') (dy - 1) x '.') (dy + 1) x '.'
  else gg

def doorPairStep (cols rows : ℤ) (st : Grid × Rng) (ra rb : Room) : Grid × Rng :=
  let lo := max (ra.2.1 + 2) (rb.2.1 + 2)
  let hi := min (ra.2.1 + ra.2.2.2 - 3) (rb.2.1 + rb.2.2.2 - 3)
  if lo > hi then st
  else
    let dd := st.2.randint lo hi
    let ax := min (ra.1 + ra.2.2.1 - 1) rb.1
    let bx := max (ra.1 + ra.2.2.1 - 1) rb.1
    let g' := (rangeZ ax (bx + 1)).foldl (doorCarveCell cols rows dd.1) st.1
    (g', dd.2)

/-- All consecutive room pairs, in order. -/
def doorsPhase (cols rows : ℤ) (g : Grid) (rng : Rng) (rooms : List Room) : Grid × Rng :=
  (rooms.zip rooms.tail).foldl (fun st pr => doorPairStep cols rows st pr.1 pr.2) (g, rng)

/-- The candidate loop of the main-path step (up to 160 tries): draw a
horizontal offset, clamp the candidate extent, and accept it unless its
overlap with the platform below exceeds the 30% ratio.  The float comparison
`ov / max(1, w) > 0.30` is exact as `10·ov > 3·max(1, w)`: with `ov, w` small
integers the quotient is never strictly between the double nearest 0.30 and
3/10, and at exactly 3/10 both compare false. -/
def candTry (cols belowCenter curX0 curX1 length maxDx : ℤ) :
    ℕ → Rng → Option (ℤ × ℤ) × Rng
  | 0, rng => (none, rng)
  | n + 1, rng =>
      let dv := rng.randint (-maxDx) maxDx
      let candX0 := max 2 (min (cols - (length + 3)) (belowCenter + dv.1 - length / 2))
      let ov := max 0 (min (candX0 + length) curX1 - max candX0 curX0)
      if 10 * ov > 3 * max 1 (curX1 - curX0) then
        candTry cols belowCenter curX0 curX1 length maxDx n dv.2
      else (some (candX0, candX0 + length), dv.2)

/-- State of the main-path loop: grid, current platform, recorded path,
generator, and Python's `break` flag. -/
structure PathSt where
  g : Grid
  curY : ℤ
  curX0 : ℤ
  curX1 : ℤ
  mainPath : List (ℤ × ℤ × ℤ)
  rng : Rng
  stopped : Bool

/-- One iteration of `while current_y > 4 and safety < 500` (the 500-iteration
safety cap is applied by iterating this step exactly 500 times; once the
condition fails or `break` fired, the step is the identity, consuming no
draws, exactly as the exited Python loop). -/
def pathStep (cols minGap maxGap platMax approxH dxS dxD : ℤ) (st : PathSt) : PathSt :=
  if st.stopped || !(decide (4 < st.curY)) then st
  else
    let dg := st.rng.randint minGap maxGap
    let nextY := st.curY - dg.1
    if nextY < 2 then { st with rng := dg.2, stopped := true }
    else
      let dl := dg.2.randint 4 (max 6 platMax)
      let belowCenter := (st.curX0 + st.curX1) / 2
      let maxDx := if dg.1 > approxH then dxD else dxS
      let t := candTry cols belowCenter st.curX0 st.curX1 dl.1 maxDx 160 dl.2
      let best :=
        match t.1 with
        | some b => (b.1, t.2)
        | none =>
            if belowCenter < cols / 2 then
              let dc := t.2.randint (cols / 2) (cols - (dl.1 + 3))
              (dc.1, dc.2)
            else
              let dc := t.2.randint 2 (max 3 (cols / 2 - (dl.1 + 2)))
              (dc.1, dc.2)
      let pr := placePlatform st.g best.1 nextY dl.1 '#'
      { g := pr.1, curY := nextY, curX0 := pr.2.1, curX1 := pr.2.2,
        mainPath := st.mainPath ++ [(nextY, pr.2.1, pr.2.2)], rng := best.2,
        stopped := false }

/-- One extra decorative platform: position and length draws, then the
crumble/moving/solid choice by two threshold tests on a single `random()`. -/
def extraStep (cols rows extraLen : ℤ) (st : Grid × Rng) : Grid × Rng :=
  let dy := st.2.randint 2 (rows - 6)
  let dl := dy.2.randint 3 extraLen
  let dx := dl.2.randint 2 (cols - (dl.1 + 3))
  let dr := dx.2.randF
  let ch := if randFLt dr.1 T010 then 'C' else if randFLt dr.1 T016 then 'M' else '#'
  ((placePlatform st.1 dx.1 dy.1 dl.1 ch).1, dr.2)

/-- The doorway-gap choice of one wall column (world/loader.py lines 292–295):
with probability 0.9 (and a nonempty main path) pick a main-path platform row,
shift it up by 0–2 rows and clamp; otherwise no gap.  Returns the gap row and
the generator state. -/
def colGap (rows : ℤ) (mp : List (ℤ × ℤ × ℤ)) (r : Rng) : Option ℤ × Rng :=
  if mp.isEmpty then (none, r)
  else
    let dr := r.randF
    if randFLt dr.1 T090 then
      let dch := dr.2.next
      let doff := dch.2.randint 0 2
      (some (max 2 (min (rows - 7) ((mp.getD (dch.1 % mp.length) (0, 0, 0)).1 - doff.1))),
        doff.2)
    else (none, dr.2)

/-- The per-column write of the wall-column phase: rows `y0..y1`, skipping the
doorway gap rows when one was chosen. -/
def colWrite (gapY : Option ℤ) (gapH y0 y1 : ℤ) (g : Grid) (cx : ℤ) : Grid :=
  (rangeZ y0 (y1 + 1)).foldl
    (fun g2 y =>
      match gapY with
      | some gy => if gy ≤ y ∧ y < gy + gapH then g2 else setCell g2 y cx '#'
      | none => setCell g2 y cx '#') g

/-- One wall column: draws for `x, y0, y1`, the optional doorway gap aligned
near a random main-path platform (90% branch), the column write skipping the
gap, and the 35% twin column one tile to the left or right.  `rng.choice(main_path)` and
`rng.choice([-1, 1])` each consume one draw, indexed by it. -/
def colStep (cols rows : ℤ) (mainPath : List (ℤ × ℤ × ℤ)) (st : Grid × Rng) : Grid × Rng :=
  let dx := st.2.randint 4 (cols - 5)
  let dy0 := dx.2.randint 2 (rows / 2)
  let dy1 := dy0.2.randint (rows / 2) (rows - 4)
  let gp := colGap rows mainPath dy1.2
  let dgh := gp.2.randint 3 5
  let g1 := colWrite gp.1 dgh.1 dy0.1 dy1.1 st.1 dx.1
  let dr2 := dgh.2.randF
  if randFLt dr2.1 T035 then
    let dpm := dr2.2.next
    let xx := dx.1 + (if dpm.1 % 2 = 0 then -1 else 1)
    if 2 ≤ xx ∧ xx ≤ cols - 3 then (colWrite gp.1 dgh.1 dy0.1 dy1.1 g1 xx, dpm.2)
    else (g1, dpm.2)
  else (g1, dr2.2)

/-- The spike sweep: rows 2..rows-4, columns 2..cols-3; skip the disc of
squared radius < 25 around the spawn; where a solid cell has an empty cell
above, draw once and place a spike at the biome density. -/
def spikesPhase (cols rows spawnX spawnY : ℤ) (spikeT : ℕ) (g : Grid) (rng : Rng) :
    Grid × Rng :=
  (rangeZ 2 (rows - 3)).foldl
    (fun st y =>
      (rangeZ 2 (cols - 2)).foldl
        (fun st2 x =>
          if (x - spawnX) ^ 2 + (y - spawnY) ^ 2 < 25 then st2
          else if isSolidCh (getCellD st2.1 y x) && isEmptyCh (getCellD st2.1 (y - 1) x) then
            let dr := st2.2.randF
            if randFLt dr.1 spikeT then (setCell st2.1 (y - 1) x '^', dr.2) else (st2.1, dr.2)
          else st2) st) (g, rng)

/-- The bordered base grid of one attempt: all `'.'`, side columns `'#'` on
every row, and the two bottom ground rows `'#'`. -/
def borderedBase (cols rows : ℤ) : Grid :=
  let g0 := blankGrid cols rows
  let g1 := (rangeZ 0 rows).foldl
    (fun gg y => setCell (setCell gg y 0 '#') y (cols - 1) '#') g0
  (rangeZ (rows - 2) rows).foldl
    (fun gg y => (rangeZ 0 cols).foldl (fun g3 x => setCell g3 y x '#') gg) g1

/-- The initial bottom platform, the spawn cell two tiles in from its left
edge, and the 500-capped main-path climb (world/loader.py lines 216–273).
Returns the final path state and the spawn coordinates. -/
def mainPathPhase (cols rows pm : ℤ) (dr : Grid × Rng) : PathSt × ℤ × ℤ :=
  let dl0 := dr.2.randint 8 (max 8 pm)
  let dc0 := dl0.2.randint 3 (cols - (dl0.1 + 4))
  let pp := placePlatform dr.1 dc0.1 (rows - 4) dl0.1 '#'
  let spawnX := min (cols - 3) (pp.2.1 + 2)
  let spawnY := max 1 (rows - 4 - 1)
  let g4 := setCell pp.1 spawnY spawnX 'P'
  let st0 : PathSt :=
    ⟨g4, rows - 4, pp.2.1, pp.2.2, [(rows - 4, pp.2.1, pp.2.2)], dc0.2, false⟩
  ((List.range 500).foldl
    (fun s _ => pathStep cols minGapTiles maxGapTiles pm approxSingleHTiles
      maxDxSingle maxDxDouble s) st0, spawnX, spawnY)

/-- Extra decorative platforms followed by wall columns
(world/loader.py lines 275–309). -/
def decoratePhase (cols rows : ℤ) (b : Biome) (stN : PathSt) : Grid × Rng :=
  let de := stN.rng.randint b.extraLo b.extraHi
  let ex := (List.range de.1.toNat).foldl
    (fun s _ => extraStep cols rows b.extraLen s) (stN.g, de.2)
  let dcc := ex.2.randint b.colLo b.colHi
  (List.range dcc.1.toNat).foldl
    (fun s _ => colStep cols rows stN.mainPath s) (ex.1, dcc.2)

/-- One full generation attempt (the body of the `for attempt in range(60)`
loop, world/loader.py lines 160–329): biome choice, bordered base grid, rooms,
doors, the main platform path with its spawn, extra platforms, wall columns
and spikes.  Returns the candidate grid and the spawn coordinates handed to
the validator. -/
def attemptGrid (cols rows : ℤ) (rng0 : Rng) : Grid × ℤ × ℤ :=
  let pb := rng0.next
  let b := biomes.getD (pb.1 % 4) ⟨4, 6, 25, 40, T006, 3, 9, 12, 10⟩
  let dn := pb.2.randint b.roomLo b.roomHi
  let rm := (List.range dn.1.toNat).foldl (fun s _ => roomStep cols rows s)
    (borderedBase cols rows, [], dn.2)
  let ps := mainPathPhase cols rows b.platMax (doorsPhase cols rows rm.1 rm.2.2 rm.2.1)
  let co := decoratePhase cols rows b ps.1
  let sp := spikesPhase cols rows ps.2.1 ps.2.2 b.spikeT co.1 co.2
  (sp.1, ps.2.1, ps.2.2)

/-- The attempt loop: run each attempt's `random.Random(base_seed + attempt*99991)`
instance, return the first candidate the validator accepts, else the fallback
grid after the attempt list is exhausted. -/
def attemptsLoop (cols rows : ℤ) (fam : ℤ → ℕ → ℕ) (baseSeed : ℤ) : List ℕ → Grid
  | [] => fallbackGrid cols rows
  | i :: rest =>
      let a := attemptGrid cols rows ⟨fam (baseSeed + (i : ℤ) * 99991), 0⟩
      if reachableValidator a.1 a.2.1 a.2.2 4 minGapTiles maxGapTiles maxDxSingle maxDxDouble
          approxSingleHTiles then a.1
      else attemptsLoop cols rows fam baseSeed rest

/-- `load_demo_level(cols, rows, seed)`.  `fam n` is the draw stream of the
instance `random.Random(n)`; `globalDraw` models the one value
`random.randrange(1, 2_000_000_000)` that `_rng_seed` takes from the
process-wide generator when `seed is None`.  (Python joins each row into a
string on return; the embedding keeps the row as its character list.) -/
def loadDemoLevel (fam : ℤ → ℕ → ℕ) (globalDraw : ℤ) (cols rows : ℤ)
    (seed : Option ℤ) : Grid :=
  let baseSeed := match seed with | some s => s | none => globalDraw
  attemptsLoop cols rows fam baseSeed (List.range 60)

/-! ### Infrastructure lemmas for the generator proofs -/

theorem mem_rangeZ {lo hi a : ℤ} : a ∈ rangeZ lo hi ↔ lo ≤ a ∧ a < hi := by
  unfold rangeZ
  rw [List.mem_map]
  constructor
  · rintro ⟨i, hmem, rfl⟩
    rw [List.mem_range] at hmem
    omega
  · intro h
    refine ⟨(a - lo).toNat, ?_, ?_⟩
    · rw [List.mem_range]
      omega
    · omega

theorem randint_lo (r : Rng) (lo hi : ℤ) : lo ≤ (r.randint lo hi).1 := by
  have hpos : (0 : ℤ) < max 1 (hi - lo + 1) := by omega
  have := Int.emod_nonneg ((r.next.1 : ℕ) : ℤ) (by omega : max 1 (hi - lo + 1) ≠ 0)
  simp only [Rng.randint]
  omega

theorem randint_hi (r : Rng) (lo hi : ℤ) (h : lo ≤ hi) : (r.randint lo hi).1 ≤ hi := by
  have hmax : max 1 (hi - lo + 1) = hi - lo + 1 := by omega
  have := Int.emod_lt_of_pos ((r.next.1 : ℕ) : ℤ) (by omega : (0 : ℤ) < max 1 (hi - lo + 1))
  simp only [Rng.randint]
  omega

/-- Fold preservation: an invariant closed under every step holds of the fold. -/
theorem foldl_pres {α β : Type} (P : α → Prop) (f : α → β → α) (l : List β)
    (h : ∀ a b, b ∈ l → P a → P (f a b)) : ∀ a, P a → P (l.foldl f a) := by
  induction l with
  | nil => intro a ha; exact ha
  | cons b bs ih =>
      intro a ha
      exact ih (fun a' b' hb' => h a' b' (List.mem_cons_of_mem _ hb')) _
        (h a b (List.mem_cons_self _ _) ha)

/-- A grid is `cols × rows` rectangular. -/
def gridShape (g : Grid) (cols rows : ℕ) : Prop :=
  g.length = rows ∧ ∀ r ∈ g, r.length = cols

theorem gridShape_setCell {g : Grid} {cols rows : ℕ} (hs : gridShape g cols rows)
    (y x : ℤ) (c : Char) : gridShape (setCell g y x c) cols rows := by
  obtain ⟨hlen, hrow⟩ := hs
  unfold setCell
  split
  · cases hg : g[y.toNat]? with
    | none => exact ⟨hlen, hrow⟩
    | some row =>
        refine ⟨by simpa using hlen, ?_⟩
        intro r hr
        rcases List.mem_or_eq_of_mem_set hr with h | rfl
        · exact hrow r h
        · have : row ∈ g := List.getElem?_mem hg
          simpa using hrow row this
  · exact ⟨hlen, hrow⟩

theorem getCellD_setCell_ne {g : Grid} {y x : ℤ} {c : Char} {y' x' : ℤ}
    (h : y ≠ y' ∨ x ≠ x') : getCellD (setCell g y x c) y' x' = getCellD g y' x' := by
  by_cases hyx : 0 ≤ y ∧ 0 ≤ x
  · cases hg : g[y.toNat]? with
    | none => simp [setCell, hyx, hg]
    | some row =>
        have hset : setCell g y x c = g.set y.toNat (row.set x.toNat c) := by
          simp [setCell, hyx, hg]
        rw [hset]
        by_cases hp : 0 ≤ y' ∧ 0 ≤ x'
        · unfold getCellD
          rw [if_pos hp, if_pos hp]
          by_cases hyy : y.toNat = y'.toNat
          · have hyeq : y = y' := by omega
            have hxx : x ≠ x' := by tauto
            have hlen : y.toNat < g.length := (List.getElem?_eq_some.mp hg).1
            rw [← hyy, List.getElem?_set_eq_of_lt _ hlen, hg]
            have hxne : x.toNat ≠ x'.toNat := by omega
            simp [List.getElem?_set_ne hxne]
          · rw [List.getElem?_set_ne hyy]
        · simp [getCellD, hp]
  · simp [setCell, hyx]

/-- Number of spawn cells in the grid. -/
def countP (g : Grid) : ℕ := (g.map (fun r => r.count 'P')).sum

theorem count_set_le (l : List Char) (n : ℕ) (ch : Char) (h : ch ≠ 'P') :
    (l.set n ch).count 'P' ≤ l.count 'P' := by
  induction l generalizing n with
  | nil => simp
  | cons a as ih =>
      cases n with
      | zero =>
          simp only [List.set_cons_zero, List.count_cons]
          have hc : (ch == 'P') = false := by simpa using h
          simp [hc]
      | succ m =>
          simp only [List.set_cons_succ, List.count_cons]
          have := ih m
          omega

theorem count_set_le_succ (l : List Char) (n : ℕ) (ch : Char) :
    (l.set n ch).count 'P' ≤ l.count 'P' + 1 := by
  induction l generalizing n with
  | nil => simp
  | cons a as ih =>
      cases n with
      | zero =>
          simp only [List.set_cons_zero, List.count_cons]
          by_cases hc : (ch == 'P') = true <;> by_cases ha : (a == 'P') = true <;>
            simp [hc, ha] <;> omega
      | succ m =>
          simp only [List.set_cons_succ, List.count_cons]
          have := ih m
          omega

theorem countP_set (g : Grid) (n : ℕ) (r' : List Char) (k : ℕ)
    (h : ∀ old, g[n]? = some old → r'.count 'P' ≤ old.count 'P' + k) :
    countP (g.set n r') ≤ countP g + k := by
  induction g generalizing n with
  | nil => simp [countP]
  | cons row rs ih =>
      cases n with
      | zero =>
          have := h row (by simp)
          simp only [List.set_cons_zero, countP, List.map_cons, List.sum_cons]
          omega
      | succ m =>
          simp only [List.set_cons_succ, countP, List.map_cons, List.sum_cons]
          have := ih m (fun old ho => h old (by simpa using ho))
          simp only [countP] at this
          omega

theorem countP_setCell_le {g : Grid} (y x : ℤ) {ch : Char} (h : ch ≠ 'P') :
    countP (setCell g y x ch) ≤ countP g := by
  by_cases hyx : 0 ≤ y ∧ 0 ≤ x
  · cases hg : g[y.toNat]? with
    | none => simp [setCell, hyx, hg]
    | some row =>
        have hset : setCell g y x ch = g.set y.toNat (row.set x.toNat ch) := by
          simp [setCell, hyx, hg]
        rw [hset]
        have := countP_set g y.toNat (row.set x.toNat ch) 0 (fun old ho => by
          rw [hg] at ho
          injection ho with ho'
          subst ho'
          simpa using count_set_le row x.toNat ch h)
        omega
  · simp [setCell, hyx]

theorem countP_setCell_succ {g : Grid} (y x : ℤ) (ch : Char) :
    countP (setCell g y x ch) ≤ countP g + 1 := by
  by_cases hyx : 0 ≤ y ∧ 0 ≤ x
  · cases hg : g[y.toNat]? with
    | none => simp [setCell, hyx, hg]
    | some row =>
        have hset : setCell g y x ch = g.set y.toNat (row.set x.toNat ch) := by
          simp [setCell, hyx, hg]
        rw [hset]
        exact countP_set g y.toNat (row.set x.toNat ch) 1 (fun old ho => by
          rw [hg] at ho
          injection ho with ho'
          subst ho'
          exact count_set_le_succ row x.toNat ch)
  · simp [setCell, hyx]

/-! ### Structural invariant of every generated 80×26 grid

`genInv k g` records what attempt construction preserves at the default
dimensions: the grid stays 80×26 rectangular, the top border row's interior is
never written (it stays `'.'`), the side border columns and the two bottom
ground rows stay `'#'`, and at most `k` spawn cells exist.  Every write the
attempt phases perform after the bordered base lands in rows 1–23 and columns
1–78 (this is what the per-phase lemmas below check, using only the randint
range facts). -/
def genInv (k : ℕ) (g : Grid) : Prop :=
  gridShape g 80 26 ∧
  (∀ x : ℤ, 1 ≤ x → x ≤ 78 → getCellD g 0 x = '.') ∧
  (∀ y : ℤ, 0 ≤ y → y ≤ 25 → getCellD g y 0 = '#' ∧ getCellD g y 79 = '#') ∧
  (∀ x : ℤ, 0 ≤ x → x ≤ 79 → getCellD g 24 x = '#' ∧ getCellD g 25 x = '#') ∧
  countP g ≤ k

theorem genInv_setCell {k : ℕ} {g : Grid} (hg : genInv k g) {y x : ℤ} (ch : Char)
    (hch : ch ≠ 'P') (hy1 : 1 ≤ y) (hy2 : y ≤ 23) (hx1 : 1 ≤ x) (hx2 : x ≤ 78) :
    genInv k (setCell g y x ch) := by
  obtain ⟨hs, h0, hside, hbot, hc⟩ := hg
  refine ⟨gridShape_setCell hs y x ch, ?_, ?_, ?_, ?_⟩
  · intro x' h1 h2
    rw [getCellD_setCell_ne (Or.inl (by omega))]
    exact h0 x' h1 h2
  · intro y' h1 h2
    refine ⟨?_, ?_⟩
    · rw [getCellD_setCell_ne (Or.inr (by omega))]
      exact (hside y' h1 h2).1
    · rw [getCellD_setCell_ne (Or.inr (by omega))]
      exact (hside y' h1 h2).2
  · intro x' h1 h2
    refine ⟨?_, ?_⟩
    · rw [getCellD_setCell_ne (Or.inl (by omega))]
      exact (hbot x' h1 h2).1
    · rw [getCellD_setCell_ne (Or.inl (by omega))]
      exact (hbot x' h1 h2).2
  · exact le_trans (countP_setCell_le y x hch) hc

theorem genInv_setCell_spawn {k : ℕ} {g : Grid} (hg : genInv k g) {y x : ℤ}
    (hy1 : 1 ≤ y) (hy2 : y ≤ 23) (hx1 : 1 ≤ x) (hx2 : x ≤ 78) :
    genInv (k + 1) (setCell g y x 'P') := by
  obtain ⟨hs, h0, hside, hbot, hc⟩ := hg
  refine ⟨gridShape_setCell hs y x 'P', ?_, ?_, ?_, ?_⟩
  · intro x' h1 h2
    rw [getCellD_setCell_ne (Or.inl (by omega))]
    exact h0 x' h1 h2
  · intro y' h1 h2
    refine ⟨?_, ?_⟩
    · rw [getCellD_setCell_ne (Or.inr (by omega))]
      exact (hside y' h1 h2).1
    · rw [getCellD_setCell_ne (Or.inr (by omega))]
      exact (hside y' h1 h2).2
  · intro x' h1 h2
    refine ⟨?_, ?_⟩
    · rw [getCellD_setCell_ne (Or.inl (by omega))]
      exact (hbot x' h1 h2).1
    · rw [getCellD_setCell_ne (Or.inl (by omega))]
      exact (hbot x' h1 h2).2
  · exact le_trans (countP_setCell_succ y x 'P') (by omega)

theorem shape_cols {g : Grid} (hs : gridShape g 80 26) : ((g.headD []).length : ℤ) = 80 := by
  cases g with
  | nil => exact absurd hs.1 (by decide)
  | cons r rs =>
      have := hs.2 r (List.mem_cons_self r rs)
      simp [List.headD, this]

theorem placePlatform_genInv {k : ℕ} {g : Grid} (hg : genInv k g) {x0 y L : ℤ} {ch : Char}
    (hch : ch ≠ 'P') (hy1 : 1 ≤ y) (hy2 : y ≤ 23) (hx0 : x0 ≤ 77) :
    genInv k (placePlatform g x0 y L ch).1 := by
  have hcols : ((g.headD []).length : ℤ) = 80 := shape_cols hg.1
  unfold placePlatform
  simp only [hcols]
  refine foldl_pres (genInv k) _ _ ?_ _ hg
  intro gg xv hxv hi
  rw [mem_rangeZ] at hxv
  exact genInv_setCell hi ch hch hy1 hy2 (by omega) (by omega)

theorem placePlatform_x0_ge (g : Grid) (x0 y L : ℤ) (ch : Char) :
    1 ≤ (placePlatform g x0 y L ch).2.1 := by
  simp [placePlatform]

theorem placeRectSolid_genInv {k : ℕ} {g : Grid} (hg : genInv k g) {x0 y0 w h : ℤ}
    {ch : Char} (hch : ch ≠ 'P') (hy0 : 1 ≤ y0) (hyh : y0 + h ≤ 24) (hx0 : 1 ≤ x0)
    (hxw : x0 + w ≤ 79) : genInv k (placeRectSolid g x0 y0 w h ch) := by
  unfold placeRectSolid
  refine foldl_pres (genInv k) _ _ ?_ _ hg
  intro gg yv hyv hi
  rw [mem_rangeZ] at hyv
  refine foldl_pres (genInv k) _ _ ?_ _ hi
  intro g2 xv hxv hi2
  rw [mem_rangeZ] at hxv
  exact genInv_setCell hi2 ch hch (by omega) (by omega) (by omega) (by omega)

theorem carveRectEmpty_eq (g : Grid) (x0 y0 w h : ℤ) :
    carveRectEmpty g x0 y0 w h = placeRectSolid g x0 y0 w h '.' := rfl

/-- The rooms stored for the door phase sit in rows 2..22. -/
def roomsOk (rs : List Room) : Prop := ∀ r ∈ rs, 2 ≤ r.2.1 ∧ r.2.1 + r.2.2.2 ≤ 22

theorem roomStep_genInv {k : ℕ} {st : Grid × List Room × Rng}
    (hg : genInv k st.1) (hr : roomsOk st.2.1) :
    genInv k (roomStep 80 26 st).1 ∧ roomsOk (roomStep 80 26 st).2.1 := by
  have hw1 : 14 ≤ (st.2.2.randint 14 22).1 := randint_lo _ _ _
  have hw2 : (st.2.2.randint 14 22).1 ≤ 22 := randint_hi _ _ _ (by omega)
  set dw := st.2.2.randint 14 22 with hdw
  have hh1 : 8 ≤ (dw.2.randint 8 12).1 := randint_lo _ _ _
  have hh2 : (dw.2.randint 8 12).1 ≤ 12 := randint_hi _ _ _ (by omega)
  set dh := dw.2.randint 8 12 with hdh
  have hx1 : 2 ≤ (dh.2.randint 2 (80 - dw.1 - 2)).1 := randint_lo _ _ _
  have hx2 : (dh.2.randint 2 (80 - dw.1 - 2)).1 ≤ 80 - dw.1 - 2 :=
    randint_hi _ _ _ (by omega)
  set dx := dh.2.randint 2 (80 - dw.1 - 2) with hdx
  have hy1 : 2 ≤ (dx.2.randint 2 (26 - dh.1 - 4)).1 := randint_lo _ _ _
  have hy2 : (dx.2.randint 2 (26 - dh.1 - 4)).1 ≤ 26 - dh.1 - 4 :=
    randint_hi _ _ _ (by omega)
  set dy := dx.2.randint 2 (26 - dh.1 - 4) with hdy
  have hpl : dw.1 - 10 ≤ (dy.2.randint (max 6 (dw.1 - 10)) (dw.1 - 2)).1 :=
    le_trans (le_max_right _ _) (randint_lo _ _ _)
  set dpl := dy.2.randint (max 6 (dw.1 - 10)) (dw.1 - 2) with hdpl
  have hdx1 : 1 ≤ (dpl.2.randint 1 (max 1 (dw.1 - dpl.1 - 1))).1 := randint_lo _ _ _
  have hdx2 : (dpl.2.randint 1 (max 1 (dw.1 - dpl.1 - 1))).1 ≤ max 1 (dw.1 - dpl.1 - 1) :=
    randint_hi _ _ _ (le_max_left _ _)
  set dpx := dpl.2.randint 1 (max 1 (dw.1 - dpl.1 - 1)) with hdpx
  constructor
  · show genInv k (placePlatform (carveRectEmpty (placeRectSolid st.1 dx.1 dy.1 dw.1 dh.1 '#')
        (dx.1 + 1) (dy.1 + 1) (dw.1 - 2) (dh.1 - 2)) (dx.1 + dpx.1) (dy.1 + dh.1 - 2)
        dpl.1 '#').1
    have h1 : genInv k (placeRectSolid st.1 dx.1 dy.1 dw.1 dh.1 '#') :=
      placeRectSolid_genInv hg (by decide) (by omega) (by omega) (by omega) (by omega)
    rw [carveRectEmpty_eq]
    have h2 : genInv k (placeRectSolid (placeRectSolid st.1 dx.1 dy.1 dw.1 dh.1 '#')
        (dx.1 + 1) (dy.1 + 1) (dw.1 - 2) (dh.1 - 2) '.') :=
      placeRectSolid_genInv h1 (by decide) (by omega) (by omega) (by omega) (by omega)
    exact placePlatform_genInv h2 (by decide) (by omega) (by omega) (by omega)
  · show roomsOk (st.2.1 ++ [(dx.1, dy.1, dw.1, dh.1)])
    intro r hrm
    rcases List.mem_append.mp hrm with h | h
    · exact hr r h
    · rcases List.mem_singleton.mp h with rfl
      exact ⟨show (2 : ℤ) ≤ dy.1 by omega, show dy.1 + dh.1 ≤ 22 by omega⟩

theorem doorPairStep_genInv {k : ℕ} {st : Grid × Rng} {ra rb : Room}
    (hg : genInv k st.1) (hra : 2 ≤ ra.2.1 ∧ ra.2.1 + ra.2.2.2 ≤ 22) :
    genInv k (doorPairStep 80 26 st ra rb).1 := by
  by_cases hcond : max (ra.2.1 + 2) (rb.2.1 + 2)
      > min (ra.2.1 + ra.2.2.2 - 3) (rb.2.1 + rb.2.2.2 - 3)
  · simp only [doorPairStep, if_pos hcond]
    exact hg
  · simp only [doorPairStep, if_neg hcond]
    have hd1 : max (ra.2.1 + 2) (rb.2.1 + 2)
        ≤ (st.2.randint (max (ra.2.1 + 2) (rb.2.1 + 2))
            (min (ra.2.1 + ra.2.2.2 - 3) (rb.2.1 + rb.2.2.2 - 3))).1 := randint_lo _ _ _
    have hd2 : (st.2.randint (max (ra.2.1 + 2) (rb.2.1 + 2))
        (min (ra.2.1 + ra.2.2.2 - 3) (rb.2.1 + rb.2.2.2 - 3))).1
        ≤ min (ra.2.1 + ra.2.2.2 - 3) (rb.2.1 + rb.2.2.2 - 3) :=
      randint_hi _ _ _ (by omega)
    refine foldl_pres (genInv k) _ _ ?_ _ hg
    intro gg xv _ hi
    unfold doorCarveCell
    split
    · rename_i hc
      exact genInv_setCell
        (genInv_setCell
          (genInv_setCell hi '.' (by decide) (by omega) (by omega) (by omega) (by omega))
          '.' (by decide) (by omega) (by omega) (by omega) (by omega))
        '.' (by decide) (by omega) (by omega) (by omega) (by omega)
    · exact hi

theorem doorsPhase_genInv {k : ℕ} {g : Grid} {rng : Rng} {rooms : List Room}
    (hg : genInv k g) (hr : roomsOk rooms) :
    genInv k (doorsPhase 80 26 g rng rooms).1 := by
  unfold doorsPhase
  refine foldl_pres (fun st : Grid × Rng => genInv k st.1) _ _ ?_ (g, rng) hg
  intro st pr hpr hi
  exact doorPairStep_genInv hi (hr pr.1 (List.of_mem_zip hpr).1)

theorem candTry_some_le {cols bC cX0 cX1 L mD : ℤ} :
    ∀ (n : ℕ) (rng : Rng) (b : ℤ × ℤ),
      (candTry cols bC cX0 cX1 L mD n rng).1 = some b → b.1 ≤ max 2 (cols - (L + 3)) := by
  intro n
  induction n with
  | zero =>
      intro rng b h
      exact absurd h (by simp [candTry])
  | succ m ih =>
      intro rng b h
      rw [candTry] at h
      split at h
      · exact ih _ _ h
      · simp only [] at h
        injection h with h'
        subst h'
        simp only []
        omega

/-- The bounds every biome record satisfies (there are four biomes; out-of-range
choice indices fall back to the default, which is the ruins record). -/
theorem biome_bounds (i : ℕ) :
    3 ≤ (biomes.getD i ⟨4, 6, 25, 40, T006, 3, 9, 12, 10⟩).extraLen ∧
    (biomes.getD i ⟨4, 6, 25, 40, T006, 3, 9, 12, 10⟩).extraLen ≤ 14 ∧
    (biomes.getD i ⟨4, 6, 25, 40, T006, 3, 9, 12, 10⟩).platMax ≤ 16 ∧
    0 ≤ (biomes.getD i ⟨4, 6, 25, 40, T006, 3, 9, 12, 10⟩).roomLo ∧
    2 ≤ (biomes.getD i ⟨4, 6, 25, 40, T006, 3, 9, 12, 10⟩).colLo := by
  rcases i with _ | _ | _ | _ | n
  · exact ⟨by decide, by decide, by decide, by decide, by decide⟩
  · exact ⟨by decide, by decide, by decide, by decide, by decide⟩
  · exact ⟨by decide, by decide, by decide, by decide, by decide⟩
  · exact ⟨by decide, by decide, by decide, by decide, by decide⟩
  · have hlen : biomes.length ≤ n + 4 := by simp [biomes]
    rw [List.getD_eq_default _ _ hlen]
    exact ⟨by decide, by decide, by decide, by decide, by decide⟩

theorem pathStep_genInv {pm : ℤ} (hpm : pm ≤ 16) {st : PathSt}
    (hg : genInv 1 st.g) (hy : st.curY ≤ 22) :
    genInv 1 (pathStep 80 minGapTiles maxGapTiles pm approxSingleHTiles
        maxDxSingle maxDxDouble st).g ∧
      (pathStep 80 minGapTiles maxGapTiles pm approxSingleHTiles
        maxDxSingle maxDxDouble st).curY ≤ 22 := by
  have hmg : minGapTiles = 2 := rfl
  simp only [pathStep]
  split
  · exact ⟨hg, hy⟩
  · split
    · exact ⟨hg, hy⟩
    · rename_i hnext
      set dg := st.rng.randint minGapTiles maxGapTiles with hdg
      have hgap1 : minGapTiles ≤ dg.1 := by
        rw [hdg]
        exact randint_lo _ _ _
      set dl := dg.2.randint 4 (max 6 pm) with hdl
      have hlen1 : 4 ≤ dl.1 := by
        rw [hdl]
        exact randint_lo _ _ _
      have hlen2 : dl.1 ≤ max 6 pm := by
        rw [hdl]
        exact randint_hi _ _ _ (by omega)
      set t := candTry 80 ((st.curX0 + st.curX1) / 2) st.curX0 st.curX1 dl.1
        (if dg.1 > approxSingleHTiles then maxDxDouble else maxDxSingle) 160 dl.2 with htt
      rcases htv : t.1 with _ | b
      · simp only [htv]
        split
        · try dsimp only
          have hdc : (t.2.randint (80 / 2) (80 - (dl.1 + 3))).1 ≤ 80 - (dl.1 + 3) :=
            randint_hi _ _ _ (by omega)
          exact ⟨placePlatform_genInv hg (by decide) (by omega) (by omega) (by omega),
            by omega⟩
        · try dsimp only
          have hdc : (t.2.randint 2 (max 3 (80 / 2 - (dl.1 + 2)))).1
              ≤ max 3 (80 / 2 - (dl.1 + 2)) :=
            randint_hi _ _ _ (by omega)
          exact ⟨placePlatform_genInv hg (by decide) (by omega) (by omega) (by omega),
            by omega⟩
      · simp only [htv]
        try dsimp only
        have hb : b.1 ≤ max 2 (80 - (dl.1 + 3)) := by
          apply candTry_some_le 160 dl.2 b
          rw [← htt]
          exact htv
        exact ⟨placePlatform_genInv hg (by decide) (by omega) (by omega) (by omega),
          by omega⟩

theorem extraStep_genInv {eL : ℤ} (heL3 : 3 ≤ eL) (heL : eL ≤ 14) {st : Grid × Rng}
    (hg : genInv 1 st.1) : genInv 1 (extraStep 80 26 eL st).1 := by
  have hy1 : 2 ≤ (st.2.randint 2 (26 - 6)).1 := randint_lo _ _ _
  have hy2 : (st.2.randint 2 (26 - 6)).1 ≤ 26 - 6 := randint_hi _ _ _ (by omega)
  set dy := st.2.randint 2 (26 - 6) with hdy
  have hl1 : 3 ≤ (dy.2.randint 3 eL).1 := randint_lo _ _ _
  have hl2 : (dy.2.randint 3 eL).1 ≤ eL := randint_hi _ _ _ (by omega)
  set dl := dy.2.randint 3 eL with hdl
  have hx2 : (dl.2.randint 2 (80 - (dl.1 + 3))).1 ≤ 80 - (dl.1 + 3) :=
    randint_hi _ _ _ (by omega)
  set dx := dl.2.randint 2 (80 - (dl.1 + 3)) with hdx
  show genInv 1 (placePlatform st.1 dx.1 dy.1 dl.1 _).1
  refine placePlatform_genInv hg ?_ (by omega) (by omega) (by omega)
  split
  · decide
  · split
    · decide
    · decide

theorem colWrite_genInv {gapY : Option ℤ} {gapH y0 y1 : ℤ} {g : Grid} {cx : ℤ}
    (hg : genInv 1 g) (hy0 : 1 ≤ y0) (hy1 : y1 ≤ 22) (hcx1 : 1 ≤ cx) (hcx2 : cx ≤ 78) :
    genInv 1 (colWrite gapY gapH y0 y1 g cx) := by
  unfold colWrite
  refine foldl_pres (genInv 1) _ _ ?_ _ hg
  intro gg yv hyv hi
  rw [mem_rangeZ] at hyv
  cases gapY with
  | none => exact genInv_setCell hi '#' (by decide) (by omega) (by omega) hcx1 hcx2
  | some gy =>
      simp only []
      split
      · exact hi
      · exact genInv_setCell hi '#' (by decide) (by omega) (by omega) hcx1 hcx2

theorem colStep_genInv {mp : List (ℤ × ℤ × ℤ)} {st : Grid × Rng}
    (hg : genInv 1 st.1) : genInv 1 (colStep 80 26 mp st).1 := by
  simp only [colStep]
  set dx := st.2.randint 4 (80 - 5) with hdx
  have hx1 : 4 ≤ dx.1 := by
    rw [hdx]
    exact randint_lo _ _ _
  have hx2 : dx.1 ≤ 80 - 5 := by
    rw [hdx]
    exact randint_hi _ _ _ (by omega)
  set dy0 := dx.2.randint 2 (26 / 2) with hdy0
  have hy01 : 2 ≤ dy0.1 := by
    rw [hdy0]
    exact randint_lo _ _ _
  set dy1 := dy0.2.randint (26 / 2) (26 - 4) with hdy1
  have hy11 : dy1.1 ≤ 26 - 4 := by
    rw [hdy1]
    exact randint_hi _ _ _ (by omega)
  have hbase : ∀ gapY gapH (gg : Grid) (cx : ℤ), 1 ≤ cx → cx ≤ 78 → genInv 1 gg →
      genInv 1 (colWrite gapY gapH dy0.1 dy1.1 gg cx) := by
    intro gapY gapH gg cx h1 h2 hgg
    exact colWrite_genInv hgg (by omega) (by omega) h1 h2
  split
  · split
    · split
      · rename_i hxx
        refine hbase _ _ _ _ ?_ ?_ (hbase _ _ _ _ ?_ ?_ hg)
        · omega
        · omega
        · omega
        · omega
      · refine hbase _ _ _ _ ?_ ?_ hg
        · omega
        · omega
    · split
      · rename_i hxx
        refine hbase _ _ _ _ ?_ ?_ (hbase _ _ _ _ ?_ ?_ hg)
        · omega
        · omega
        · omega
        · omega
      · refine hbase _ _ _ _ ?_ ?_ hg
        · omega
        · omega
  · refine hbase _ _ _ _ ?_ ?_ hg
    · omega
    · omega

theorem spikesPhase_genInv {sx sy : ℤ} {tT : ℕ} {g : Grid} {rng : Rng}
    (hg : genInv 1 g) : genInv 1 (spikesPhase 80 26 sx sy tT g rng).1 := by
  unfold spikesPhase
  refine foldl_pres (fun st : Grid × Rng => genInv 1 st.1) _ _ ?_ (g, rng) hg
  intro st yv hyv hi
  rw [mem_rangeZ] at hyv
  refine foldl_pres (fun st : Grid × Rng => genInv 1 st.1) _ _ ?_ st hi
  intro st2 xv hxv hi2
  rw [mem_rangeZ] at hxv
  dsimp only
  split
  · exact hi2
  · split
    · split
      · exact genInv_setCell hi2 '^' (by decide) (by omega) (by omega) (by omega) (by omega)
      · exact hi2
    · exact hi2

theorem all_rangeZ {p : ℤ → Bool} {lo hi : ℤ} (h : (rangeZ lo hi).all p = true) :
    ∀ x : ℤ, lo ≤ x → x < hi → p x = true := by
  intro x h1 h2
  exact List.all_eq_true.mp h _ (mem_rangeZ.mpr ⟨h1, h2⟩)

set_option maxRecDepth 10000 in
set_option maxHeartbeats 2000000 in
/-- The bordered base grid of an attempt satisfies the structural invariant
with no spawn cells. -/
theorem borderedBase_genInv : genInv 0 (borderedBase 80 26) := by
  refine ⟨⟨by decide, ?_⟩, ?_, ?_, ?_, ?_⟩
  · intro r hr
    have hall : (borderedBase 80 26).all (fun row => row.length == 80) = true := by decide
    simpa using List.all_eq_true.mp hall r hr
  · intro x h1 h2
    have hall : (rangeZ 1 79).all
        (fun x => getCellD (borderedBase 80 26) 0 x == '.') = true := by decide
    simpa using all_rangeZ hall x h1 (by omega)
  · intro y h1 h2
    have hall : (rangeZ 0 26).all
        (fun y => (getCellD (borderedBase 80 26) y 0 == '#')
          && (getCellD (borderedBase 80 26) y 79 == '#')) = true := by decide
    have := all_rangeZ hall y h1 (by omega)
    simp only [Bool.and_eq_true, beq_iff_eq] at this
    exact this
  · intro x h1 h2
    have hall : (rangeZ 0 80).all
        (fun x => (getCellD (borderedBase 80 26) 24 x == '#')
          && (getCellD (borderedBase 80 26) 25 x == '#')) = true := by decide
    have := all_rangeZ hall x h1 (by omega)
    simp only [Bool.and_eq_true, beq_iff_eq] at this
    exact this
  · show countP (borderedBase 80 26) ≤ 0
    decide

theorem mainPathPhase_genInv {pm : ℤ} (hpm : pm ≤ 16) {dr : Grid × Rng}
    (hdr : genInv 0 dr.1) :
    genInv 1 (mainPathPhase 80 26 pm dr).1.g ∧ (mainPathPhase 80 26 pm dr).1.curY ≤ 22 := by
  simp only [mainPathPhase]
  set dl0 := dr.2.randint 8 (max 8 pm) with hdl0
  have hl01 : 8 ≤ dl0.1 := by
    rw [hdl0]
    exact randint_lo _ _ _
  have hl02 : dl0.1 ≤ max 8 pm := by
    rw [hdl0]
    exact randint_hi _ _ _ (le_max_left _ _)
  set dc0 := dl0.2.randint 3 (80 - (dl0.1 + 4)) with hdc0
  have hc01 : 3 ≤ dc0.1 := by
    rw [hdc0]
    exact randint_lo _ _ _
  have hc02 : dc0.1 ≤ 80 - (dl0.1 + 4) := by
    rw [hdc0]
    exact randint_hi _ _ _ (by omega)
  set pp := placePlatform dr.1 dc0.1 (26 - 4) dl0.1 '#' with hpp
  have hpg : genInv 0 pp.1 := by
    rw [hpp]
    exact placePlatform_genInv hdr (by decide) (by omega) (by omega) (by omega)
  have hx0 : 1 ≤ pp.2.1 := by
    rw [hpp]
    exact placePlatform_x0_ge _ _ _ _ _
  have hspawn : genInv 1 (setCell pp.1 (max 1 (26 - 4 - 1)) (min (80 - 3) (pp.2.1 + 2)) 'P') :=
    genInv_setCell_spawn hpg (by omega) (by omega) (by omega) (by omega)
  refine foldl_pres (fun st : PathSt => genInv 1 st.g ∧ st.curY ≤ 22) _ _ ?_ _
    ⟨hspawn, show (26 : ℤ) - 4 ≤ 22 by omega⟩
  intro a _ _ ha
  exact pathStep_genInv hpm ha.1 ha.2

theorem decoratePhase_genInv {b : Biome} (hbe3 : 3 ≤ b.extraLen) (hbe14 : b.extraLen ≤ 14)
    {stN : PathSt} (hg : genInv 1 stN.g) : genInv 1 (decoratePhase 80 26 b stN).1 := by
  simp only [decoratePhase]
  have hex : (fun st : Grid × Rng => genInv 1 st.1)
      ((List.range (stN.rng.randint b.extraLo b.extraHi).1.toNat).foldl
        (fun s _ => extraStep 80 26 b.extraLen s)
        (stN.g, (stN.rng.randint b.extraLo b.extraHi).2)) := by
    refine foldl_pres (fun st : Grid × Rng => genInv 1 st.1) _ _ ?_ _ hg
    intro a _ _ ha
    exact extraStep_genInv hbe3 hbe14 ha
  refine foldl_pres (fun st : Grid × Rng => genInv 1 st.1) _ _ ?_ _ hex
  intro a _ _ ha
  exact colStep_genInv ha

set_option maxRecDepth 200000 in
/-- Every candidate grid a generation attempt produces satisfies the
structural invariant: 80×26 rectangular, interior of the top border row
empty, side columns and the two bottom rows solid, at most one spawn cell. -/
theorem attemptGrid_genInv (rng0 : Rng) : genInv 1 (attemptGrid 80 26 rng0).1 := by
  obtain ⟨hbe3, hbe14, hbp16, hbr0, hbc2⟩ := biome_bounds (rng0.next.1 % 4)
  simp only [attemptGrid]
  set b := biomes.getD (rng0.next.1 % 4) ⟨4, 6, 25, 40, T006, 3, 9, 12, 10⟩ with hb
  set dn := rng0.next.2.randint b.roomLo b.roomHi with hdn
  have hroom : (fun s : Grid × List Room × Rng => genInv 0 s.1 ∧ roomsOk s.2.1)
      ((List.range dn.1.toNat).foldl (fun s _ => roomStep 80 26 s)
        (borderedBase 80 26, ([] : List Room), dn.2)) := by
    refine foldl_pres (fun s : Grid × List Room × Rng => genInv 0 s.1 ∧ roomsOk s.2.1)
      _ _ ?_ _ ?_
    · intro a _ _ ha
      exact roomStep_genInv ha.1 ha.2
    · exact ⟨borderedBase_genInv, fun r hr => absurd hr (List.not_mem_nil r)⟩
  set rm := (List.range dn.1.toNat).foldl (fun s _ => roomStep 80 26 s)
    (borderedBase 80 26, ([] : List Room), dn.2) with hrm
  have hdoor : genInv 0 (doorsPhase 80 26 rm.1 rm.2.2 rm.2.1).1 :=
    doorsPhase_genInv hroom.1 hroom.2
  have hps := mainPathPhase_genInv hbp16 hdoor
  exact spikesPhase_genInv (decoratePhase_genInv hbe3 hbe14 hps.1)

/-- Every grid the attempt loop returns is either a validator-accepted attempt
grid or the fallback grid. -/
theorem attemptsLoop_cases (cols rows : ℤ) (fam : ℤ → ℕ → ℕ) (baseSeed : ℤ) :
    ∀ l : List ℕ, attemptsLoop cols rows fam baseSeed l = fallbackGrid cols rows ∨
      ∃ r : Rng, attemptsLoop cols rows fam baseSeed l = (attemptGrid cols rows r).1 ∧
        reachableValidator (attemptGrid cols rows r).1 (attemptGrid cols rows r).2.1
          (attemptGrid cols rows r).2.2 4 minGapTiles maxGapTiles maxDxSingle maxDxDouble
          approxSingleHTiles = true := by
  intro l
  induction l with
  | nil => exact Or.inl rfl
  | cons i rest ih =>
      simp only [attemptsLoop]
      split
      · rename_i hval
        exact Or.inr ⟨_, rfl, hval⟩
      · exact ih

/-- The same classification for `load_demo_level` itself. -/
theorem loadDemoLevel_cases (fam : ℤ → ℕ → ℕ) (gd cols rows : ℤ) (seed : Option ℤ) :
    loadDemoLevel fam gd cols rows seed = fallbackGrid cols rows ∨
      ∃ r : Rng, loadDemoLevel fam gd cols rows seed = (attemptGrid cols rows r).1 ∧
        reachableValidator (attemptGrid cols rows r).1 (attemptGrid cols rows r).2.1
          (attemptGrid cols rows r).2.2 4 minGapTiles maxGapTiles maxDxSingle maxDxDouble
          approxSingleHTiles = true := by
  cases seed with
  | none => exact attemptsLoop_cases cols rows fam gd _
  | some s => exact attemptsLoop_cases cols rows fam s _

set_option maxRecDepth 10000 in
set_option maxHeartbeats 2000000 in
/-- The structural facts of the 80×26 fallback grid: rectangular, exactly one
spawn cell, bottom two rows solid, but the top border row's interior and the
side border columns (other than their ground-band cells) are empty. -/
theorem fallback_facts :
    gridShape (fallbackGrid 80 26) 80 26 ∧ countP (fallbackGrid 80 26) = 1 ∧
      (∀ x : ℤ, 1 ≤ x → x ≤ 78 → getCellD (fallbackGrid 80 26) 0 x = '.') ∧
      (∀ x : ℤ, 0 ≤ x → x ≤ 79 →
        getCellD (fallbackGrid 80 26) 24 x = '#' ∧ getCellD (fallbackGrid 80 26) 25 x = '#') ∧
      getCellD (fallbackGrid 80 26) 3 0 = '.' := by
  refine ⟨⟨by decide, ?_⟩, by decide, ?_, ?_, by decide⟩
  · intro r hr
    have hall : (fallbackGrid 80 26).all (fun row => row.length == 80) = true := by decide
    simpa using List.all_eq_true.mp hall r hr
  · intro x h1 h2
    have hall : (rangeZ 1 79).all
        (fun x => getCellD (fallbackGrid 80 26) 0 x == '.') = true := by decide
    simpa using all_rangeZ hall x h1 (by omega)
  · intro x h1 h2
    have hall : (rangeZ 0 80).all
        (fun x => (getCellD (fallbackGrid 80 26) 24 x == '#')
          && (getCellD (fallbackGrid 80 26) 25 x == '#')) = true := by decide
    have := all_rangeZ hall x h1 (by omega)
    simp only [Bool.and_eq_true, beq_iff_eq] at this
    exact this

/-- Structural facts of every grid `load_demo_level(80, 26, seed)` returns,
for every draw-stream family: used by the C2 theorems. -/
theorem loadDemoLevel_structure (fam : ℤ → ℕ → ℕ) (gd : ℤ) (seed : Option ℤ) :
    gridShape (loadDemoLevel fam gd 80 26 seed) 80 26 ∧
      (∀ x : ℤ, 1 ≤ x → x ≤ 78 → getCellD (loadDemoLevel fam gd 80 26 seed) 0 x = '.') ∧
      (∀ x : ℤ, 0 ≤ x → x ≤ 79 →
        getCellD (loadDemoLevel fam gd 80 26 seed) 24 x = '#' ∧
        getCellD (loadDemoLevel fam gd 80 26 seed) 25 x = '#') ∧
      countP (loadDemoLevel fam gd 80 26 seed) ≤ 1 := by
  rcases loadDemoLevel_cases fam gd 80 26 seed with h | ⟨r, h, _⟩
  · rw [h]
    obtain ⟨hs, hcp, h0, hbot, _⟩ := fallback_facts
    exact ⟨hs, h0, hbot, by omega⟩
  · rw [h]
    obtain ⟨hs, h0, _, hbot, hcp⟩ := attemptGrid_genInv r
    exact ⟨hs, h0, hbot, hcp⟩

/-- C1 (amended): every grid `load_demo_level` returns is either an attempt
grid that the reachability validator (run exactly as the generator runs it,
with goal row 4 and the generator's envelope parameters) accepted from its
spawn cell, or the deterministic fallback grid.  Re-validation is a pure
function of the grid, so re-running it yields the same verdict; but the
fallback grid itself is NOT validator-reachable (see the counterexample). -/
theorem C1_theorem (fam : ℤ → ℕ → ℕ) (gd cols rows : ℤ) (seed : Option ℤ) :
    loadDemoLevel fam gd cols rows seed = fallbackGrid cols rows ∨
      ∃ r : Rng, loadDemoLevel fam gd cols rows seed = (attemptGrid cols rows r).1 ∧
        reachableValidator (attemptGrid cols rows r).1 (attemptGrid cols rows r).2.1
          (attemptGrid cols rows r).2.2 4 minGapTiles maxGapTiles maxDxSingle maxDxDouble
          approxSingleHTiles = true :=
  loadDemoLevel_cases fam gd cols rows seed

set_option maxRecDepth 20000 in
set_option maxHeartbeats 1000000 in
/-- C1 (counterexample): the fallback grid of `load_demo_level(12, 12, seed)`
has its unique spawn cell at `(4, 7)`, and the Reachability Validator run
from that spawn with the generator's envelope parameters and goal row 4
reports the goal band NOT reachable: the fallback's platforms sit 6 rows
above the ground while the validator's upward band tops out at
`int(1.20·max_gap_tiles) = 4` rows, so the BFS never leaves the ground
surface row. -/
theorem C1_counterexample :
    countP (fallbackGrid 12 12) = 1 ∧ getCellD (fallbackGrid 12 12) 7 4 = 'P' ∧
      reachableValidator (fallbackGrid 12 12) 4 7 4 minGapTiles maxGapTiles
        maxDxSingle maxDxDouble approxSingleHTiles = false :=
  ⟨by decide, by decide, by decide⟩

/-- C2 (amended): every grid returned by `load_demo_level(80, 26, seed)` (the
default dimensions), under every draw stream, is 80×26 rectangular and has at
most one spawn cell, with the bottom two ground rows solid; but the top border
row's interior is always EMPTY (so the "border cells are always solid"
invariant fails on every returned grid), and only non-fallback grids have
solid side columns — the fallback grid (which has exactly one spawn cell)
leaves even its side columns empty above the ground band. -/
theorem C2_theorem (fam : ℤ → ℕ → ℕ) (gd : ℤ) (seed : Option ℤ) :
    gridShape (loadDemoLevel fam gd 80 26 seed) 80 26 ∧
      (∀ x : ℤ, 1 ≤ x → x ≤ 78 → getCellD (loadDemoLevel fam gd 80 26 seed) 0 x = '.') ∧
      (∀ x : ℤ, 0 ≤ x → x ≤ 79 →
        getCellD (loadDemoLevel fam gd 80 26 seed) 24 x = '#' ∧
        getCellD (loadDemoLevel fam gd 80 26 seed) 25 x = '#') ∧
      countP (loadDemoLevel fam gd 80 26 seed) ≤ 1 ∧
      (loadDemoLevel fam gd 80 26 seed = fallbackGrid 80 26 ∨
        (∀ y : ℤ, 0 ≤ y → y ≤ 25 →
          getCellD (loadDemoLevel fam gd 80 26 seed) y 0 = '#' ∧
          getCellD (loadDemoLevel fam gd 80 26 seed) y 79 = '#')) ∧
      countP (fallbackGrid 80 26) = 1 ∧ getCellD (fallbackGrid 80 26) 3 0 = '.' := by
  obtain ⟨hs, h0, hbot, hcp⟩ := loadDemoLevel_structure fam gd seed
  refine ⟨hs, h0, hbot, hcp, ?_, fallback_facts.2.1, fallback_facts.2.2.2.2⟩
  rcases loadDemoLevel_cases fam gd 80 26 seed with h | ⟨r, h, _⟩
  · exact Or.inl h
  · refine Or.inr ?_
    rw [h]
    exact (attemptGrid_genInv r).2.2.1

/-- C2 (witness): the amended statement applied to the concrete call
`load_demo_level(80, 26, 7)` under the all-zero draw stream. -/
theorem C2_witness :
    getCellD (loadDemoLevel (fun _ _ => 0) 1 80 26 (some 7)) 0 5 = '.' ∧
      getCellD (loadDemoLevel (fun _ _ => 0) 1 80 26 (some 7)) 24 3 = '#' := by
  obtain ⟨_, h0, hbot, _, _, _, _⟩ := C2_theorem (fun _ _ => 0) 1 (some 7)
  exact ⟨h0 5 (by norm_num) (by norm_num), (hbot 3 (by norm_num) (by norm_num)).1⟩

/-- C2 (counterexample): the grid returned by `load_demo_level(80, 26, 7)`
under the all-zero draw stream has a non-solid top-border cell at `(1, 0)` —
the claim "every border cell is solid" fails on a returned grid.  (The proof
is by the universal structure lemma: the violation holds for every stream,
in particular for the one the Mersenne Twister realizes for seed 7.) -/
theorem C2_counterexample :
    isSolidCh (getCellD (loadDemoLevel (fun _ _ => 0) 1 80 26 (some 7)) 0 1) = false := by
  have h := (loadDemoLevel_structure (fun _ _ => 0) 1 (some 7)).2.1 1
    (by norm_num) (by norm_num)
  rw [h]
  decide

/-- C10: generation is reproducible for an explicit seed.  `load_demo_level`
is a pure function of the draw-stream family (one stream per
`random.Random(n)` instance, each seeded only from `base_seed + attempt·99991`)
and of the seed; the process-wide generator (modeled by `gd`, the one
`random.randrange` draw `_rng_seed` takes from it) is consulted only when the
seed is `None`, so with an explicit seed the result is independent of it —
two calls with the same seed return identical grids. -/
theorem C10_theorem (fam : ℤ → ℕ → ℕ) (g1 g2 cols rows s : ℤ) :
    loadDemoLevel fam g1 cols rows (some s) = loadDemoLevel fam g2 cols rows (some s) := rfl

/-! ### C7: the validator's edge-acceptance rule -/

theorem mem_topsRow {tops : List (ℤ × ℤ)} {x y : ℤ} :
    x ∈ topsRow tops y ↔ (x, y) ∈ tops := by
  simp only [topsRow, List.mem_map, List.mem_filter, beq_iff_eq]
  constructor
  · rintro ⟨⟨a, b⟩, ⟨hm, rfl⟩, rfl⟩
    exact hm
  · intro h
    exact ⟨(x, y), ⟨h, rfl⟩, rfl⟩

theorem edgeOk_window {rows minGap maxGap dxS dxD approxH ax ay bx by_ : ℤ}
    (h : edgeOk rows minGap maxGap dxS dxD approxH ax ay bx by_ = true) :
    max 1 (ay - (maxGap + 2)) ≤ by_ ∧ by_ < min (rows - 1) (ay + 6) := by
  unfold edgeOk at h
  rw [Bool.and_eq_true] at h
  exact of_decide_eq_true h.1

/-- Membership in one `neighbors` sweep is exactly: the candidate is a top
surface cell and the acceptance test passes. -/
theorem mem_neighborsList {tops : List (ℤ × ℤ)}
    {rows minGap maxGap dxS dxD approxH ax ay bx by_ : ℤ} :
    (bx, by_) ∈ neighborsList tops rows minGap maxGap dxS dxD approxH ax ay ↔
      ((bx, by_) ∈ tops ∧ edgeOk rows minGap maxGap dxS dxD approxH ax ay bx by_ = true) := by
  simp only [neighborsList, List.mem_flatMap, List.mem_filterMap]
  constructor
  · rintro ⟨y, hy, x, hx, hsome⟩
    split at hsome
    · rename_i hok
      injection hsome with h1
      injection h1 with hx1 hy1
      subst hx1
      subst hy1
      exact ⟨mem_topsRow.mp hx, hok⟩
    · cases hsome
  · rintro ⟨htop, hok⟩
    refine ⟨by_, ?_, bx, mem_topsRow.mpr htop, ?_⟩
    · rw [mem_rangeZ]
      exact edgeOk_window hok
    · rw [if_pos hok]

/-- The acceptance test at the generator's envelope parameters, as an
arithmetic statement (the truncated band is `1 ≤ dy ≤ 4`). -/
theorem edgeOk_up_iff {rows ax ay bx by_ : ℤ} (hup : by_ < ay) :
    edgeOk rows minGapTiles maxGapTiles maxDxSingle maxDxDouble approxSingleHTiles
        ax ay bx by_ = true ↔
      (1 ≤ by_ ∧ by_ < rows - 1 ∧ 1 ≤ ay - by_ ∧ ay - by_ ≤ 4 ∧
        |bx - ax| ≤ if 3 < ay - by_ then 9 else 4) := by
  unfold edgeOk
  simp only [minGapTiles, maxGapTiles, approxSingleHTiles, maxDxSingle, maxDxDouble,
    bandLo, bandHi, Bool.and_eq_true, decide_eq_true_eq]
  constructor
  · rintro ⟨⟨hw1, hw2⟩, hband, hdx⟩
    rw [if_pos (show ay - by_ > 0 by omega), decide_eq_true_eq] at hband
    refine ⟨by omega, by omega, by omega, by omega, ?_⟩
    exact hdx
  · rintro ⟨h1, h2, h3, h4, h5⟩
    refine ⟨⟨by omega, by omega⟩, ?_, ?_⟩
    · rw [if_pos (show ay - by_ > 0 by omega), decide_eq_true_eq]
      omega
    · exact h5

/-- A tiny concrete grid with exactly two top surface cells, `(2, 10)` and
`(3, 9)`, one tile apart diagonally. -/
def c7grid : Grid := setCell (setCell (blankGrid 6 26) 11 2 '#') 10 3 '#'

/-- C7 (amended): in the Reachability Validator with the generator's envelope
parameters, an edge from a top surface cell `A = (ax, ay)` to a strictly
higher candidate `B = (bx, by)` is generated iff `B` is a top surface cell,
`1 ≤ by < rows - 1` (the scan window never proposes the top border row or
rows at or below `rows - 2`), the vertical delta lies in the TRUNCATED band
`int(0.70·minGapTiles) = 1 ≤ dy ≤ int(1.20·maxGapTiles) = 4`, and the
horizontal delta is within the double-jump bound 9 when `dy` exceeds the
approximate single-jump height 3, else within the single-jump bound 4.  The
claim's closed real band `[0.70·minGapTiles, 1.20·maxGapTiles] = [1.4, 4.8]`
differs: the code accepts `dy = 1 < 1.4` (see the counterexample). -/
theorem C7_theorem (tops : List (ℤ × ℤ)) (rows ax ay bx by_ : ℤ) (hup : by_ < ay) :
    ((bx, by_) ∈ neighborsList tops rows minGapTiles maxGapTiles maxDxSingle maxDxDouble
        approxSingleHTiles ax ay) ↔
      ((bx, by_) ∈ tops ∧ 1 ≤ by_ ∧ by_ < rows - 1 ∧ 1 ≤ ay - by_ ∧ ay - by_ ≤ 4 ∧
        |bx - ax| ≤ if 3 < ay - by_ then 9 else 4) := by
  rw [mem_neighborsList, edgeOk_up_iff hup]

/-- C7 (witness): the amended equivalence applied at the concrete pair
`A = (2, 10)`, `B = (3, 9)` of `c7grid`'s top surface cells. -/
theorem C7_witness :
    (9 : ℤ) < 10 ∧
      (((3 : ℤ), (9 : ℤ)) ∈ neighborsList (topSurfaceCells c7grid) 26 minGapTiles
          maxGapTiles maxDxSingle maxDxDouble approxSingleHTiles 2 10 ↔
        (((3 : ℤ), (9 : ℤ)) ∈ topSurfaceCells c7grid ∧ 1 ≤ (9 : ℤ) ∧ (9 : ℤ) < 26 - 1 ∧
          1 ≤ (10 : ℤ) - 9 ∧ (10 : ℤ) - 9 ≤ 4 ∧
          |(3 : ℤ) - 2| ≤ if 3 < (10 : ℤ) - 9 then 9 else 4)) :=
  ⟨by norm_num, C7_theorem (topSurfaceCells c7grid) 26 2 10 3 9 (by norm_num)⟩

/-- C7 (counterexample): both `(2, 10)` and `(3, 9)` are standable surface
cells of `c7grid`, `B = (3, 9)` is strictly higher by one row, and the
validator accepts the edge from `A = (2, 10)` to `B` — yet the vertical delta
1 lies BELOW the claim's band `[0.70·minGapTiles, 1.20·maxGapTiles]`, whose
lower end is 1.4.  The claim's "accepted iff the delta lies in the closed
band" is therefore false at this input. -/
theorem C7_counterexample :
    ((2, 10) ∈ topSurfaceCells c7grid) ∧ ((3, 9) ∈ topSurfaceCells c7grid) ∧
      (((3 : ℤ), (9 : ℤ)) ∈ neighborsList (topSurfaceCells c7grid) 26 minGapTiles
        maxGapTiles maxDxSingle maxDxDouble approxSingleHTiles 2 10) ∧
      ¬((0.70 : ℚ) * (minGapTiles : ℚ) ≤ (((10 - 9 : ℤ) : ℚ))) := by
  refine ⟨by decide, by decide, by decide, ?_⟩
  norm_num [minGapTiles]

/-! ### C8: door carving between consecutive rooms -/

theorem getCellD_setCell_self {g : Grid} {cols rows : ℕ} (hs : gridShape g cols rows)
    {y x : ℤ} (hy0 : 0 ≤ y) (hy : y < (rows : ℤ)) (hx0 : 0 ≤ x) (hx : x < (cols : ℤ))
    (c : Char) : getCellD (setCell g y x c) y x = c := by
  have hyl : y.toNat < g.length := by
    have h1 := hs.1
    omega
  obtain ⟨row, hg⟩ : ∃ row, g[y.toNat]? = some row := ⟨_, List.getElem?_eq_getElem hyl⟩
  have hrl : row.length = cols := hs.2 _ (List.getElem?_mem hg)
  have hxl : x.toNat < row.length := by omega
  have hset : setCell g y x c = g.set y.toNat (row.set x.toNat c) := by
    simp [setCell, hy0, hx0, hg]
  rw [hset]
  unfold getCellD
  rw [if_pos ⟨hy0, hx0⟩]
  rw [List.getElem?_set_eq_of_lt _ hyl]
  show ((row.set x.toNat c)[x.toNat]?).getD '.' = c
  rw [List.getElem?_set_eq_of_lt _ hxl]
  rfl

theorem gridShape_doorCarveCell {g : Grid} (hs : gridShape g 80 26) (dy b : ℤ) :
    gridShape (doorCarveCell 80 26 dy g b) 80 26 := by
  unfold doorCarveCell
  split
  · exact gridShape_setCell (gridShape_setCell (gridShape_setCell hs _ _ _) _ _ _) _ _ _
  · exact hs

/-- A door column's writes touch only the three rows `dy - 1`, `dy`, `dy + 1`. -/
theorem doorCarveCell_frame {dy : ℤ} {g : Grid} {y x' : ℤ}
    (hy : y ≠ dy - 1 ∧ y ≠ dy ∧ y ≠ dy + 1) (b : ℤ) :
    getCellD (doorCarveCell 80 26 dy g b) y x' = getCellD g y x' := by
  have n1 : dy + 1 ≠ y := hy.2.2.symm
  have n2 : dy - 1 ≠ y := hy.1.symm
  have n3 : dy ≠ y := hy.2.1.symm
  unfold doorCarveCell
  split
  · rw [getCellD_setCell_ne (Or.inl n1), getCellD_setCell_ne (Or.inl n2),
      getCellD_setCell_ne (Or.inl n3)]
  · rfl

theorem doorFold_frame {dy : ℤ} {y x' : ℤ}
    (hy : y ≠ dy - 1 ∧ y ≠ dy ∧ y ≠ dy + 1) (l : List ℤ) (g : Grid) :
    getCellD (l.foldl (doorCarveCell 80 26 dy) g) y x' = getCellD g y x' := by
  induction l generalizing g with
  | nil => rfl
  | cons a as ih => rw [List.foldl_cons, ih, doorCarveCell_frame hy]

/-- Carving a door column under the bound guard leaves the three cells of that
column empty. -/
theorem doorCarveCell_sets {dy : ℤ} {g : Grid} (hs : gridShape g 80 26) {x : ℤ}
    (hg : 1 ≤ x ∧ x ≤ 80 - 2 ∧ 1 ≤ dy ∧ dy ≤ 26 - 3) :
    getCellD (doorCarveCell 80 26 dy g x) (dy - 1) x = '.' ∧
    getCellD (doorCarveCell 80 26 dy g x) dy x = '.' ∧
    getCellD (doorCarveCell 80 26 dy g x) (dy + 1) x = '.' := by
  obtain ⟨h1, h2, h3, h4⟩ := hg
  have n1 : dy + 1 ≠ dy - 1 := by omega
  have n2 : dy + 1 ≠ dy := by omega
  have n3 : dy - 1 ≠ dy := by omega
  have s1 : gridShape (setCell g dy x '.') 80 26 := gridShape_setCell hs _ _ _
  have s2 : gridShape (setCell (setCell g dy x '.') (dy - 1) x '.') 80 26 :=
    gridShape_setCell s1 _ _ _
  unfold doorCarveCell
  rw [if_pos ⟨h1, h2, h3, h4⟩]
  refine ⟨?_, ?_, ?_⟩
  · rw [getCellD_setCell_ne (Or.inl n1)]
    exact getCellD_setCell_self s1 (by omega) (by omega) (by omega) (by omega) '.'
  · rw [getCellD_setCell_ne (Or.inl n2), getCellD_setCell_ne (Or.inl n3)]
    exact getCellD_setCell_self hs (by omega) (by omega) (by omega) (by omega) '.'
  · exact getCellD_setCell_self s2 (by omega) (by omega) (by omega) (by omega) '.'

/-- Once a column's three door cells are empty, later door writes of the same
pass keep them empty (a re-write of the same column writes `'.'` again, any
other column's writes do not touch it). -/
theorem doorCarveCell_keeps {dy : ℤ} {g : Grid} (hs : gridShape g 80 26) {x : ℤ}
    (hg : 1 ≤ x ∧ x ≤ 80 - 2 ∧ 1 ≤ dy ∧ dy ≤ 26 - 3)
    (h : getCellD g (dy - 1) x = '.' ∧ getCellD g dy x = '.' ∧ getCellD g (dy + 1) x = '.')
    (b : ℤ) :
    getCellD (doorCarveCell 80 26 dy g b) (dy - 1) x = '.' ∧
    getCellD (doorCarveCell 80 26 dy g b) dy x = '.' ∧
    getCellD (doorCarveCell 80 26 dy g b) (dy + 1) x = '.' := by
  by_cases hbx : b = x
  · subst hbx
    exact doorCarveCell_sets hs hg
  · unfold doorCarveCell
    split
    · refine ⟨?_, ?_, ?_⟩
      · rw [getCellD_setCell_ne (Or.inr hbx), getCellD_setCell_ne (Or.inr hbx),
          getCellD_setCell_ne (Or.inr hbx)]
        exact h.1
      · rw [getCellD_setCell_ne (Or.inr hbx), getCellD_setCell_ne (Or.inr hbx),
          getCellD_setCell_ne (Or.inr hbx)]
        exact h.2.1
      · rw [getCellD_setCell_ne (Or.inr hbx), getCellD_setCell_ne (Or.inr hbx),
          getCellD_setCell_ne (Or.inr hbx)]
        exact h.2.2
    · exact h

theorem doorFold_carves {dy x : ℤ}
    (hg : 1 ≤ x ∧ x ≤ 80 - 2 ∧ 1 ≤ dy ∧ dy ≤ 26 - 3) :
    ∀ (l : List ℤ) (g : Grid), gridShape g 80 26 → x ∈ l →
      (getCellD (l.foldl (doorCarveCell 80 26 dy) g) (dy - 1) x = '.' ∧
       getCellD (l.foldl (doorCarveCell 80 26 dy) g) dy x = '.' ∧
       getCellD (l.foldl (doorCarveCell 80 26 dy) g) (dy + 1) x = '.') := by
  intro l
  induction l with
  | nil =>
      intro g _ hx
      cases hx
  | cons a as ih =>
      intro g hs hx
      rw [List.foldl_cons]
      by_cases hxa : x ∈ as
      · exact ih _ (gridShape_doorCarveCell hs dy a) hxa
      · have hxa2 : x = a := by
          rcases List.mem_cons.mp hx with h | h
          · exact h
          · exact absurd h hxa
        subst hxa2
        refine (foldl_pres
          (fun g2 => gridShape g2 80 26 ∧
            (getCellD g2 (dy - 1) x = '.' ∧ getCellD g2 dy x = '.' ∧
             getCellD g2 (dy + 1) x = '.'))
          (doorCarveCell 80 26 dy) as ?_
          (doorCarveCell 80 26 dy g x)
          ⟨gridShape_doorCarveCell hs dy x, doorCarveCell_sets hs hg⟩).2
        intro g2 b _ hp
        exact ⟨gridShape_doorCarveCell hp.1 dy b, doorCarveCell_keeps hp.1 hg hp.2 b⟩

/-- C8 (amended): for a pair of consecutive rooms at the generator's 80×26
dimensions, if the vertical overlap band `[lo, hi]` (with
`lo = max(y0+2, y1+2)`, `hi = min(y0+h0-3, y1+h1-3)`) is empty the step is the
identity — no cells carved, no random draw consumed; otherwise the door row
`door_y` is drawn inside `[lo, hi]`, every cell outside the THREE rows
`door_y - 1`, `door_y`, `door_y + 1` is untouched, and along the connecting
horizontal span every in-bounds column has those three cells carved empty.
The claim's "exactly one row of cells carved" is false: the doorway is three
rows tall (see the counterexample). -/
theorem C8_theorem (st : Grid × Rng) (ra rb : Room) (hs : gridShape st.1 80 26) :
    (max (ra.2.1 + 2) (rb.2.1 + 2) > min (ra.2.1 + ra.2.2.2 - 3) (rb.2.1 + rb.2.2.2 - 3) →
      doorPairStep 80 26 st ra rb = st) ∧
    (∀ dy : ℤ,
      dy = (st.2.randint (max (ra.2.1 + 2) (rb.2.1 + 2))
        (min (ra.2.1 + ra.2.2.2 - 3) (rb.2.1 + rb.2.2.2 - 3))).1 →
      max (ra.2.1 + 2) (rb.2.1 + 2) ≤ min (ra.2.1 + ra.2.2.2 - 3) (rb.2.1 + rb.2.2.2 - 3) →
      (max (ra.2.1 + 2) (rb.2.1 + 2) ≤ dy ∧
        dy ≤ min (ra.2.1 + ra.2.2.2 - 3) (rb.2.1 + rb.2.2.2 - 3)) ∧
      (∀ y x', y ≠ dy - 1 → y ≠ dy → y ≠ dy + 1 →
        getCellD (doorPairStep 80 26 st ra rb).1 y x' = getCellD st.1 y x') ∧
      (∀ x', 1 ≤ x' → x' ≤ 80 - 2 → 1 ≤ dy → dy ≤ 26 - 3 →
        min (ra.1 + ra.2.2.1 - 1) rb.1 ≤ x' → x' ≤ max (ra.1 + ra.2.2.1 - 1) rb.1 →
        getCellD (doorPairStep 80 26 st ra rb).1 (dy - 1) x' = '.' ∧
        getCellD (doorPairStep 80 26 st ra rb).1 dy x' = '.' ∧
        getCellD (doorPairStep 80 26 st ra rb).1 (dy + 1) x' = '.')) := by
  constructor
  · intro hlt
    simp only [doorPairStep]
    rw [if_pos hlt]
  · intro dy hdy hle
    subst hdy
    have hcond : ¬(max (ra.2.1 + 2) (rb.2.1 + 2)
        > min (ra.2.1 + ra.2.2.2 - 3) (rb.2.1 + rb.2.2.2 - 3)) := by omega
    simp only [doorPairStep, if_neg hcond]
    refine ⟨⟨randint_lo _ _ _, randint_hi _ _ _ hle⟩, ?_, ?_⟩
    · intro y x' h1 h2 h3
      exact doorFold_frame ⟨h1, h2, h3⟩ _ _
    · intro x' hx1 hx2 hd1 hd2 hax hbx
      exact doorFold_carves ⟨hx1, hx2, hd1, hd2⟩ _ _ hs (mem_rangeZ.mpr ⟨hax, by omega⟩)

/-- An all-solid 80×26 grid and a deterministic draw stream for the door step. -/
def c8grid : Grid := List.replicate 26 (List.replicate 80 '#')

def c8rng : Rng := ⟨fun _ => 0, 0⟩

/-- C8 (witness): the amended door-step facts applied at the all-solid grid
with rooms `(2,2,14,8)` and `(30,2,14,8)`: band `[4, 7]`, drawn door row 4,
row 10 untouched, the door row carved at column 20. -/
theorem C8_witness :
    ((4 : ℤ) ≤ (4 : ℤ) ∧ (4 : ℤ) ≤ (7 : ℤ)) ∧
    getCellD (doorPairStep 80 26 (c8grid, c8rng) (2, 2, 14, 8) (30, 2, 14, 8)).1 10 20 =
      getCellD c8grid 10 20 ∧
    getCellD (doorPairStep 80 26 (c8grid, c8rng) (2, 2, 14, 8) (30, 2, 14, 8)).1 4 20 = '.' := by
  have hsg : gridShape c8grid 80 26 := by
    refine ⟨rfl, ?_⟩
    intro r hr
    rw [List.eq_of_mem_replicate hr]
    rfl
  have h := C8_theorem (c8grid, c8rng) (2, 2, 14, 8) (30, 2, 14, 8) hsg
  obtain ⟨hband, hframe, hcarve⟩ := h.2 4 (by decide) (by decide)
  refine ⟨⟨?_, ?_⟩, ?_, ?_⟩
  · have hb := hband.1
    omega
  · have hb := hband.2
    omega
  · exact hframe 10 20 (by decide) (by decide) (by decide)
  · exact (hcarve 20 (by decide) (by decide) (by decide) (by decide) (by decide) (by decide)).2.1

set_option maxRecDepth 20000 in
set_option maxHeartbeats 1000000 in
/-- C8 (counterexample): at the all-solid grid with rooms `(2,2,14,8)` and
`(30,2,14,8)` (overlap band `[4, 7]`, drawn door row 4), the carving empties
cells in rows 3 AND 5 in addition to the door row 4 — three rows of cells are
carved, refuting "exactly one row of cells carved". -/
theorem C8_counterexample :
    getCellD c8grid 3 20 = '#' ∧ getCellD c8grid 4 20 = '#' ∧ getCellD c8grid 5 20 = '#' ∧
    getCellD (doorPairStep 80 26 (c8grid, c8rng) (2, 2, 14, 8) (30, 2, 14, 8)).1 3 20 = '.' ∧
    getCellD (doorPairStep 80 26 (c8grid, c8rng) (2, 2, 14, 8) (30, 2, 14, 8)).1 4 20 = '.' ∧
    getCellD (doorPairStep 80 26 (c8grid, c8rng) (2, 2, 14, 8) (30, 2, 14, 8)).1 5 20 = '.' := by
  decide

/-! ## world/pathfield.py — the flow field

The `FlowField` keeps a grid, an optional distance array, an optional target
tile and a validity flag.  `SOLID_CHARS = {"#", "C", "M"}` coincides with the
loader's solid set, so `_is_blocked` is `isSolidCh` at the looked-up cell.
World coordinates are exact rationals; `int(p // TILE_SIZE)` on a float is the
floor of `p / 48`. -/

def tileOf (p : ℚ) : ℤ := ⌊p / 48⌋

def isBlocked (g : Grid) (x y : ℤ) : Bool := isSolidCh (getCellD g y x)

/-- Read `self.dist[y][x]`; all exercised reads are in bounds, out-of-range
reads default to the sentinel. -/
def distGet (dist : List (List ℤ)) (y x : ℤ) : ℤ :=
  if 0 ≤ y ∧ 0 ≤ x then ((dist[y.toNat]?).bind (fun row => row[x.toNat]?)).getD (-1) else -1

/-- Write `self.dist[y][x] = v`. -/
def distSet (dist : List (List ℤ)) (y x : ℤ) (v : ℤ) : List (List ℤ) :=
  if 0 ≤ y ∧ 0 ≤ x then
    match dist[y.toNat]? with
    | some row => dist.set y.toNat (row.set x.toNat v)
    | none => dist
  else dist

/-- A distance array is `cols × rows` rectangular. -/
def distShape (d : List (List ℤ)) (cols rows : ℕ) : Prop :=
  d.length = rows ∧ ∀ r ∈ d, r.length = cols

/-- One square of `_find_nearest_open`: scan offsets `oy, ox ∈ [-r, r]` row by
row and return the first in-bounds non-blocked cell. -/
def ringScan (g : Grid) (cols rows x y r : ℤ) : Option (ℤ × ℤ) :=
  (rangeZ (-r) (r + 1)).findSome? fun oy =>
    (rangeZ (-r) (r + 1)).findSome? fun ox =>
      if 0 ≤ x + ox ∧ x + ox < cols ∧ 0 ≤ y + oy ∧ y + oy < rows ∧
          isBlocked g (x + ox) (y + oy) = false
      then some (x + ox, y + oy) else none

/-- `_find_nearest_open`: scan squares of growing radius `r = 1..radius` and
return the first hit. -/
def findNearestOpen (g : Grid) (cols rows x y : ℤ) (radius : ℕ) : Option (ℤ × ℤ) :=
  (List.range radius).findSome? fun ri : ℕ => ringScan g cols rows x y ((ri : ℤ) + 1)

/-- One neighbor inspection of the BFS inner loop: skip out-of-bounds, already
numbered, or blocked cells; otherwise number the cell `d + 1` and enqueue it. -/
def bfsVisit (g : Grid) (cols rows d : ℤ)
    (st : List (List ℤ) × List (ℤ × ℤ)) (c : ℤ × ℤ) : List (List ℤ) × List (ℤ × ℤ) :=
  if 0 ≤ c.1 ∧ c.1 < cols ∧ 0 ≤ c.2 ∧ c.2 < rows then
    if distGet st.1 c.2 c.1 ≠ -1 then st
    else if isBlocked g c.1 c.2 then st
    else (distSet st.1 c.2 c.1 (d + 1), st.2 ++ [c])
  else st

/-- The BFS drain loop (`while q:`), fuel-indexed.  Each iteration pops the
queue head and inspects its four neighbors in source order. -/
def bfsF (g : Grid) (cols rows : ℤ) :
    ℕ → List (List ℤ) → List (ℤ × ℤ) → List (List ℤ)
  | 0, dist, _ => dist
  | _ + 1, dist, [] => dist
  | fuel + 1, dist, c :: q =>
      let st := [(c.1 + 1, c.2), (c.1 - 1, c.2), (c.1, c.2 + 1), (c.1, c.2 - 1)].foldl
        (bfsVisit g cols rows (distGet dist c.2 c.1)) (dist, q)
      bfsF g cols rows fuel st.1 st.2

/-- Sentinel cells remaining in a distance array. -/
def countNeg (dist : List (List ℤ)) : ℕ :=
  (dist.map (fun r => r.countP (fun v => v == -1))).sum

/-- The BFS with exactly enough fuel: each iteration pops one queue entry and
every push turns one sentinel cell non-sentinel, so the measure
`countNeg + |q|` falls by one per iteration. -/
def bfsRun (g : Grid) (cols rows : ℤ) (dist : List (List ℤ)) (q : List (ℤ × ℤ)) :
    List (List ℤ) :=
  bfsF g cols rows (countNeg dist + q.length + 1) dist q

/-- `rebuild`'s functional core: `none` exactly when the method sets
`self.valid = False` (degenerate grid, or snapping failed); otherwise the
chosen root tile and the completed distance array. -/
def flowRebuildCore (g : Grid) (px py : ℚ) : Option ((ℤ × ℤ) × List (List ℤ)) :=
  let rows : ℤ := g.length
  let cols : ℤ := (g.headD []).length
  if rows = 0 ∨ cols = 0 then none
  else
    let tx0 := max 0 (min (cols - 1) (tileOf px))
    let ty0 := max 0 (min (rows - 1) (tileOf py))
    let t? := if isBlocked g tx0 ty0 then findNearestOpen g cols rows tx0 ty0 8
              else some (tx0, ty0)
    t?.map fun t =>
      let dist0 := distSet (List.replicate rows.toNat (List.replicate cols.toNat (-1))) t.2 t.1 0
      (t, bfsRun g cols rows dist0 [t])

/-- The `FlowField` object state: grid, `self.dist`, `self.target_tile`,
`self.valid`. -/
structure Flow where
  grid : Grid
  dist : Option (List (List ℤ))
  target : Option (ℤ × ℤ)
  valid : Bool

/-- `FlowField.rebuild`: on failure only the flag is cleared (stale `dist` and
`target_tile` are kept, as in the Python early returns). -/
def flowRebuild (f : Flow) (px py : ℚ) : Flow :=
  match flowRebuildCore f.grid px py with
  | none => ⟨f.grid, f.dist, f.target, false⟩
  | some td => ⟨f.grid, some td.2, some td.1, true⟩

def dirNeighbors : List (ℤ × ℤ) :=
  [(1, 0), (-1, 0), (0, 1), (0, -1), (1, 1), (1, -1), (-1, 1), (-1, -1)]

/-- One neighbor inspection of `direction_at_world`: adopt the offset iff the
neighbor is in bounds, numbered (`nd >= 0`), and strictly better. -/
def dirPick (dist : List (List ℤ)) (cols rows x y : ℤ)
    (acc : ℤ × (ℤ × ℤ)) (o : ℤ × ℤ) : ℤ × (ℤ × ℤ) :=
  if 0 ≤ x + o.1 ∧ x + o.1 < cols ∧ 0 ≤ y + o.2 ∧ y + o.2 < rows then
    if 0 ≤ distGet dist (y + o.2) (x + o.1) ∧ distGet dist (y + o.2) (x + o.1) < acc.1 then
      (distGet dist (y + o.2) (x + o.1), o)
    else acc
  else acc

/-- `direction_at_world`, up to the final normalization: the source returns
`Vector2(0, 0)` when the selected offset is zero and `best_dir.normalize()`
otherwise; the embedding returns the selected integer offset itself and the
theorems state the normalization facts over `ℝ`. -/
def flowDirectionAtWorld (f : Flow) (px py : ℚ) : ℤ × ℤ :=
  match f.dist, f.valid with
  | none, _ => (0, 0)
  | some _, false => (0, 0)
  | some dist, true =>
      let rows : ℤ := f.grid.length
      let cols : ℤ := (f.grid.headD []).length
      let x := tileOf px
      let y := tileOf py
      if 0 ≤ x ∧ x < cols ∧ 0 ≤ y ∧ y < rows then
        if distGet dist y x < 0 then (0, 0)
        else (dirNeighbors.foldl (dirPick dist cols rows x y) (distGet dist y x, (0, 0))).2
      else (0, 0)

/-- The normalization of `o` is a unit vector (stated over `ℝ`; the source's
`best_dir.normalize()` divides by the Euclidean length). -/
def unitVec (o : ℤ × ℤ) : Prop :=
  ((o.1 : ℝ) / Real.sqrt ((o.1 : ℝ) ^ 2 + (o.2 : ℝ) ^ 2)) ^ 2 +
    ((o.2 : ℝ) / Real.sqrt ((o.1 : ℝ) ^ 2 + (o.2 : ℝ) ^ 2)) ^ 2 = 1

theorem unitVec_of_ne {o : ℤ × ℤ} (h : ¬(o.1 = 0 ∧ o.2 = 0)) : unitVec o := by
  have h1 : (0 : ℝ) < (o.1 : ℝ) ^ 2 + (o.2 : ℝ) ^ 2 := by
    rcases not_and_or.mp h with ha | hb
    · have ha2 : ((o.1 : ℝ)) ≠ 0 := Int.cast_ne_zero.mpr ha
      have := sq_nonneg ((o.2 : ℝ))
      have := pow_pos (abs_pos.mpr ha2) 2
      nlinarith [sq_abs ((o.1 : ℝ))]
    · have hb2 : ((o.2 : ℝ)) ≠ 0 := Int.cast_ne_zero.mpr hb
      have := sq_nonneg ((o.1 : ℝ))
      have := pow_pos (abs_pos.mpr hb2) 2
      nlinarith [sq_abs ((o.2 : ℝ))]
  unfold unitVec
  rw [div_pow, div_pow, div_add_div_same, Real.sq_sqrt h1.le, div_self h1.ne']

theorem distGet_distSet_ne {d : List (List ℤ)} {y x : ℤ} {v : ℤ} {y' x' : ℤ}
    (h : y ≠ y' ∨ x ≠ x') : distGet (distSet d y x v) y' x' = distGet d y' x' := by
  by_cases hyx : 0 ≤ y ∧ 0 ≤ x
  · cases hg : d[y.toNat]? with
    | none => simp [distSet, hyx, hg]
    | some row =>
        have hset : distSet d y x v = d.set y.toNat (row.set x.toNat v) := by
          simp [distSet, hyx, hg]
        rw [hset]
        by_cases hp : 0 ≤ y' ∧ 0 ≤ x'
        · unfold distGet
          rw [if_pos hp, if_pos hp]
          by_cases hyy : y.toNat = y'.toNat
          · have hyeq : y = y' := by omega
            have hxx : x ≠ x' := by tauto
            have hlen : y.toNat < d.length := (List.getElem?_eq_some.mp hg).1
            rw [← hyy, List.getElem?_set_eq_of_lt _ hlen, hg]
            have hxne : x.toNat ≠ x'.toNat := by omega
            simp [List.getElem?_set_ne hxne]
          · rw [List.getElem?_set_ne hyy]
        · simp [distGet, hp]
  · simp [distSet, hyx]

theorem distGet_distSet_self {d : List (List ℤ)} {cols rows : ℕ}
    (hs : distShape d cols rows) {y x : ℤ} (hy0 : 0 ≤ y) (hy : y < (rows : ℤ))
    (hx0 : 0 ≤ x) (hx : x < (cols : ℤ)) (v : ℤ) : distGet (distSet d y x v) y x = v := by
  have hyl : y.toNat < d.length := by
    have h1 := hs.1
    omega
  obtain ⟨row, hg⟩ : ∃ row, d[y.toNat]? = some row := ⟨_, List.getElem?_eq_getElem hyl⟩
  have hrl : row.length = cols := hs.2 _ (List.getElem?_mem hg)
  have hxl : x.toNat < row.length := by omega
  have hset : distSet d y x v = d.set y.toNat (row.set x.toNat v) := by
    simp [distSet, hy0, hx0, hg]
  rw [hset]
  unfold distGet
  rw [if_pos ⟨hy0, hx0⟩]
  rw [List.getElem?_set_eq_of_lt _ hyl]
  show ((row.set x.toNat v)[x.toNat]?).getD (-1) = v
  rw [List.getElem?_set_eq_of_lt _ hxl]
  rfl

/-- The root's 0 entry survives the whole BFS drain: a visit writes only cells
whose current entry is the sentinel. -/
theorem bfsF_keeps_zero (g : Grid) (cols rows : ℤ) {tx ty : ℤ} :
    ∀ (fuel : ℕ) (dist : List (List ℤ)) (q : List (ℤ × ℤ)),
      distGet dist ty tx = 0 → distGet (bfsF g cols rows fuel dist q) ty tx = 0 := by
  intro fuel
  induction fuel with
  | zero => intro dist q h; exact h
  | succ n ih =>
      intro dist q h
      cases q with
      | nil => exact h
      | cons c q' =>
          show distGet (bfsF g cols rows n _ _) ty tx = 0
          have hfold :
              ∀ (l : List (ℤ × ℤ)) (st : List (List ℤ) × List (ℤ × ℤ)),
                distGet st.1 ty tx = 0 →
                distGet (l.foldl (bfsVisit g cols rows (distGet dist c.2 c.1)) st).1 ty tx
                  = 0 := by
            intro l
            refine foldl_pres (fun st : List (List ℤ) × List (ℤ × ℤ) =>
              distGet st.1 ty tx = 0) _ l ?_
            intro st b _ hst
            unfold bfsVisit
            split
            · split
              · exact hst
              · split
                · exact hst
                · rename_i hnb hne _
                  by_cases hb2 : b.2 = ty
                  · by_cases hb1 : b.1 = tx
                    · rw [not_not] at hne
                      rw [hb2, hb1] at hne
                      rw [hst] at hne
                      exact absurd hne (by decide)
                    · show distGet (distSet st.1 b.2 b.1 _) ty tx = 0
                      rw [distGet_distSet_ne (Or.inr hb1)]
                      exact hst
                  · show distGet (distSet st.1 b.2 b.1 _) ty tx = 0
                    rw [distGet_distSet_ne (Or.inl hb2)]
                    exact hst
            · exact hst
          exact ih _ _ (hfold _ (dist, q') h)

/-- A successful `rebuild` chooses an in-bounds root and numbers it 0. -/
theorem flowRebuildCore_root {g : Grid} {px py : ℚ} {t : ℤ × ℤ} {d : List (List ℤ)}
    (h : flowRebuildCore g px py = some (t, d)) :
    0 ≤ t.1 ∧ t.1 < ((g.headD []).length : ℤ) ∧ 0 ≤ t.2 ∧ t.2 < (g.length : ℤ) ∧
      distGet d t.2 t.1 = 0 := by
  simp only [flowRebuildCore] at h
  split at h
  · cases h
  · rename_i hnz
    have hbnd : 0 ≤ t.1 ∧ t.1 < ((g.headD []).length : ℤ) ∧
        0 ≤ t.2 ∧ t.2 < (g.length : ℤ) := by
      rw [Option.map_eq_some'] at h
      obtain ⟨t0, ht0, hpair⟩ := h
      have ht : t0 = t := congrArg Prod.fst hpair
      subst ht
      split at ht0
      · obtain ⟨ri, _, hri⟩ := List.exists_of_findSome?_eq_some ht0
        simp only [ringScan] at hri
        obtain ⟨oy, _, hoy⟩ := List.exists_of_findSome?_eq_some hri
        obtain ⟨ox, _, hox⟩ := List.exists_of_findSome?_eq_some hoy
        split at hox
        · rename_i hcond
          cases hox
          exact ⟨hcond.1, hcond.2.1, hcond.2.2.1, hcond.2.2.2.1⟩
        · cases hox
      · cases ht0
        obtain ⟨hr, hc⟩ := not_or.mp hnz
        have hgl : 0 < g.length := by omega
        have hcl : 0 < (g.headD []).length := by omega
        dsimp only
        refine ⟨by omega, by omega, by omega, by omega⟩
    refine ⟨hbnd.1, hbnd.2.1, hbnd.2.2.1, hbnd.2.2.2, ?_⟩
    rw [Option.map_eq_some'] at h
    obtain ⟨t0, ht0, hpair⟩ := h
    have hfst : t0 = t := congrArg Prod.fst hpair
    have hd : d = bfsRun g ((g.headD []).length : ℤ) (g.length : ℤ)
        (distSet (List.replicate (g.length : ℤ).toNat
          (List.replicate ((g.headD []).length : ℤ).toNat (-1))) t0.2 t0.1 0) [t0] :=
      (congrArg Prod.snd hpair).symm
    rw [← hfst] at hbnd ⊢
    have hs0 : distShape (List.replicate (g.length : ℤ).toNat
        (List.replicate ((g.headD []).length : ℤ).toNat (-1)))
        (g.headD []).length g.length := by
      constructor
      · simp
      · intro r hr
        rw [List.eq_of_mem_replicate hr]
        simp
    have hz : distGet (distSet (List.replicate (g.length : ℤ).toNat
        (List.replicate ((g.headD []).length : ℤ).toNat (-1))) t0.2 t0.1 0) t0.2 t0.1 = 0 :=
      distGet_distSet_self hs0 hbnd.2.2.1 hbnd.2.2.2 hbnd.1 hbnd.2.1 0
    rw [hd]
    exact bfsF_keeps_zero g _ _ _ _ _ hz

/-! ### C4: direction queries are total and degrade to the zero vector -/

/-- The selection loop either keeps the zero offset or adopts one of the eight
neighbor offsets. -/
theorem dirFold_mem (dist : List (List ℤ)) (cols rows x y cur : ℤ) :
    (dirNeighbors.foldl (dirPick dist cols rows x y) (cur, ((0 : ℤ), (0 : ℤ)))).2 = (0, 0) ∨
      (dirNeighbors.foldl (dirPick dist cols rows x y) (cur, ((0 : ℤ), (0 : ℤ)))).2
        ∈ dirNeighbors := by
  refine foldl_pres (fun acc : ℤ × (ℤ × ℤ) => acc.2 = (0, 0) ∨ acc.2 ∈ dirNeighbors)
    _ _ ?_ _ (Or.inl rfl)
  intro acc b hb hacc
  unfold dirPick
  split
  · split
    · exact Or.inr hb
    · exact hacc
  · exact hacc

/-- At a cell of distance 0 no neighbor is strictly better (`nd >= 0` and
`nd < 0` is unsatisfiable), so the selection keeps the zero offset. -/
theorem dirFold_at_root (dist : List (List ℤ)) (cols rows x y : ℤ) :
    (dirNeighbors.foldl (dirPick dist cols rows x y) ((0 : ℤ), ((0 : ℤ), (0 : ℤ)))).2
      = (0, 0) := by
  refine (foldl_pres (fun acc : ℤ × (ℤ × ℤ) => acc.1 = 0 ∧ acc.2 = (0, 0))
    (dirPick dist cols rows x y) dirNeighbors ?_ ((0 : ℤ), ((0 : ℤ), (0 : ℤ)))
    ⟨rfl, rfl⟩).2
  intro acc b _ hacc
  unfold dirPick
  split
  · split
    · rename_i hcond
      rw [hacc.1] at hcond
      exact absurd hcond (by omega)
    · exact hacc
  · exact hacc

/-- C4 (confirmed): `direction_at_world` degrades to the zero vector instead
of raising: it returns the zero offset or one of the eight neighbor offsets
(whose normalization is a unit vector over `ℝ`); an invalid field, a missing
distance array, an out-of-bounds query tile, and a sentinel (`-1`) query cell
all yield the zero vector; and immediately after a successful `rebuild`,
querying any world position inside the root tile yields the zero vector. -/
theorem C4_theorem :
    (∀ (f : Flow) (px py : ℚ),
      flowDirectionAtWorld f px py = (0, 0) ∨
        (flowDirectionAtWorld f px py ∈ dirNeighbors ∧
          unitVec (flowDirectionAtWorld f px py))) ∧
    (∀ (f : Flow) (px py : ℚ), f.valid = false → flowDirectionAtWorld f px py = (0, 0)) ∧
    (∀ (f : Flow) (px py : ℚ), f.dist = none → flowDirectionAtWorld f px py = (0, 0)) ∧
    (∀ (f : Flow) (px py : ℚ),
      ¬(0 ≤ tileOf px ∧ tileOf px < ((f.grid.headD []).length : ℤ) ∧
        0 ≤ tileOf py ∧ tileOf py < (f.grid.length : ℤ)) →
      flowDirectionAtWorld f px py = (0, 0)) ∧
    (∀ (f : Flow) (dist : List (List ℤ)) (px py : ℚ), f.dist = some dist →
      distGet dist (tileOf py) (tileOf px) < 0 → flowDirectionAtWorld f px py = (0, 0)) ∧
    (∀ (f : Flow) (px py qx qy : ℚ) (t : ℤ × ℤ) (d : List (List ℤ)),
      flowRebuildCore f.grid px py = some (t, d) →
      tileOf qx = t.1 → tileOf qy = t.2 →
      flowDirectionAtWorld (flowRebuild f px py) qx qy = (0, 0)) := by
  refine ⟨?_, ?_, ?_, ?_, ?_, ?_⟩
  · intro f px py
    rcases f with ⟨fg, fd, ft, fv⟩
    cases fd with
    | none => exact Or.inl rfl
    | some dist =>
        cases fv with
        | false => exact Or.inl rfl
        | true =>
            simp only [flowDirectionAtWorld]
            split
            · split
              · exact Or.inl rfl
              · rcases dirFold_mem dist (((fg.headD []).length : ℤ)) ((fg.length : ℤ))
                  (tileOf px) (tileOf py) (distGet dist (tileOf py) (tileOf px)) with h | h
                · exact Or.inl h
                · refine Or.inr ⟨h, unitVec_of_ne ?_⟩
                  have hall : ∀ o ∈ dirNeighbors, ¬(o.1 = 0 ∧ o.2 = 0) := by decide
                  exact hall _ h
            · exact Or.inl rfl
  · intro f px py hv
    rcases f with ⟨fg, fd, ft, fv⟩
    cases fd with
    | none => rfl
    | some dist =>
        cases fv with
        | false => rfl
        | true => exact Bool.noConfusion hv
  · intro f px py hd
    rcases f with ⟨fg, fd, ft, fv⟩
    cases fd with
    | none => rfl
    | some dist => exact Option.noConfusion hd
  · intro f px py hob
    rcases f with ⟨fg, fd, ft, fv⟩
    dsimp only at hob
    cases fd with
    | none => rfl
    | some dist =>
        cases fv with
        | false => rfl
        | true =>
            simp only [flowDirectionAtWorld]
            rw [if_neg hob]
  · intro f dist px py hd hneg
    rcases f with ⟨fg, fd, ft, fv⟩
    cases fd with
    | none => exact Option.noConfusion hd
    | some dist2 =>
        have hd2 : dist2 = dist := by
          injection hd
        subst hd2
        cases fv with
        | false => rfl
        | true =>
            simp only [flowDirectionAtWorld]
            by_cases hin : 0 ≤ tileOf px ∧ tileOf px < ((fg.headD []).length : ℤ) ∧
                0 ≤ tileOf py ∧ tileOf py < (fg.length : ℤ)
            · rw [if_pos hin, if_pos hneg]
            · rw [if_neg hin]
  · intro f px py qx qy t d heq htx hty
    obtain ⟨hx0, hxc, hy0, hyr, h0⟩ := flowRebuildCore_root heq
    simp only [flowRebuild, heq]
    simp only [flowDirectionAtWorld]
    rw [htx, hty]
    rw [if_pos ⟨hx0, hxc, hy0, hyr⟩]
    have hnn : ¬(distGet d t.2 t.1 < 0) := by omega
    rw [if_neg hnn, h0]
    exact dirFold_at_root d _ _ t.1 t.2

def c4grid : Grid := [['.', '#'], ['.', '.']]

def c4dist : List (List ℤ) := [[0, -1], [1, 2]]

/-- C4 (witness): the degradation facts applied at a concrete 2×2 field: a
missing distance array, a cleared validity flag, an out-of-bounds query, and a
query at the root tile of a freshly rebuilt field all return the zero vector. -/
theorem C4_witness :
    flowDirectionAtWorld ⟨c4grid, none, none, true⟩ 0 0 = (0, 0) ∧
    flowDirectionAtWorld ⟨c4grid, some c4dist, some (0, 0), false⟩ 0 0 = (0, 0) ∧
    flowDirectionAtWorld ⟨c4grid, some c4dist, some (0, 0), true⟩ 96 0 = (0, 0) ∧
    flowDirectionAtWorld (flowRebuild ⟨c4grid, none, none, false⟩ 0 0) 0 0 = (0, 0) := by
  have h0 : tileOf 0 = 0 := by
    unfold tileOf
    rw [show ((0 : ℚ) / 48) = ((0 : ℤ) : ℚ) by norm_num, Int.floor_intCast]
  have h96 : tileOf 96 = 2 := by
    unfold tileOf
    rw [show ((96 : ℚ) / 48) = ((2 : ℤ) : ℚ) by norm_num, Int.floor_intCast]
  refine ⟨C4_theorem.2.2.1 _ 0 0 rfl, C4_theorem.2.1 _ 0 0 rfl, ?_, ?_⟩
  · refine C4_theorem.2.2.2.1 _ 96 0 ?_
    rw [h96]
    decide
  · have heq : flowRebuildCore c4grid 0 0 = some ((0, 0), c4dist) := by
      simp only [flowRebuildCore, h0]
      decide
    exact C4_theorem.2.2.2.2.2 _ 0 0 0 0 (0, 0) c4dist heq h0 h0

/-! ## world/level.py — pairwise enemy separation (lines 305–341)

`_resolve_enemy_collisions_bucketed` visits each unordered pair of live
enemies from neighboring buckets once and runs the separation body below.
Positions, velocities and radii are embedded over `ℝ` (the float literals
`0.001`, `0.5`, `0.96` are idealized to the exact rationals; no theorem below
depends on values within the double-rounding error of these literals, and
`sqrt`/division force the noncomputable real embedding).  The `dead` skips and
the `checked` pair set select which pairs run the body; the claims below are
about the body applied to one pair. -/

structure Agent where
  px : ℝ
  py : ℝ
  vx : ℝ
  vy : ℝ
  radius : ℝ

/-- `pygame.Vector2.length()`. -/
noncomputable def vlen (v : ℝ × ℝ) : ℝ := Real.sqrt (v.1 ^ 2 + v.2 ^ 2)

/-- The per-pair separation body: degenerate pairs (`dist <= 0.001`) push
along `(1, 0)` with unit length; overlapping pairs are pushed apart half the
overlap each along the center line, with `vel.x` damped by 0.96. -/
noncomputable def resolvePair (a b : Agent) : Agent × Agent :=
  let d0 : ℝ × ℝ := (b.px - a.px, b.py - a.py)
  let dist0 := vlen d0
  let minDist := a.radius + b.radius
  let d := if dist0 ≤ 0.001 then ((1 : ℝ), (0 : ℝ)) else d0
  let dist := if dist0 ≤ 0.001 then (1 : ℝ) else dist0
  if dist < minDist then
    let overlap := minDist - dist
    let push : ℝ × ℝ := (d.1 / dist * (overlap * 0.5), d.2 / dist * (overlap * 0.5))
    (⟨a.px - push.1, a.py - push.2, a.vx * 0.96, a.vy, a.radius⟩,
     ⟨b.px + push.1, b.py + push.2, b.vx * 0.96, b.vy, b.radius⟩)
  else (a, b)

theorem vlen_mul_right (v1 v2 c : ℝ) : vlen (v1 * c, v2 * c) = vlen (v1, v2) * |c| := by
  unfold vlen
  dsimp only
  rw [show (v1 * c) ^ 2 + (v2 * c) ^ 2 = (v1 ^ 2 + v2 ^ 2) * c ^ 2 by ring,
    Real.sqrt_mul (by positivity), Real.sqrt_sq_eq_abs]

/-- C5 (confirmed): one separation pass over a non-degenerate overlapping pair
moves each agent by exactly half the overlap along the center line, leaves the
centers at distance exactly `r_a + r_b` (residual overlap 0), and a second
pass applied to the separated pair is the identity. -/
theorem C5_theorem (a b : Agent)
    (h1 : 0.001 < vlen (b.px - a.px, b.py - a.py))
    (h2 : vlen (b.px - a.px, b.py - a.py) < a.radius + b.radius) :
    ∀ a' b', resolvePair a b = (a', b') →
      (vlen (b'.px - a'.px, b'.py - a'.py) = a.radius + b.radius ∧
       resolvePair a' b' = (a', b') ∧
       vlen (a'.px - a.px, a'.py - a.py)
         = (a.radius + b.radius - vlen (b.px - a.px, b.py - a.py)) / 2 ∧
       vlen (b'.px - b.px, b'.py - b.py)
         = (a.radius + b.radius - vlen (b.px - a.px, b.py - a.py)) / 2) := by
  intro a' b' hr
  have hs0 : 0 < vlen (b.px - a.px, b.py - a.py) := lt_trans (by norm_num) h1
  have hne : ¬(vlen (b.px - a.px, b.py - a.py) ≤ 0.001) := not_le.mpr h1
  simp only [resolvePair, if_neg hne, if_pos h2] at hr
  injection hr with ha hb
  subst ha
  subst hb
  set s := vlen (b.px - a.px, b.py - a.py) with hsg
  have hsne : s ≠ 0 := ne_of_gt hs0
  have hm0 : 0 < a.radius + b.radius := lt_trans hs0 h2
  dsimp only
  have e1 : b.px + (b.px - a.px) / s * ((a.radius + b.radius - s) * 0.5) -
      (a.px - (b.px - a.px) / s * ((a.radius + b.radius - s) * 0.5))
      = (b.px - a.px) * ((a.radius + b.radius) / s) := by
    field_simp
    ring
  have e2 : b.py + (b.py - a.py) / s * ((a.radius + b.radius - s) * 0.5) -
      (a.py - (b.py - a.py) / s * ((a.radius + b.radius - s) * 0.5))
      = (b.py - a.py) * ((a.radius + b.radius) / s) := by
    field_simp
    ring
  have hA : vlen
      (b.px + (b.px - a.px) / s * ((a.radius + b.radius - s) * 0.5) -
        (a.px - (b.px - a.px) / s * ((a.radius + b.radius - s) * 0.5)),
       b.py + (b.py - a.py) / s * ((a.radius + b.radius - s) * 0.5) -
        (a.py - (b.py - a.py) / s * ((a.radius + b.radius - s) * 0.5)))
      = a.radius + b.radius := by
    rw [e1, e2, vlen_mul_right, ← hsg, abs_of_pos (div_pos hm0 hs0)]
    field_simp
  refine ⟨hA, ?_, ?_, ?_⟩
  · have hc1 : ¬(vlen
        (b.px + (b.px - a.px) / s * ((a.radius + b.radius - s) * 0.5) -
          (a.px - (b.px - a.px) / s * ((a.radius + b.radius - s) * 0.5)),
         b.py + (b.py - a.py) / s * ((a.radius + b.radius - s) * 0.5) -
          (a.py - (b.py - a.py) / s * ((a.radius + b.radius - s) * 0.5))) ≤ 0.001) := by
      rw [hA]
      intro hcon
      linarith
    have hc2 : ¬(vlen
        (b.px + (b.px - a.px) / s * ((a.radius + b.radius - s) * 0.5) -
          (a.px - (b.px - a.px) / s * ((a.radius + b.radius - s) * 0.5)),
         b.py + (b.py - a.py) / s * ((a.radius + b.radius - s) * 0.5) -
          (a.py - (b.py - a.py) / s * ((a.radius + b.radius - s) * 0.5)))
        < a.radius + b.radius) := by
      rw [hA]
      exact lt_irrefl _
    simp only [resolvePair, if_neg hc1, if_neg hc2]
  · have e3 : a.px - (b.px - a.px) / s * ((a.radius + b.radius - s) * 0.5) - a.px
        = (b.px - a.px) * (-((a.radius + b.radius - s) * 0.5 / s)) := by
      field_simp
      ring
    have e4 : a.py - (b.py - a.py) / s * ((a.radius + b.radius - s) * 0.5) - a.py
        = (b.py - a.py) * (-((a.radius + b.radius - s) * 0.5 / s)) := by
      field_simp
      ring
    rw [e3, e4, vlen_mul_right, ← hsg, abs_neg,
      abs_of_pos (div_pos (mul_pos (sub_pos.mpr h2) (by norm_num)) hs0)]
    field_simp
    ring
  · have e5 : b.px + (b.px - a.px) / s * ((a.radius + b.radius - s) * 0.5) - b.px
        = (b.px - a.px) * ((a.radius + b.radius - s) * 0.5 / s) := by
      field_simp
      ring
    have e6 : b.py + (b.py - a.py) / s * ((a.radius + b.radius - s) * 0.5) - b.py
        = (b.py - a.py) * ((a.radius + b.radius - s) * 0.5 / s) := by
      field_simp
      ring
    rw [e5, e6, vlen_mul_right, ← hsg,
      abs_of_pos (div_pos (mul_pos (sub_pos.mpr h2) (by norm_num)) hs0)]
    field_simp
    ring

def c5a : Agent := ⟨0, 0, 0, 0, 16⟩

def c5b : Agent := ⟨10, 0, 0, 0, 16⟩

/-- C5 (witness): two radius-16 agents with centers 10px apart: after one
pass the centers are exactly 32px (hence at least 32px) apart and a second
pass changes nothing. -/
theorem C5_witness :
    vlen ((resolvePair c5a c5b).2.px - (resolvePair c5a c5b).1.px,
      (resolvePair c5a c5b).2.py - (resolvePair c5a c5b).1.py) = 16 + 16 ∧
    (32 : ℝ) ≤ vlen ((resolvePair c5a c5b).2.px - (resolvePair c5a c5b).1.px,
      (resolvePair c5a c5b).2.py - (resolvePair c5a c5b).1.py) ∧
    resolvePair (resolvePair c5a c5b).1 (resolvePair c5a c5b).2 = resolvePair c5a c5b := by
  have hv : vlen (c5b.px - c5a.px, c5b.py - c5a.py) = 10 := by
    show vlen ((10 : ℝ) - 0, (0 : ℝ) - 0) = 10
    unfold vlen
    norm_num
    rw [show (100 : ℝ) = 10 ^ 2 by norm_num]
    exact Real.sqrt_sq (by norm_num)
  have h1 : (0.001 : ℝ) < vlen (c5b.px - c5a.px, c5b.py - c5a.py) := by
    rw [hv]
    norm_num
  have h2 : vlen (c5b.px - c5a.px, c5b.py - c5a.py) < c5a.radius + c5b.radius := by
    rw [hv]
    show (10 : ℝ) < 16 + 16
    norm_num
  obtain ⟨hA, hI, _, _⟩ := C5_theorem c5a c5b h1 h2
    (resolvePair c5a c5b).1 (resolvePair c5a c5b).2 rfl
  refine ⟨?_, ?_, hI⟩
  · rw [hA]
    exact rfl
  · rw [hA]
    show (32 : ℝ) ≤ 16 + 16
    norm_num

/-! ## entities/player.py — the kinematic step `Player.update`

Positions, velocities, timers and `dt` are embedded over `ℚ` (float literals
such as `0.12`, `0.16`, `0.45` are idealized to the exact rationals; no
theorem below depends on values within the double-rounding error of a
literal).  `pygame.Rect` carries integer `x, y, w, h`; `colliderect` is the
strict-overlap test (all rects exercised here have positive extent).
`Abilities` is embedded as the record of derived read-only stats that
`update` reads (the no-powerup defaults are 100, 230.0, 1.0, 820.0, 2,
560.0, 0.14, 0.55, 1, 0.0).  `pygame.key.get_pressed()` is a process-global
keyboard snapshot: the embedding surfaces it as the explicit `keys`
argument, and `update`'s `input_state` parameter is kept (and ignored) as in
the source. -/

structure Abil where
  max_health : ℤ
  run_speed : ℚ
  air_control : ℚ
  jump_speed : ℚ
  max_jumps : ℤ
  dash_speed : ℚ
  dash_time : ℚ
  dash_cooldown : ℚ
  air_dashes_max : ℤ
  regen_per_sec : ℚ

structure Rect where
  x : ℤ
  y : ℤ
  w : ℤ
  h : ℤ

/-- `Rect.colliderect`: strict overlap on both axes. -/
def collideRect (a b : Rect) : Bool :=
  a.x < b.x + b.w && a.x + a.w > b.x && a.y < b.y + b.h && a.y + a.h > b.y

/-- The four keyboard keys `update` reads: K_LEFT, K_a, K_RIGHT, K_d. -/
structure KeyState where
  left : Bool
  a : Bool
  right : Bool
  d : Bool

structure Player where
  rect : Rect
  posX : ℚ
  posY : ℚ
  velX : ℚ
  velY : ℚ
  on_ground : Bool
  facing : ℤ
  ab : Abil
  max_health : ℤ
  health : ℤ
  hurt_timer : ℚ
  shoot_cd : ℚ
  jumps_left : ℤ
  jump_buffer : ℚ
  coyote : ℚ
  dashing : Bool
  dash_timer : ℚ
  dash_cd : ℚ
  air_dashes_left : ℤ
  dash_dir : ℤ
  gravity : ℚ
  max_fall : ℚ
  wall_dir : ℤ
  wall_slide_speed : ℚ
  wall_jump_x : ℚ
  wall_jump_y_mult : ℚ
  wall_lock : ℚ

/-- Lines 89–93: refresh the derived health cap. -/
def capsStage (p : Player) : Player :=
  if p.ab.max_health ≠ p.max_health then
    { p with max_health := p.ab.max_health, health := min p.health p.ab.max_health }
  else p

/-- Lines 95–103: count down the four timers. -/
def timersStage (p : Player) (dt : ℚ) : Player :=
  let p1 := if p.hurt_timer > 0 then { p with hurt_timer := max 0 (p.hurt_timer - dt) } else p
  let p2 := if p1.shoot_cd > 0 then { p1 with shoot_cd := max 0 (p1.shoot_cd - dt) } else p1
  let p3 := if p2.dash_cd > 0 then { p2 with dash_cd := max 0 (p2.dash_cd - dt) } else p2
  if p3.wall_lock > 0 then { p3 with wall_lock := max 0 (p3.wall_lock - dt) } else p3

/-- Lines 105–107: regeneration (`int` truncates). -/
def regenStage (p : Player) (dt : ℚ) : Player :=
  if p.ab.regen_per_sec > 0 ∧ p.health > 0 then
    { p with health := min p.max_health (pyint ((p.health : ℚ) + p.ab.regen_per_sec * dt)) }
  else p

/-- Lines 110–118: `move_x` from the keyboard snapshot. -/
def moveXOf (keys : KeyState) : ℤ :=
  (if keys.left || keys.a then (-1 : ℤ) else 0) + (if keys.right || keys.d then 1 else 0)

/-- Lines 119–120. -/
def facingStage (p : Player) (mx : ℤ) : Player :=
  if mx ≠ 0 then { p with facing := if mx > 0 then 1 else -1 } else p

/-- Lines 122–131: jump buffer and coyote windows. -/
def bufferStage (p : Player) (dt : ℚ) (jumpPressed : Bool) : Player :=
  let p1 := if jumpPressed then { p with jump_buffer := 0.12 }
            else { p with jump_buffer := max 0 (p.jump_buffer - dt) }
  if p1.on_ground then { p1 with coyote := 0.10 } else { p1 with coyote := max 0 (p1.coyote - dt) }

/-- Lines 133–143: dash start. -/
def dashStage (p : Player) (mx : ℤ) (dashPressed : Bool) : Player :=
  if dashPressed ∧ p.dashing = false ∧ p.dash_cd ≤ 0 then
    if p.on_ground ∨ p.air_dashes_left > 0 then
      let dd := if mx = 0 then p.facing else (if mx > 0 then 1 else -1)
      let p1 := { p with
        dashing := true
        dash_timer := p.ab.dash_time
        dash_dir := dd
        velY := 0
        velX := (dd : ℚ) * p.ab.dash_speed }
      if p1.on_ground = false then { p1 with air_dashes_left := p1.air_dashes_left - 1 } else p1
    else p
  else p

/-- `Player._detect_wall` (lines 220–247): 1px probes on both sides.  The
source's early `break` once both probes hit does not change the two flags. -/
def detectWall (r : Rect) (solids : List Rect) : ℤ :=
  let leftProbe : Rect := ⟨r.x - 1, r.y + 2, 1, r.h - 4⟩
  let rightProbe : Rect := ⟨r.x + r.w, r.y + 2, 1, r.h - 4⟩
  let hitL := solids.any (fun s => collideRect leftProbe s)
  let hitR := solids.any (fun s => collideRect rightProbe s)
  if hitL && !hitR then -1
  else if hitR && !hitL then 1
  else 0

/-- Lines 145–169: wall detection, slide clamp, and the buffered wall jump
(which RESETS the jump stock to `max(0, max_jumps - 1)`). -/
def wallStage (p : Player) (solids : List Rect) : Player :=
  let wd := if p.wall_lock ≤ 0 ∧ p.on_ground = false then detectWall p.rect solids else 0
  let p1 := { p with wall_dir := wd }
  let p2 := if p1.wall_dir ≠ 0 ∧ p1.velY > p1.wall_slide_speed
            then { p1 with velY := p1.wall_slide_speed } else p1
  if p2.jump_buffer > 0 ∧ p2.wall_dir ≠ 0 ∧ p2.on_ground = false then
    { p2 with
      velX := ((-p2.wall_dir : ℤ) : ℚ) * p2.wall_jump_x
      velY := -(p2.ab.jump_speed * p2.wall_jump_y_mult)
      wall_lock := 0.16
      wall_dir := 0
      jump_buffer := 0
      jumps_left := max 0 (p2.ab.max_jumps - 1) }
  else p2

/-- Lines 171–206: dash ticking or normal horizontal accel + gravity + the
buffered normal jump. -/
def moveStage (p : Player) (dt : ℚ) (mx : ℤ) : Player :=
  if p.dashing then
    let t := p.dash_timer - dt
    if t ≤ 0 then { p with dash_timer := t, dashing := false, dash_cd := p.ab.dash_cooldown }
    else { p with dash_timer := t }
  else
    let target := (mx : ℚ) * p.ab.run_speed
    let accel0 := if p.on_ground then (3600 : ℚ) else 2400 * p.ab.air_control
    let accel := if p.wall_dir ≠ 0 ∧ ((mx < 0 ∧ p.wall_dir < 0) ∨ (mx > 0 ∧ p.wall_dir > 0))
                 then accel0 * 0.45 else accel0
    let diff0 := target - p.velX
    let step := accel * dt
    let diff := if diff0 > step then step else if diff0 < -step then -step else diff0
    let p1 := { p with velX := p.velX + diff }
    let p2 := { p1 with velY := min p1.max_fall (p1.velY + p1.gravity * dt) }
    if p2.jump_buffer > 0 then
      if p2.on_ground ∨ p2.coyote > 0 ∨ p2.jumps_left > 0 then
        let p3 := if ¬(p2.on_ground ∨ p2.coyote > 0)
                  then { p2 with jumps_left := p2.jumps_left - 1 } else p2
        { p3 with velY := -p3.ab.jump_speed, on_ground := false, coyote := 0, jump_buffer := 0 }
      else p2
    else p2

/-- Lines 208–210: variable jump height. -/
def varJumpStage (p : Player) (jumpReleased : Bool) : Player :=
  if jumpReleased ∧ p.velY < 0 then { p with velY := p.velY * 0.55 } else p

/-- One solid of the X sweep of `_move_and_collide` (lines 254–261). -/
def collideX (st : Player) (s : Rect) : Player :=
  if collideRect st.rect s then
    let r1 := if st.velX > 0 then { st.rect with x := s.x - st.rect.w }
              else if st.velX < 0 then { st.rect with x := s.x + s.w }
              else st.rect
    { st with rect := r1, posX := (r1.x : ℚ), velX := 0 }
  else st

/-- One solid of the Y sweep of `_move_and_collide` (lines 267–276). -/
def collideY (st : Player) (s : Rect) : Player :=
  if collideRect st.rect s then
    let r1 := if st.velY > 0 then { st.rect with y := s.y - st.rect.h }
              else if st.velY < 0 then { st.rect with y := s.y + s.h }
              else st.rect
    let og := if st.velY > 0 then true else st.on_ground
    { st with rect := r1, posY := (r1.y : ℚ), velY := 0, on_ground := og }
  else st

/-- `Player._move_and_collide` (lines 249–276): axis-separated sweep;
`int()` truncates the float position into the rect. -/
def moveCollideStage (p : Player) (dt : ℚ) (solids : List Rect) : Player :=
  let px := p.posX + p.velX * dt
  let p1 := { p with posX := px, rect := { p.rect with x := pyint px } }
  let p2 := solids.foldl collideX p1
  let py := p2.posY + p2.velY * dt
  let p3 := { p2 with posY := py, rect := { p2.rect with y := pyint py }, on_ground := false }
  solids.foldl collideY p3

/-- Lines 215–218: refill the stocks on the ground. -/
def groundResetStage (p : Player) : Player :=
  if p.on_ground then
    { p with jumps_left := max 0 (p.ab.max_jumps - 1), air_dashes_left := p.ab.air_dashes_max }
  else p

/-- `Player.update` (lines 79–218), with the process-global keyboard snapshot
surfaced as the `keys` argument; `inputState` is the ignored `input_state`
parameter and `jumpHeld` is likewise unused by the body. -/
def playerUpdate {α : Type} (keys : KeyState) (p : Player) (dt : ℚ) (inputState : α)
    (jumpPressed jumpReleased jumpHeld dashPressed : Bool) (solids : List Rect) : Player :=
  let p1 := regenStage (timersStage (capsStage p) dt) dt
  let mx := moveXOf keys
  let p2 := facingStage p1 mx
  let p3 := bufferStage p2 dt jumpPressed
  let p4 := dashStage p3 mx dashPressed
  let p5 := wallStage p4 solids
  let p6 := moveStage p5 dt mx
  let p7 := varJumpStage p6 jumpReleased
  let p8 := moveCollideStage p7 dt solids
  groundResetStage p8

/-- `Enemy._do_wall_jump` (entities/enemy.py lines 214–222), on the record of
the fields the method reads and writes. -/
structure EnemyWJ where
  velX : ℚ
  velY : ℚ
  on_wall_left : Bool
  on_wall_right : Bool
  wall_jump_x : ℚ
  wall_jump_y : ℚ
  wall_stick_timer : ℚ
  jumps_left : ℤ
  max_jumps : ℤ

def enemyDoWallJump (e : EnemyWJ) : EnemyWJ :=
  let e1 := if e.on_wall_left then { e with velX := e.wall_jump_x }
            else if e.on_wall_right then { e with velX := -e.wall_jump_x } else e
  let e2 := { e1 with velY := -e1.wall_jump_y, wall_stick_timer := 0 }
  if e2.jumps_left = e2.max_jumps then { e2 with jumps_left := e2.jumps_left - 1 } else e2

/-! ### C6: determinism of the kinematic step -/

/-- C6 (amended): once the process-global keyboard snapshot
(`pygame.key.get_pressed()`) is included as an explicit input, the kinematic
step is a pure function of `(keys, agent, dt, intents, solids)` — and it
ignores the `input_state` argument entirely: any two values (even of
different types) give identical results.  The claimed determinism over
`(agent, intents, dt, solids)` ALONE is false: the keyboard snapshot is
hidden global state that changes the outcome (see the counterexample). -/
theorem C6_theorem {α β : Type} (keys : KeyState) (p : Player) (dt : ℚ) (i1 : α) (i2 : β)
    (jp jr jh dp : Bool) (solids : List Rect) :
    playerUpdate keys p dt i1 jp jr jh dp solids
      = playerUpdate keys p dt i2 jp jr jh dp solids := rfl

def abDefault : Abil := ⟨100, 230, 1, 820, 2, 560, 0.14, 0.55, 1, 0⟩

def keysNone : KeyState := ⟨false, false, false, false⟩

def keysLeft : KeyState := ⟨true, false, false, false⟩

def p6base : Player :=
  ⟨⟨0, 0, 22, 34⟩, 0, 0, 0, 0, false, 1, abDefault, 100, 100, 0, 0, 1, 0, 0, false, 0, 0,
    1, 1, 2200, 1200, 0, 320, 520, 1, 0⟩

/-- C6 (counterexample): identical `(agent, intents, dt, solids)` (and the
same ignored `input_state`), but two different keyboard snapshots — no key
versus LEFT held — produce different results (the facing flips), so the step
is NOT a function of those four arguments alone. -/
theorem C6_counterexample :
    (playerUpdate keysNone p6base 0 () false false false false []).facing = 1 ∧
    (playerUpdate keysLeft p6base 0 () false false false false []).facing = -1 ∧
    playerUpdate keysNone p6base 0 () false false false false []
      ≠ playerUpdate keysLeft p6base 0 () false false false false [] := by
  have h1 : (playerUpdate keysNone p6base 0 () false false false false []).facing = 1 := by
    norm_num [playerUpdate, capsStage, timersStage, regenStage, moveXOf, facingStage,
      bufferStage, dashStage, wallStage, detectWall, moveStage, varJumpStage,
      moveCollideStage, groundResetStage, collideX, collideY, collideRect, pyint,
      p6base, keysNone, abDefault]
  have h2 : (playerUpdate keysLeft p6base 0 () false false false false []).facing = -1 := by
    norm_num [playerUpdate, capsStage, timersStage, regenStage, moveXOf, facingStage,
      bufferStage, dashStage, wallStage, detectWall, moveStage, varJumpStage,
      moveCollideStage, groundResetStage, collideX, collideY, collideRect, pyint,
      p6base, keysLeft, abDefault]
  refine ⟨h1, h2, fun hEq => ?_⟩
  rw [hEq, h2] at h1
  exact absurd h1 (by decide)

/-! ### C9: wall slide, wall jump, wall lock -/

/-- C9 (amended): for an airborne agent with the wall lock expired and a wall
detected: a descent faster than the slide limit is clamped to exactly the
limit (when no buffered jump fires); a buffered wall jump pushes away from
the wall (`vel.x = -wall_dir * wall_jump_x`), boosts upward, sets the 0.16s
wall lock, clears the wall contact, and RESETS the player's jump stock to
`max(0, max_jumps - 1)` — it does not decrement it (see the counterexample).
While the wall lock is running, wall contact is not registered and the stage
changes nothing but `wall_dir := 0`.  The enemy's `_do_wall_jump` decrements
its stock only when the stock is full, and leaves it unchanged otherwise. -/
theorem C9_theorem :
    (∀ (p : Player) (solids : List Rect),
      p.on_ground = false → p.wall_lock ≤ 0 → detectWall p.rect solids ≠ 0 →
      p.jump_buffer ≤ 0 → p.velY > p.wall_slide_speed →
      (wallStage p solids).velY = p.wall_slide_speed) ∧
    (∀ (p : Player) (solids : List Rect),
      p.on_ground = false → p.wall_lock ≤ 0 → detectWall p.rect solids ≠ 0 →
      p.jump_buffer > 0 →
      ((wallStage p solids).velX = ((-(detectWall p.rect solids) : ℤ) : ℚ) * p.wall_jump_x ∧
       (wallStage p solids).velY = -(p.ab.jump_speed * p.wall_jump_y_mult) ∧
       (wallStage p solids).wall_lock = 0.16 ∧
       (wallStage p solids).wall_dir = 0 ∧
       (wallStage p solids).jumps_left = max 0 (p.ab.max_jumps - 1))) ∧
    (∀ (p : Player) (solids : List Rect),
      p.wall_lock > 0 →
      ((wallStage p solids).wall_dir = 0 ∧ (wallStage p solids).velX = p.velX ∧
       (wallStage p solids).velY = p.velY ∧
       (wallStage p solids).jumps_left = p.jumps_left)) ∧
    (∀ e : EnemyWJ,
      (e.jumps_left = e.max_jumps → (enemyDoWallJump e).jumps_left = e.jumps_left - 1) ∧
      (e.jumps_left ≠ e.max_jumps → (enemyDoWallJump e).jumps_left = e.jumps_left)) := by
  refine ⟨?_, ?_, ?_, ?_⟩
  · intro p solids hog hlock hdw hbuf hvy
    have hbuf2 : ¬(p.jump_buffer > 0) := not_lt.mpr hbuf
    simp [wallStage, hog, hlock, hdw, hvy, hbuf2]
  · intro p solids hog hlock hdw hbuf
    by_cases hvy : p.velY > p.wall_slide_speed
    · simp [wallStage, hog, hlock, hdw, hbuf, hvy]
    · simp [wallStage, hog, hlock, hdw, hbuf, hvy]
  · intro p solids hlock
    have hlock2 : ¬(p.wall_lock ≤ 0) := not_le.mpr hlock
    simp [wallStage, hlock2]
  · intro e
    constructor
    · intro hfull
      unfold enemyDoWallJump
      cases hl : e.on_wall_left
      · cases hr : e.on_wall_right
        · simp [hl, hr, hfull]
        · simp [hl, hr, hfull]
      · simp [hl, hfull]
    · intro hnot
      unfold enemyDoWallJump
      cases hl : e.on_wall_left
      · cases hr : e.on_wall_right
        · simp [hl, hr, hnot]
        · simp [hl, hr, hnot]
      · simp [hl, hnot]

def wall9 : Rect := ⟨-48, 0, 48, 48⟩

def p9 : Player := { p6base with jump_buffer := 0.12, jumps_left := 0 }

def e9 : EnemyWJ := ⟨0, 0, true, false, 420, 760, 0, 2, 2⟩

/-- C9 (witness): the wall-jump facts applied at a concrete airborne player
against a wall tile on the left, and the enemy rule at a full jump stock. -/
theorem C9_witness :
    ((wallStage p9 [wall9]).wall_lock = 0.16 ∧
     (wallStage p9 [wall9]).wall_dir = 0 ∧
     (wallStage p9 [wall9]).jumps_left = max 0 (p9.ab.max_jumps - 1)) ∧
    (enemyDoWallJump e9).jumps_left = e9.jumps_left - 1 := by
  obtain ⟨_, hB, _, hD⟩ := C9_theorem
  obtain ⟨_, _, hl, hd, hj⟩ := hB p9 [wall9] rfl (by norm_num [p9, p6base]) (by decide)
    (by norm_num [p9, p6base])
  exact ⟨⟨hl, hd, hj⟩, (hD e9).1 rfl⟩

/-- C9 (counterexample): a buffered wall jump with an EMPTY jump stock
(`jumps_left = 0`) leaves the player with `jumps_left = 1`: the stock is
reset to `max_jumps - 1`, not decremented — refuting "consumes exactly one
jump charge (decrements the remaining jump count)". -/
theorem C9_counterexample :
    p9.jumps_left = 0 ∧
    (wallStage p9 [wall9]).jumps_left = 1 ∧
    (wallStage p9 [wall9]).jumps_left ≠ p9.jumps_left - 1 := by
  refine ⟨rfl, ?_, ?_⟩
  · norm_num [wallStage, detectWall, collideRect, p9, p6base, wall9, abDefault]
  · intro hc
    rw [show p9.jumps_left = 0 from rfl] at hc
    norm_num [wallStage, detectWall, collideRect, p9, p6base, wall9, abDefault] at hc

/-! ### C3: the distance field is the exact BFS shortest-distance field

`adjC` is one 4-connected step into an in-bounds non-solid cell (the BFS
checks bounds and solidity of the cell being entered); `reachN n c` says the
root reaches `c` in exactly `n` such steps.  `BfsInv` is the loop invariant
of `rebuild`'s flood fill: marked entries are exact path lengths, the queue
holds the current wave `d0` followed by the next wave `d0 + 1`, and every
processed cell's neighbors are marked within one step. -/

def adjC (g : Grid) (cols rows : ℕ) (u v : ℤ × ℤ) : Prop :=
  (v = (u.1 + 1, u.2) ∨ v = (u.1 - 1, u.2) ∨ v = (u.1, u.2 + 1) ∨ v = (u.1, u.2 - 1)) ∧
  0 ≤ v.1 ∧ v.1 < (cols : ℤ) ∧ 0 ≤ v.2 ∧ v.2 < (rows : ℤ) ∧ isBlocked g v.1 v.2 = false

def reachN (g : Grid) (cols rows : ℕ) (s : ℤ × ℤ) : ℕ → (ℤ × ℤ) → Prop
  | 0, c => c = s
  | n + 1, c => ∃ b, reachN g cols rows s n b ∧ adjC g cols rows b c

/-- Chebyshev distance between tile cells. -/
def cheb (a b : ℤ × ℤ) : ℤ := max |a.1 - b.1| |a.2 - b.2|

theorem distGet_replicate {cols rows : ℕ} {y x : ℤ} :
    distGet (List.replicate rows (List.replicate cols (-1 : ℤ))) y x = -1 := by
  unfold distGet
  split
  · rcases h : (List.replicate rows (List.replicate cols (-1 : ℤ)))[y.toNat]? with _ | row
    · rfl
    · have hrow : row = List.replicate cols (-1) := List.eq_of_mem_replicate (List.getElem?_mem h)
      subst hrow
      show ((List.replicate cols (-1 : ℤ))[x.toNat]?).getD (-1) = -1
      rcases h2 : (List.replicate cols (-1 : ℤ))[x.toNat]? with _ | v
      · rfl
      · have hv : v = -1 := List.eq_of_mem_replicate (List.getElem?_mem h2)
        rw [hv]
        rfl
  · rfl

theorem countP_set_neg (v : ℤ) (hv : v ≠ -1) :
    ∀ (l : List ℤ) (n : ℕ), n < l.length → l.getD n 0 = -1 →
      (l.set n v).countP (fun z => z == -1) + 1 = l.countP (fun z => z == -1) := by
  intro l
  induction l with
  | nil =>
      intro n hn
      exact absurd hn (by simp)
  | cons a as ih =>
      intro n hn hold
      cases n with
      | zero =>
          simp only [List.getD_cons_zero] at hold
          subst hold
          simp only [List.set_cons_zero, List.countP_cons]
          simp [hv]
      | succ m =>
          simp only [List.getD_cons_succ] at hold
          have hm : m < as.length := by simpa using hn
          simp only [List.set_cons_succ, List.countP_cons]
          have := ih m hm hold
          omega

theorem sumCountNeg_set :
    ∀ (d : List (List ℤ)) (n : ℕ) (r2 : List ℤ), n < d.length →
      ((d.set n r2).map (fun r => r.countP (fun z => z == -1))).sum
          + (d.getD n []).countP (fun z => z == -1)
        = (d.map (fun r => r.countP (fun z => z == -1))).sum
          + r2.countP (fun z => z == -1) := by
  intro d
  induction d with
  | nil =>
      intro n r2 hn
      exact absurd hn (by simp)
  | cons r rs ih =>
      intro n r2 hn
      cases n with
      | zero =>
          simp only [List.set_cons_zero, List.map_cons, List.sum_cons, List.getD_cons_zero]
          omega
      | succ m =>
          have hm : m < rs.length := by simpa using hn
          simp only [List.set_cons_succ, List.map_cons, List.sum_cons, List.getD_cons_succ]
          have := ih m r2 hm
          omega

/-- Writing a non-sentinel value over a sentinel entry lowers the sentinel
count by exactly one. -/
theorem countNeg_distSet {d : List (List ℤ)} {cols rows : ℕ} (hs : distShape d cols rows)
    {y x : ℤ} (hy0 : 0 ≤ y) (hy : y < (rows : ℤ)) (hx0 : 0 ≤ x) (hx : x < (cols : ℤ))
    (hold : distGet d y x = -1) {v : ℤ} (hv : v ≠ -1) :
    countNeg (distSet d y x v) + 1 = countNeg d := by
  have hyl : y.toNat < d.length := by
    have h1 := hs.1
    omega
  obtain ⟨row, hg⟩ : ∃ row, d[y.toNat]? = some row := ⟨_, List.getElem?_eq_getElem hyl⟩
  have hrl : row.length = cols := hs.2 _ (List.getElem?_mem hg)
  have hxl : x.toNat < row.length := by omega
  have hset : distSet d y x v = d.set y.toNat (row.set x.toNat v) := by
    simp [distSet, hy0, hx0, hg]
  have hrowold : row.getD x.toNat 0 = -1 := by
    unfold distGet at hold
    rw [if_pos ⟨hy0, hx0⟩, hg] at hold
    show row.getD x.toNat 0 = -1
    rw [List.getD_eq_getElem?_getD, List.getElem?_eq_getElem hxl] at *
    simpa [List.getElem?_eq_getElem hxl] using hold
  have hdgetD : d.getD y.toNat [] = row := by
    rw [List.getD_eq_getElem?_getD, hg]
    rfl
  have hrow := countP_set_neg v hv row x.toNat hxl hrowold
  have hsum := sumCountNeg_set d y.toNat (row.set x.toNat v) hyl
  unfold countNeg
  rw [hset]
  rw [hdgetD] at hsum
  omega

/-- Shape is preserved by `distSet`. -/
theorem distShape_distSet {d : List (List ℤ)} {cols rows : ℕ} (hs : distShape d cols rows)
    (y x v : ℤ) : distShape (distSet d y x v) cols rows := by
  obtain ⟨hlen, hrow⟩ := hs
  unfold distSet
  split
  · cases hg : d[y.toNat]? with
    | none => exact ⟨hlen, hrow⟩
    | some row =>
        refine ⟨by simpa using hlen, ?_⟩
        intro r hr
        rcases List.mem_or_eq_of_mem_set hr with h | rfl
        · exact hrow r h
        · have : row ∈ d := List.getElem?_mem hg
          simpa using hrow row this
  · exact ⟨hlen, hrow⟩

/-- The flood-fill loop invariant. -/
structure BfsInv (g : Grid) (cols rows : ℕ) (s : ℤ × ℤ)
    (dist : List (List ℤ)) (q : List (ℤ × ℤ)) (d0 : ℕ) : Prop where
  shape : distShape dist cols rows
  root : distGet dist s.2 s.1 = 0
  vals : ∀ y x : ℤ, distGet dist y x = -1 ∨ 0 ≤ distGet dist y x
  sound : ∀ y x : ℤ, 0 ≤ distGet dist y x →
    reachN g cols rows s (distGet dist y x).toNat (x, y)
  inb : ∀ y x : ℤ, distGet dist y x ≠ -1 →
    (0 ≤ x ∧ x < (cols : ℤ) ∧ 0 ≤ y ∧ y < (rows : ℤ))
  qmark : ∀ c ∈ q, 0 ≤ distGet dist c.2 c.1
  wave : ∃ q1 q2, q = q1 ++ q2 ∧ (∀ c ∈ q1, distGet dist c.2 c.1 = (d0 : ℤ)) ∧
    (∀ c ∈ q2, distGet dist c.2 c.1 = (d0 : ℤ) + 1)
  bound : ∀ y x : ℤ, 0 ≤ distGet dist y x → distGet dist y x ≤ (d0 : ℤ) + 1
  closed : ∀ b : ℤ × ℤ, distGet dist b.2 b.1 ≠ -1 → b ∉ q →
    ∀ v, adjC g cols rows b v →
      (0 ≤ distGet dist v.2 v.1 ∧ distGet dist v.2 v.1 ≤ distGet dist b.2 b.1 + 1)
  nodup : q.Nodup

def inBnd (cols rows : ℕ) (v : ℤ × ℤ) : Prop :=
  0 ≤ v.1 ∧ v.1 < (cols : ℤ) ∧ 0 ≤ v.2 ∧ v.2 < (rows : ℤ)

/-- What one pop's neighbor sweep does: `new` is the list of freshly numbered
and enqueued cells, everything already numbered is untouched, every in-bounds
open candidate ends numbered, and the sentinel count drops by `new.length`. -/
structure FoldOut (g : Grid) (cols rows : ℕ) (d : ℤ) (dist : List (List ℤ))
    (L q : List (ℤ × ℤ)) (st : List (List ℤ) × List (ℤ × ℤ))
    (new : List (ℤ × ℤ)) : Prop where
  q_eq : st.2 = q ++ new
  nodup : new.Nodup
  mem : ∀ v ∈ new, v ∈ L ∧ distGet dist v.2 v.1 = -1 ∧ inBnd cols rows v ∧
    isBlocked g v.1 v.2 = false ∧ distGet st.1 v.2 v.1 = d + 1
  pres : ∀ y x : ℤ, distGet dist y x ≠ -1 → distGet st.1 y x = distGet dist y x
  fresh : ∀ y x : ℤ, distGet dist y x = -1 →
    (distGet st.1 y x = -1 ∧ (x, y) ∉ new) ∨ (distGet st.1 y x = d + 1 ∧ (x, y) ∈ new)
  cover : ∀ v ∈ L, inBnd cols rows v → isBlocked g v.1 v.2 = false →
    distGet st.1 v.2 v.1 ≠ -1
  shape : distShape st.1 cols rows
  meas : countNeg st.1 + new.length = countNeg dist

theorem foldOut_cons_skip {g : Grid} {cols rows : ℕ} {d : ℤ} {dist : List (List ℤ)}
    {L' q new : List (ℤ × ℤ)} {st : List (List ℤ) × List (ℤ × ℤ)} {a : ℤ × ℤ}
    (out : FoldOut g cols rows d dist L' q st new)
    (hcov : inBnd cols rows a → isBlocked g a.1 a.2 = false → distGet st.1 a.2 a.1 ≠ -1) :
    FoldOut g cols rows d dist (a :: L') q st new := by
  refine ⟨out.q_eq, out.nodup, ?_, out.pres, out.fresh, ?_, out.shape, out.meas⟩
  · intro v hv
    obtain ⟨h1, h2, h3, h4, h5⟩ := out.mem v hv
    exact ⟨List.mem_cons_of_mem _ h1, h2, h3, h4, h5⟩
  · intro v hvL hvb hvo
    rcases List.mem_cons.mp hvL with rfl | hv
    · exact hcov hvb hvo
    · exact out.cover v hv hvb hvo

theorem foldVisit (g : Grid) (cols rows : ℕ) (d : ℤ) (hd : 0 ≤ d) :
    ∀ (L : List (ℤ × ℤ)), L.Nodup → ∀ (dist : List (List ℤ)) (q : List (ℤ × ℤ)),
      distShape dist cols rows →
      ∃ new, FoldOut g cols rows d dist L q
        (L.foldl (bfsVisit g (cols : ℤ) (rows : ℤ) d) (dist, q)) new := by
  intro L
  induction L with
  | nil =>
      intro _ dist q hs
      refine ⟨[], by simp, List.nodup_nil, ?_, ?_, ?_, ?_, hs, by simp⟩
      · intro v hv
        cases hv
      · intro y x _
        rfl
      · intro y x hun
        exact Or.inl ⟨hun, List.not_mem_nil _⟩
      · intro v hv
        cases hv
  | cons a L2 ih =>
      intro hnd dist q hs
      obtain ⟨ha, hnd2⟩ := List.nodup_cons.mp hnd
      rw [List.foldl_cons]
      by_cases hb : (0 ≤ a.1 ∧ a.1 < (cols : ℤ) ∧ 0 ≤ a.2 ∧ a.2 < (rows : ℤ))
      · by_cases hm : distGet dist a.2 a.1 = -1
        · by_cases hbl : isBlocked g a.1 a.2 = true
          · -- in bounds, fresh, but blocked: skipped
            have hstep : bfsVisit g (cols : ℤ) (rows : ℤ) d (dist, q) a = (dist, q) := by
              unfold bfsVisit
              dsimp only
              rw [if_pos hb, if_neg (not_not_intro hm), if_pos hbl]
            rw [hstep]
            obtain ⟨new2, out2⟩ := ih hnd2 dist q hs
            exact ⟨new2, foldOut_cons_skip out2
              (fun _ hopen => absurd (hbl.symm.trans hopen) (by decide))⟩
          · -- the write: number the cell d + 1 and enqueue it
            have hstep : bfsVisit g (cols : ℤ) (rows : ℤ) d (dist, q) a
                = (distSet dist a.2 a.1 (d + 1), q ++ [a]) := by
              unfold bfsVisit
              dsimp only
              rw [if_pos hb, if_neg (not_not_intro hm), if_neg hbl]
            rw [hstep]
            have hvne : (d : ℤ) + 1 ≠ -1 := by omega
            have hs1 : distShape (distSet dist a.2 a.1 (d + 1)) cols rows :=
              distShape_distSet hs _ _ _
            have hself : distGet (distSet dist a.2 a.1 (d + 1)) a.2 a.1 = d + 1 :=
              distGet_distSet_self hs hb.2.2.1 hb.2.2.2 hb.1 hb.2.1 _
            have hframe : ∀ y x : ℤ, ¬(x = a.1 ∧ y = a.2) →
                distGet (distSet dist a.2 a.1 (d + 1)) y x = distGet dist y x := by
              intro y x hne
              by_cases h1 : x = a.1
              · exact distGet_distSet_ne (Or.inl (fun hh => hne ⟨h1, hh.symm⟩))
              · exact distGet_distSet_ne (Or.inr (fun hh => h1 hh.symm))
            obtain ⟨new2, out2⟩ := ih hnd2 (distSet dist a.2 a.1 (d + 1)) (q ++ [a]) hs1
            have hne1 : distGet (distSet dist a.2 a.1 (d + 1)) a.2 a.1 ≠ -1 := by
              rw [hself]
              exact hvne
            have hanew : a ∉ new2 := by
              intro hmem
              have h2 := (out2.mem a hmem).2.1
              rw [hself] at h2
              exact hvne h2
            refine ⟨a :: new2, ?_, ?_, ?_, ?_, ?_, ?_, out2.shape, ?_⟩
            · rw [out2.q_eq]
              simp
            · exact List.nodup_cons.mpr ⟨hanew, out2.nodup⟩
            · intro v hv
              rcases List.mem_cons.mp hv with rfl | hv2
              · refine ⟨List.mem_cons_self _ _, hm, hb, ?_, ?_⟩
                · cases hbv : isBlocked g v.1 v.2 with
                  | false => rfl
                  | true => exact absurd hbv hbl
                · exact (out2.pres v.2 v.1 hne1).trans hself
              · obtain ⟨h1, h2, h3, h4, h5⟩ := out2.mem v hv2
                have hvna : ¬(v.1 = a.1 ∧ v.2 = a.2) := by
                  rintro ⟨e1, e2⟩
                  rw [e1, e2, hself] at h2
                  exact hvne h2
                exact ⟨List.mem_cons_of_mem _ h1,
                  (hframe v.2 v.1 hvna).symm.trans h2, h3, h4, h5⟩
            · intro y x hmk
              have hne : ¬(x = a.1 ∧ y = a.2) := by
                rintro ⟨e1, e2⟩
                rw [e1, e2] at hmk
                exact hmk hm
              have h1 := hframe y x hne
              have h2 : distGet (distSet dist a.2 a.1 (d + 1)) y x ≠ -1 := by
                rw [h1]
                exact hmk
              rw [out2.pres y x h2, h1]
            · intro y x hun
              by_cases heq : x = a.1 ∧ y = a.2
              · right
                obtain ⟨e1, e2⟩ := heq
                subst e1
                subst e2
                exact ⟨(out2.pres a.2 a.1 hne1).trans hself, List.mem_cons_self _ _⟩
              · have h1 := hframe y x heq
                rcases out2.fresh y x (h1.trans hun) with ⟨hl1, hl2⟩ | ⟨hr1, hr2⟩
                · left
                  refine ⟨hl1, ?_⟩
                  intro hmem
                  rcases List.mem_cons.mp hmem with heq2 | hmem2
                  · exact heq ⟨congrArg Prod.fst heq2, congrArg Prod.snd heq2⟩
                  · exact hl2 hmem2
                · right
                  exact ⟨hr1, List.mem_cons_of_mem _ hr2⟩
            · intro v hvL hvb hvo
              rcases List.mem_cons.mp hvL with rfl | hv2
              · rw [out2.pres v.2 v.1 hne1, hself]
                exact hvne
              · exact out2.cover v hv2 hvb hvo
            · have h1 := out2.meas
              have h2 : countNeg (distSet dist a.2 a.1 (d + 1)) + 1 = countNeg dist :=
                countNeg_distSet hs hb.2.2.1 hb.2.2.2 hb.1 hb.2.1 hm hvne
              simp only [List.length_cons]
              omega
        · -- already numbered: skipped, value kept
          have hstep : bfsVisit g (cols : ℤ) (rows : ℤ) d (dist, q) a = (dist, q) := by
            unfold bfsVisit
            dsimp only
            rw [if_pos hb, if_pos hm]
          rw [hstep]
          obtain ⟨new2, out2⟩ := ih hnd2 dist q hs
          refine ⟨new2, foldOut_cons_skip out2 (fun _ _ => ?_)⟩
          rw [out2.pres a.2 a.1 hm]
          exact hm
      · -- out of bounds: skipped
        have hstep : bfsVisit g (cols : ℤ) (rows : ℤ) d (dist, q) a = (dist, q) := by
          unfold bfsVisit
          dsimp only
          rw [if_neg hb]
        rw [hstep]
        obtain ⟨new2, out2⟩ := ih hnd2 dist q hs
        exact ⟨new2, foldOut_cons_skip out2 (fun hbnd _ => absurd hbnd hb)⟩

/-- One pop preserves the invariant (with the wave index advancing when the
popped cell already belongs to the next wave) and trades one unit of
`countNeg + |q|` for the pop. -/
theorem bfs_step {g : Grid} {cols rows : ℕ} {s : ℤ × ℤ} {dist : List (List ℤ)}
    {c : ℤ × ℤ} {q' : List (ℤ × ℤ)} {d0 : ℕ}
    (inv : BfsInv g cols rows s dist (c :: q') d0) (st : List (List ℤ) × List (ℤ × ℤ))
    (hst : st = [(c.1 + 1, c.2), (c.1 - 1, c.2), (c.1, c.2 + 1), (c.1, c.2 - 1)].foldl
      (bfsVisit g (cols : ℤ) (rows : ℤ) (distGet dist c.2 c.1)) (dist, q')) :
    ∃ d1 : ℕ, BfsInv g cols rows s st.1 st.2 d1 ∧
      countNeg st.1 + st.2.length = countNeg dist + q'.length := by
  have hd0 : 0 ≤ distGet dist c.2 c.1 := inv.qmark c (List.mem_cons_self _ _)
  have hLnd : ([(c.1 + 1, c.2), (c.1 - 1, c.2), (c.1, c.2 + 1), (c.1, c.2 - 1)] :
      List (ℤ × ℤ)).Nodup := by
    simp [List.nodup_cons, List.mem_cons, Prod.ext_iff]
    omega
  obtain ⟨new, out⟩ := foldVisit g cols rows (distGet dist c.2 c.1) hd0
    _ hLnd dist q' inv.shape
  rw [← hst] at out
  have hdrange : distGet dist c.2 c.1 = (d0 : ℤ) ∨ distGet dist c.2 c.1 = (d0 : ℤ) + 1 := by
    obtain ⟨q1, q2, hqeq, hq1, hq2⟩ := inv.wave
    cases q1 with
    | nil =>
        right
        have hq2eq : q2 = c :: q' := by simpa using hqeq.symm
        exact hq2 c (by rw [hq2eq]; exact List.mem_cons_self _ _)
    | cons e q1' =>
        left
        rw [List.cons_append] at hqeq
        have hce : c = e := by
          injection hqeq with h1 _
        rw [hce]
        exact hq1 e (List.mem_cons_self _ _)
  have hq'sub : ∀ v ∈ q', 0 ≤ distGet dist v.2 v.1 :=
    fun v hv => inv.qmark v (List.mem_cons_of_mem _ hv)
  have hpresq : ∀ v ∈ q', distGet st.1 v.2 v.1 = distGet dist v.2 v.1 := by
    intro v hv
    refine out.pres _ _ ?_
    have := hq'sub v hv
    omega
  have hsound_new : ∀ v ∈ new, reachN g cols rows s (distGet dist c.2 c.1 + 1).toNat v := by
    intro v hv
    obtain ⟨hvL, hvun, hvb, hvo, hvval⟩ := out.mem v hv
    have hadj : adjC g cols rows c v := by
      refine ⟨?_, hvb.1, hvb.2.1, hvb.2.2.1, hvb.2.2.2, hvo⟩
      simpa using hvL
    have hreach_c := inv.sound c.2 c.1 hd0
    have htn : (distGet dist c.2 c.1 + 1).toNat = (distGet dist c.2 c.1).toNat + 1 := by
      omega
    rw [htn]
    exact ⟨c, hreach_c, hadj⟩
  have hvals : ∀ y x : ℤ, distGet st.1 y x = -1 ∨ 0 ≤ distGet st.1 y x := by
    intro y x
    by_cases hold : distGet dist y x = -1
    · rcases out.fresh y x hold with ⟨h1, _⟩ | ⟨h1, _⟩
      · exact Or.inl h1
      · right
        rw [h1]
        omega
    · rw [out.pres y x hold]
      exact inv.vals y x
  have hsound : ∀ y x : ℤ, 0 ≤ distGet st.1 y x →
      reachN g cols rows s (distGet st.1 y x).toNat (x, y) := by
    intro y x hge
    by_cases hold : distGet dist y x = -1
    · rcases out.fresh y x hold with ⟨h1, _⟩ | ⟨h1, h2⟩
      · rw [h1] at hge
        exact absurd hge (by omega)
      · rw [h1]
        exact hsound_new _ h2
    · rw [out.pres y x hold] at hge ⊢
      exact inv.sound y x hge
  have hinb : ∀ y x : ℤ, distGet st.1 y x ≠ -1 →
      (0 ≤ x ∧ x < (cols : ℤ) ∧ 0 ≤ y ∧ y < (rows : ℤ)) := by
    intro y x hmk
    by_cases hold : distGet dist y x = -1
    · rcases out.fresh y x hold with ⟨h1, _⟩ | ⟨_, h2⟩
      · exact absurd h1 hmk
      · exact (out.mem _ h2).2.2.1
    · exact inv.inb y x hold
  have hroot : distGet st.1 s.2 s.1 = 0 := by
    have hne : distGet dist s.2 s.1 ≠ -1 := by
      rw [inv.root]
      omega
    rw [out.pres s.2 s.1 hne]
    exact inv.root
  have hqmark : ∀ v ∈ st.2, 0 ≤ distGet st.1 v.2 v.1 := by
    intro v hv
    rw [out.q_eq] at hv
    rcases List.mem_append.mp hv with h | h
    · rw [hpresq v h]
      exact hq'sub v h
    · rw [(out.mem v h).2.2.2.2]
      omega
  have hnodup : st.2.Nodup := by
    rw [out.q_eq]
    refine List.Nodup.append (List.nodup_cons.mp inv.nodup).2 out.nodup ?_
    intro v hv1 hv2
    have h1 := hq'sub v hv1
    have h2 := (out.mem v hv2).2.1
    omega
  have hmeas : countNeg st.1 + st.2.length = countNeg dist + q'.length := by
    have h1 := out.meas
    rw [out.q_eq]
    simp only [List.length_append]
    omega
  have hcne : distGet dist c.2 c.1 ≠ -1 := by omega
  have hc_st : distGet st.1 c.2 c.1 = distGet dist c.2 c.1 := out.pres c.2 c.1 hcne
  have hclosed : ∀ b : ℤ × ℤ, distGet st.1 b.2 b.1 ≠ -1 → b ∉ st.2 →
      ∀ v, adjC g cols rows b v →
        (0 ≤ distGet st.1 v.2 v.1 ∧ distGet st.1 v.2 v.1 ≤ distGet st.1 b.2 b.1 + 1) := by
    intro b hbmk hbq v hadj
    by_cases hbc : b = c
    · subst hbc
      have hvL : v ∈ [(b.1 + 1, b.2), (b.1 - 1, b.2), (b.1, b.2 + 1), (b.1, b.2 - 1)] := by
        rcases hadj.1 with h | h | h | h <;> simp [h]
      have hvmk : distGet st.1 v.2 v.1 ≠ -1 :=
        out.cover v hvL ⟨hadj.2.1, hadj.2.2.1, hadj.2.2.2.1, hadj.2.2.2.2.1⟩
          hadj.2.2.2.2.2
      have hvge : 0 ≤ distGet st.1 v.2 v.1 := by
        rcases hvals v.2 v.1 with h | h
        · exact absurd h hvmk
        · exact h
      refine ⟨hvge, ?_⟩
      rw [hc_st]
      by_cases hold : distGet dist v.2 v.1 = -1
      · rcases out.fresh v.2 v.1 hold with ⟨h1, _⟩ | ⟨h1, _⟩
        · exact absurd h1 hvmk
        · rw [h1]
      · rw [out.pres v.2 v.1 hold]
        have hb1 := inv.bound v.2 v.1 (by
          rcases inv.vals v.2 v.1 with h | h
          · exact absurd h hold
          · exact h)
        rcases hdrange with h | h <;> omega
    · have hbold : distGet dist b.2 b.1 ≠ -1 := by
        intro hold
        rcases out.fresh b.2 b.1 hold with ⟨h1, _⟩ | ⟨_, h2⟩
        · exact hbmk h1
        · exact hbq (by rw [out.q_eq]; exact List.mem_append_right _ h2)
      have hbnq : b ∉ (c :: q') := by
        intro hmem
        rcases List.mem_cons.mp hmem with h | h
        · exact hbc h
        · exact hbq (by rw [out.q_eq]; exact List.mem_append_left _ h)
      obtain ⟨h1, h2⟩ := inv.closed b hbold hbnq v hadj
      have hvold : distGet dist v.2 v.1 ≠ -1 := by omega
      rw [out.pres v.2 v.1 hvold, out.pres b.2 b.1 hbold]
      exact ⟨h1, h2⟩
  obtain ⟨q1, q2, hqeq, hq1, hq2⟩ := inv.wave
  cases q1 with
  | nil =>
      have hq2eq : q2 = c :: q' := by simpa using hqeq.symm
      have hdval : distGet dist c.2 c.1 = (d0 : ℤ) + 1 :=
        hq2 c (by rw [hq2eq]; exact List.mem_cons_self _ _)
      refine ⟨d0 + 1, ⟨out.shape, hroot, hvals, hsound, hinb, hqmark, ?_, ?_, hclosed,
        hnodup⟩, hmeas⟩
      · refine ⟨q', new, out.q_eq, ?_, ?_⟩
        · intro v hv
          have hvq2 : v ∈ q2 := by
            rw [hq2eq]
            exact List.mem_cons_of_mem _ hv
          rw [hpresq v hv, hq2 v hvq2]
          push_cast
          ring
        · intro v hv
          rw [(out.mem v hv).2.2.2.2, hdval]
          push_cast
          ring
      · intro y x hge
        by_cases hold : distGet dist y x = -1
        · rcases out.fresh y x hold with ⟨h1, _⟩ | ⟨h1, _⟩
          · rw [h1] at hge
            exact absurd hge (by omega)
          · rw [h1, hdval]
            push_cast
            omega
        · rw [out.pres y x hold] at hge ⊢
          have := inv.bound y x hge
          push_cast
          omega
  | cons e q1' =>
      rw [List.cons_append] at hqeq
      have hce : c = e := by
        injection hqeq with h1 _
      have hq'eq : q' = q1' ++ q2 := by
        injection hqeq with _ h2
      have hdval : distGet dist c.2 c.1 = (d0 : ℤ) := by
        rw [hce]
        exact hq1 e (List.mem_cons_self _ _)
      refine ⟨d0, ⟨out.shape, hroot, hvals, hsound, hinb, hqmark, ?_, ?_, hclosed,
        hnodup⟩, hmeas⟩
      · refine ⟨q1', q2 ++ new, ?_, ?_, ?_⟩
        · rw [out.q_eq, hq'eq, List.append_assoc]
        · intro v hv
          have hvq : v ∈ q' := by
            rw [hq'eq]
            exact List.mem_append_left _ hv
          rw [hpresq v hvq]
          exact hq1 v (List.mem_cons_of_mem _ hv)
        · intro v hv
          rcases List.mem_append.mp hv with h | h
          · have hvq : v ∈ q' := by
              rw [hq'eq]
              exact List.mem_append_right _ h
            rw [hpresq v hvq]
            exact hq2 v h
          · rw [(out.mem v h).2.2.2.2, hdval]
      · intro y x hge
        by_cases hold : distGet dist y x = -1
        · rcases out.fresh y x hold with ⟨h1, _⟩ | ⟨h1, _⟩
          · rw [h1] at hge
            exact absurd hge (by omega)
          · rw [h1, hdval]
        · rw [out.pres y x hold] at hge ⊢
          exact inv.bound y x hge

theorem reachN_zero_iff {g : Grid} {cols rows : ℕ} {s c : ℤ × ℤ} :
    reachN g cols rows s 0 c ↔ c = s := Iff.rfl

theorem reachN_succ_iff {g : Grid} {cols rows : ℕ} {s c : ℤ × ℤ} {n : ℕ} :
    reachN g cols rows s (n + 1) c ↔
      ∃ b, reachN g cols rows s n b ∧ adjC g cols rows b c := Iff.rfl

/-- Enough fuel drains the queue completely while keeping the invariant. -/
theorem bfs_drain {g : Grid} {cols rows : ℕ} {s : ℤ × ℤ} :
    ∀ (fuel : ℕ) (dist : List (List ℤ)) (q : List (ℤ × ℤ)) (d0 : ℕ),
      BfsInv g cols rows s dist q d0 →
      countNeg dist + q.length ≤ fuel →
      ∃ d1, BfsInv g cols rows s (bfsF g (cols : ℤ) (rows : ℤ) fuel dist q) [] d1 := by
  intro fuel
  induction fuel with
  | zero =>
      intro dist q d0 inv hle
      cases q with
      | nil => exact ⟨d0, inv⟩
      | cons c q' =>
          exfalso
          simp [List.length_cons] at hle
  | succ n ih =>
      intro dist q d0 inv hle
      cases q with
      | nil => exact ⟨d0, inv⟩
      | cons c q' =>
          obtain ⟨d1, inv1, hm⟩ := bfs_step inv _ rfl
          refine ih _ _ d1 inv1 ?_
          rw [hm]
          simp only [List.length_cons] at hle
          omega

/-- In the drained state every `n`-step-reachable cell is numbered at
most `n`. -/
theorem bfs_final {g : Grid} {cols rows : ℕ} {s : ℤ × ℤ} {dist : List (List ℤ)} {d0 : ℕ}
    (inv : BfsInv g cols rows s dist [] d0) :
    ∀ (n : ℕ) (c : ℤ × ℤ), reachN g cols rows s n c →
      0 ≤ distGet dist c.2 c.1 ∧ distGet dist c.2 c.1 ≤ (n : ℤ) := by
  intro n
  induction n with
  | zero =>
      intro c hc
      have hcs : c = s := reachN_zero_iff.mp hc
      rw [hcs, inv.root]
      simp
  | succ m ih =>
      intro c hc
      obtain ⟨b, hb, hadj⟩ := reachN_succ_iff.mp hc
      obtain ⟨h1, h2⟩ := ih b hb
      have hbne : distGet dist b.2 b.1 ≠ -1 := by omega
      have hcl := inv.closed b hbne (List.not_mem_nil _) c hadj
      refine ⟨hcl.1, ?_⟩
      push_cast
      omega

/-- The completed flood fill from an in-bounds root `t`: the root is 0, every
entry is the sentinel or an exact shortest 4-connected distance from `t`, and
the sentinel marks exactly the unreachable cells. -/
theorem bfsRun_spec {g : Grid} {cols rows : ℕ} {t : ℤ × ℤ} (hb : inBnd cols rows t) :
    ∀ D, D = bfsRun g (cols : ℤ) (rows : ℤ)
        (distSet (List.replicate rows (List.replicate cols (-1))) t.2 t.1 0) [t] →
      (distGet D t.2 t.1 = 0 ∧
       (∀ y x : ℤ, distGet D y x = -1 ∨ 0 ≤ distGet D y x) ∧
       (∀ y x : ℤ, 0 ≤ distGet D y x →
         reachN g cols rows t (distGet D y x).toNat (x, y) ∧
         (∀ n, reachN g cols rows t n (x, y) → distGet D y x ≤ (n : ℤ))) ∧
       (∀ y x : ℤ, distGet D y x = -1 → ∀ n, ¬reachN g cols rows t n (x, y))) := by
  intro D hD
  have hs0 : distShape (List.replicate rows (List.replicate cols (-1 : ℤ))) cols rows := by
    constructor
    · simp
    · intro r hr
      rw [List.eq_of_mem_replicate hr]
      simp
  have hs1 : distShape (distSet (List.replicate rows (List.replicate cols (-1 : ℤ)))
      t.2 t.1 0) cols rows := distShape_distSet hs0 _ _ _
  have hself : distGet (distSet (List.replicate rows (List.replicate cols (-1 : ℤ)))
      t.2 t.1 0) t.2 t.1 = 0 :=
    distGet_distSet_self hs0 hb.2.2.1 hb.2.2.2 hb.1 hb.2.1 0
  have hframe : ∀ y x : ℤ, ¬(x = t.1 ∧ y = t.2) →
      distGet (distSet (List.replicate rows (List.replicate cols (-1 : ℤ))) t.2 t.1 0) y x
        = -1 := by
    intro y x hne
    have h1 : distGet (distSet (List.replicate rows (List.replicate cols (-1 : ℤ)))
        t.2 t.1 0) y x
        = distGet (List.replicate rows (List.replicate cols (-1 : ℤ))) y x := by
      by_cases h1 : x = t.1
      · exact distGet_distSet_ne (Or.inl (fun hh => hne ⟨h1, hh.symm⟩))
      · exact distGet_distSet_ne (Or.inr (fun hh => h1 hh.symm))
    rw [h1, distGet_replicate]
  have hcell : ∀ y x : ℤ,
      distGet (distSet (List.replicate rows (List.replicate cols (-1 : ℤ))) t.2 t.1 0) y x ≠ -1
      → x = t.1 ∧ y = t.2 := by
    intro y x hmk
    by_contra hne
    exact hmk (hframe y x hne)
  have inv0 : BfsInv g cols rows t
      (distSet (List.replicate rows (List.replicate cols (-1 : ℤ))) t.2 t.1 0) [t] 0 := by
    refine ⟨hs1, hself, ?_, ?_, ?_, ?_, ?_, ?_, ?_, List.nodup_singleton _⟩
    · intro y x
      by_cases hne : x = t.1 ∧ y = t.2
      · obtain ⟨e1, e2⟩ := hne
        subst e1
        subst e2
        rw [hself]
        right
        omega
      · exact Or.inl (hframe y x hne)
    · intro y x hge
      obtain ⟨e1, e2⟩ := hcell y x (by omega)
      subst e1
      subst e2
      rw [hself]
      exact rfl
    · intro y x hmk
      obtain ⟨e1, e2⟩ := hcell y x hmk
      subst e1
      subst e2
      exact ⟨hb.1, hb.2.1, hb.2.2.1, hb.2.2.2⟩
    · intro v hv
      rcases List.mem_cons.mp hv with rfl | hv2
      · rw [hself]
      · cases hv2
    · refine ⟨[t], [], by simp, ?_, ?_⟩
      · intro v hv
        rcases List.mem_cons.mp hv with rfl | hv2
        · rw [hself]
          rfl
        · cases hv2
      · intro v hv
        cases hv
    · intro y x hge
      obtain ⟨e1, e2⟩ := hcell y x (by omega)
      subst e1
      subst e2
      rw [hself]
      omega
    · intro b hbmk hbq v hadj
      exfalso
      apply hbq
      obtain ⟨e1, e2⟩ := hcell b.2 b.1 hbmk
      have hbt : b = t := by
        rw [Prod.ext_iff]
        exact ⟨e1, e2⟩
      rw [hbt]
      exact List.mem_cons_self _ _
  obtain ⟨d1, invF⟩ := bfs_drain
    (countNeg (distSet (List.replicate rows (List.replicate cols (-1 : ℤ))) t.2 t.1 0)
      + [t].length + 1) _ _ 0 inv0 (by omega)
  rw [show bfsRun g (cols : ℤ) (rows : ℤ)
      (distSet (List.replicate rows (List.replicate cols (-1 : ℤ))) t.2 t.1 0) [t]
      = bfsF g (cols : ℤ) (rows : ℤ)
        (countNeg (distSet (List.replicate rows (List.replicate cols (-1 : ℤ))) t.2 t.1 0)
          + [t].length + 1)
        (distSet (List.replicate rows (List.replicate cols (-1 : ℤ))) t.2 t.1 0) [t]
    from rfl] at hD
  subst hD
  refine ⟨invF.root, invF.vals, ?_, ?_⟩
  · intro y x hge
    refine ⟨invF.sound y x hge, ?_⟩
    intro n hreach
    have := bfs_final invF n (x, y) hreach
    exact this.2
  · intro y x hne n hreach
    have := bfs_final invF n (x, y) hreach
    dsimp only at this
    omega

theorem findSome_first {α β : Type} (f : α → Option β) :
    ∀ (l : List α) (b : β), l.findSome? f = some b →
      ∃ l1 a l2, l = l1 ++ a :: l2 ∧ f a = some b ∧ ∀ x ∈ l1, f x = none := by
  intro l
  induction l with
  | nil =>
      intro b hb
      simp at hb
  | cons a as ih =>
      intro b hb
      cases hfa : f a with
      | some b2 =>
          simp only [List.findSome?_cons, hfa] at hb
          refine ⟨[], a, as, by simp, ?_, ?_⟩
          · rw [hfa, hb]
          · intro x hx
            cases hx
      | none =>
          simp only [List.findSome?_cons, hfa] at hb
          obtain ⟨l1, a2, l2, he, hfa2, hnone⟩ := ih b hb
          refine ⟨a :: l1, a2, l2, by rw [he]; rfl, hfa2, ?_⟩
          intro x hx
          rcases List.mem_cons.mp hx with rfl | hx2
          · exact hfa
          · exact hnone x hx2

theorem ringScan_some {g : Grid} {cols rows x y r : ℤ} {c : ℤ × ℤ}
    (h : ringScan g cols rows x y r = some c) :
    0 ≤ c.1 ∧ c.1 < cols ∧ 0 ≤ c.2 ∧ c.2 < rows ∧ isBlocked g c.1 c.2 = false ∧
      cheb c (x, y) ≤ r := by
  unfold ringScan at h
  obtain ⟨oy, hoy, h2⟩ := List.exists_of_findSome?_eq_some h
  obtain ⟨ox, hox, h3⟩ := List.exists_of_findSome?_eq_some h2
  rw [mem_rangeZ] at hoy hox
  split at h3
  · rename_i hcond
    cases h3
    refine ⟨hcond.1, hcond.2.1, hcond.2.2.1, hcond.2.2.2.1, hcond.2.2.2.2, ?_⟩
    simp only [cheb]
    rw [show x + ox - x = ox by ring, show y + oy - y = oy by ring, max_le_iff,
      abs_le, abs_le]
    omega
  · cases h3

theorem ringScan_none {g : Grid} {cols rows x y r : ℤ}
    (h : ringScan g cols rows x y r = none) :
    ∀ c : ℤ × ℤ, 0 ≤ c.1 → c.1 < cols → 0 ≤ c.2 → c.2 < rows →
      isBlocked g c.1 c.2 = false → cheb c (x, y) ≤ r → False := by
  intro c h1 h2 h3 h4 h5 h6
  unfold ringScan at h
  rw [List.findSome?_eq_none_iff] at h
  unfold cheb at h6
  rw [max_le_iff, abs_le, abs_le] at h6
  have hoy : (c.2 - y) ∈ rangeZ (-r) (r + 1) := by
    rw [mem_rangeZ]
    omega
  have h7 := h (c.2 - y) hoy
  rw [List.findSome?_eq_none_iff] at h7
  have hox : (c.1 - x) ∈ rangeZ (-r) (r + 1) := by
    rw [mem_rangeZ]
    omega
  have h8 := h7 (c.1 - x) hox
  rw [show x + (c.1 - x) = c.1 by ring, show y + (c.2 - y) = c.2 by ring] at h8
  rw [if_pos ⟨h1, h2, h3, h4, h5⟩] at h8
  cases h8

/-- A successful `_find_nearest_open` returns an in-bounds open cell within
the radius; and when the center itself is blocked, no open in-bounds cell is
strictly Chebyshev-closer than the returned one. -/
theorem findNearestOpen_minimal {g : Grid} {cols rows x y : ℤ} {radius : ℕ} {c : ℤ × ℤ}
    (h : findNearestOpen g cols rows x y radius = some c) :
    (0 ≤ c.1 ∧ c.1 < cols ∧ 0 ≤ c.2 ∧ c.2 < rows ∧ isBlocked g c.1 c.2 = false ∧
      cheb c (x, y) ≤ (radius : ℤ)) ∧
    (isBlocked g x y = true →
      ∀ c' : ℤ × ℤ, 0 ≤ c'.1 → c'.1 < cols → 0 ≤ c'.2 → c'.2 < rows →
        isBlocked g c'.1 c'.2 = false → cheb c (x, y) ≤ cheb c' (x, y)) := by
  unfold findNearestOpen at h
  obtain ⟨l1, ri, l2, hsplit, hf, hnone⟩ := findSome_first _ _ _ h
  have hlen : radius = l1.length + (l2.length + 1) := by
    have h1 := congrArg List.length hsplit
    simpa [List.length_range, List.length_append] using h1
  have hril : (List.range radius)[l1.length]? = some ri := by
    rw [hsplit, List.getElem?_append_right (le_refl _)]
    simp
  have hri : ri = l1.length := by
    have h2 : (List.range radius)[l1.length]? = some l1.length := by
      rw [List.getElem?_eq_getElem (by simpa using by omega : l1.length < (List.range radius).length)]
      simp
    rw [h2] at hril
    exact (Option.some.injEq _ _ ▸ hril.symm : _)
  have hmem_l1 : ∀ j : ℕ, j < l1.length → j ∈ l1 := by
    intro j hj
    have h2 : (List.range radius)[j]? = some j := by
      rw [List.getElem?_eq_getElem (by simp; omega : j < (List.range radius).length)]
      simp
    rw [hsplit, List.getElem?_append_left hj] at h2
    exact List.getElem?_mem h2
  obtain ⟨hb1, hb2, hb3, hb4, hb5, hb6⟩ := ringScan_some hf
  have hriub : (ri : ℤ) + 1 ≤ (radius : ℤ) := by
    rw [hri]
    omega
  refine ⟨⟨hb1, hb2, hb3, hb4, hb5, le_trans hb6 hriub⟩, ?_⟩
  intro hcb c' h1 h2 h3 h4 h5
  by_contra hlt
  rw [not_le] at hlt
  have hc'pos : 1 ≤ cheb c' (x, y) := by
    by_contra hc0
    rw [not_le] at hc0
    have he1 : c'.1 = x ∧ c'.2 = y := by
      unfold cheb at hc0
      rw [max_lt_iff, abs_lt, abs_lt] at hc0
      omega
    rw [he1.1, he1.2] at h5
    rw [h5] at hcb
    cases hcb
  have hrj : ((cheb c' (x, y) - 1).toNat) ∈ l1 := by
    refine hmem_l1 _ ?_
    rw [← hri]
    omega
  have hn := hnone _ hrj
  refine ringScan_none hn c' h1 h2 h3 h4 h5 ?_
  omega

/-- C3 (confirmed): when `rebuild` completes with a valid field
(`flowRebuildCore = some (t, d)`): the root `t` is the clamped target tile
when that tile is walkable, else the first-found walkable in-bounds cell
within Chebyshev radius 8 — which is Chebyshev-nearest among all walkable
in-bounds cells; the root's entry is 0; every entry is `-1` or a non-negative
integer; every non-negative entry is the exact shortest 4-connected
path length through non-solid cells from the root; and `-1` marks exactly
the cells unreachable from the root. -/
theorem C3_theorem (g : Grid) (px py : ℚ) (t : ℤ × ℤ) (d : List (List ℤ))
    (heq : flowRebuildCore g px py = some (t, d)) :
    (∀ tx0 ty0 : ℤ,
      tx0 = max 0 (min (((g.headD []).length : ℤ) - 1) (tileOf px)) →
      ty0 = max 0 (min ((g.length : ℤ) - 1) (tileOf py)) →
      ((isBlocked g tx0 ty0 = false → t = (tx0, ty0)) ∧
       (isBlocked g tx0 ty0 = true →
         (isBlocked g t.1 t.2 = false ∧ cheb t (tx0, ty0) ≤ 8 ∧
          ∀ c' : ℤ × ℤ, 0 ≤ c'.1 → c'.1 < ((g.headD []).length : ℤ) → 0 ≤ c'.2 →
            c'.2 < (g.length : ℤ) → isBlocked g c'.1 c'.2 = false →
            cheb t (tx0, ty0) ≤ cheb c' (tx0, ty0))))) ∧
    (distGet d t.2 t.1 = 0 ∧
     (∀ y x : ℤ, distGet d y x = -1 ∨ 0 ≤ distGet d y x) ∧
     (∀ y x : ℤ, 0 ≤ distGet d y x →
       reachN g (g.headD []).length g.length t (distGet d y x).toNat (x, y) ∧
       (∀ n, reachN g (g.headD []).length g.length t n (x, y) →
         distGet d y x ≤ (n : ℤ))) ∧
     (∀ y x : ℤ, distGet d y x = -1 →
       ∀ n, ¬reachN g (g.headD []).length g.length t n (x, y))) := by
  have hroot := flowRebuildCore_root heq
  have hb : inBnd (g.headD []).length g.length t :=
    ⟨hroot.1, hroot.2.1, hroot.2.2.1, hroot.2.2.2.1⟩
  simp only [flowRebuildCore] at heq
  split at heq
  · cases heq
  · rename_i hnz
    rw [Option.map_eq_some'] at heq
    obtain ⟨t0, ht0, hpair⟩ := heq
    have hfst : t0 = t := congrArg Prod.fst hpair
    rw [hfst] at ht0 hpair
    have hd : d = bfsRun g ((g.headD []).length : ℤ) (g.length : ℤ)
        (distSet (List.replicate (g.length : ℤ).toNat
          (List.replicate ((g.headD []).length : ℤ).toNat (-1))) t.2 t.1 0) [t] :=
      (congrArg Prod.snd hpair).symm
    have e1 : ((g.length : ℤ)).toNat = g.length := by omega
    have e2 : (((g.headD []).length : ℤ)).toNat = (g.headD []).length := by omega
    rw [e1, e2] at hd
    constructor
    · intro tx0 ty0 htx hty
      subst htx
      subst hty
      split at ht0
      · rename_i hbl
        obtain ⟨⟨m1, m2, m3, m4, m5, m6⟩, hmin⟩ := findNearestOpen_minimal ht0
        refine ⟨?_, fun _ => ⟨m5, by simpa using m6, hmin hbl⟩⟩
        intro hff
        rw [hff] at hbl
        cases hbl
      · rename_i hbl
        have hbl2 : isBlocked g (max 0 (min (((g.headD []).length : ℤ) - 1) (tileOf px)))
            (max 0 (min ((g.length : ℤ) - 1) (tileOf py))) = false := by
          cases hbv : isBlocked g (max 0 (min (((g.headD []).length : ℤ) - 1) (tileOf px)))
              (max 0 (min ((g.length : ℤ) - 1) (tileOf py))) with
          | false => rfl
          | true => exact absurd hbv hbl
        injection ht0 with h1
        exact ⟨fun _ => h1.symm, fun htr => absurd htr (by rw [hbl2]; decide)⟩
    · exact bfsRun_spec hb d hd

/-- C3 (witness): the characterization applied at the concrete 2×2 grid
`c4grid` with the target at world position (0, 0): the root is the open tile
`(0, 0)` with entry 0, and the drained field is `c4dist`. -/
theorem C3_witness :
    (∀ tx0 ty0 : ℤ,
      tx0 = max 0 (min (((c4grid.headD []).length : ℤ) - 1) (tileOf 0)) →
      ty0 = max 0 (min ((c4grid.length : ℤ) - 1) (tileOf 0)) →
      ((isBlocked c4grid tx0 ty0 = false → ((0 : ℤ), (0 : ℤ)) = (tx0, ty0)) ∧
       (isBlocked c4grid tx0 ty0 = true →
         (isBlocked c4grid ((0 : ℤ), (0 : ℤ)).1 ((0 : ℤ), (0 : ℤ)).2 = false ∧
          cheb ((0 : ℤ), (0 : ℤ)) (tx0, ty0) ≤ 8 ∧
          ∀ c' : ℤ × ℤ, 0 ≤ c'.1 → c'.1 < ((c4grid.headD []).length : ℤ) → 0 ≤ c'.2 →
            c'.2 < (c4grid.length : ℤ) → isBlocked c4grid c'.1 c'.2 = false →
            cheb ((0 : ℤ), (0 : ℤ)) (tx0, ty0) ≤ cheb c' (tx0, ty0))))) ∧
    (distGet c4dist ((0 : ℤ), (0 : ℤ)).2 ((0 : ℤ), (0 : ℤ)).1 = 0 ∧
     (∀ y x : ℤ, distGet c4dist y x = -1 ∨ 0 ≤ distGet c4dist y x) ∧
     (∀ y x : ℤ, 0 ≤ distGet c4dist y x →
       reachN c4grid (c4grid.headD []).length c4grid.length ((0 : ℤ), (0 : ℤ))
         (distGet c4dist y x).toNat (x, y) ∧
       (∀ n, reachN c4grid (c4grid.headD []).length c4grid.length ((0 : ℤ), (0 : ℤ))
         n (x, y) → distGet c4dist y x ≤ (n : ℤ))) ∧
     (∀ y x : ℤ, distGet c4dist y x = -1 →
       ∀ n, ¬reachN c4grid (c4grid.headD []).length c4grid.length ((0 : ℤ), (0 : ℤ))
         n (x, y))) := by
  have h0 : tileOf 0 = 0 := by
    unfold tileOf
    rw [show ((0 : ℚ) / 48) = ((0 : ℤ) : ℚ) by norm_num, Int.floor_intCast]
  have heq : flowRebuildCore c4grid 0 0 = some (((0 : ℤ), (0 : ℤ)), c4dist) := by
    simp only [flowRebuildCore, h0]
    decide
  exact C3_theorem c4grid 0 0 ((0 : ℤ), (0 : ℤ)) c4dist heq

end Platformer
